import Mathlib

/-!
# Migration task engine of mig-controller

A shallow embedding of `pkg/controller/migmigration/task.go`: the phase
constants, the flag bits, the five itineraries, the `Task` state and its
operations `init`, `next`, `allFlags`, `anyFlags`, `fail`, `addErrors` and
`Run`.  Go pointer receivers become state passing: an operation on `*Task`
is a function from `Task` to `Task`.

The fields `Log`, `Client`, `Annotations`, `BackupResources` and
`ExcludedResources` of `Task` are not read by any of the embedded
operations and are left out.
-/

namespace Mig

/-! ## Requeue durations (`time.Duration`, nanoseconds) -/

def Millisecond : Nat := 1000000
def Second : Nat := 1000 * Millisecond

def FastReQ : Nat := Millisecond * 100
def PollReQ : Nat := Second * 3
def NoReQ : Nat := 0

/-! ## Phases -/

def Created : String := ""
def Started : String := "Started"
def Prepare : String := "Prepare"
def EnsureCloudSecretPropagated : String := "EnsureCloudSecretPropagated"
def PreBackupHooks : String := "PreBackupHooks"
def PostBackupHooks : String := "PostBackupHooks"
def PreRestoreHooks : String := "PreRestoreHooks"
def PostRestoreHooks : String := "PostRestoreHooks"
def PreBackupHooksFailed : String := "PreBackupHooksFailed"
def PostBackupHooksFailed : String := "PostBackupHooksFailed"
def PreRestoreHooksFailed : String := "PreRestoreHooksFailed"
def PostRestoreHooksFailed : String := "PostRestoreHooksFailed"
def EnsureInitialBackup : String := "EnsureInitialBackup"
def InitialBackupCreated : String := "InitialBackupCreated"
def InitialBackupFailed : String := "InitialBackupFailed"
def AnnotateResources : String := "AnnotateResources"
def EnsureStagePodsFromRunning : String := "EnsureStagePodsFromRunning"
def EnsureStagePodsFromTemplates : String := "EnsureStagePodsFromTemplates"
def EnsureStagePodsFromOrphanedPVCs : String := "EnsureStagePodsFromOrphanedPVCs"
def StagePodsCreated : String := "StagePodsCreated"
def RestartRestic : String := "RestartRestic"
def ResticRestarted : String := "ResticRestarted"
def QuiesceApplications : String := "QuiesceApplications"
def EnsureQuiesced : String := "EnsureQuiesced"
def UnQuiesceApplications : String := "UnQuiesceApplications"
def EnsureStageBackup : String := "EnsureStageBackup"
def StageBackupCreated : String := "StageBackupCreated"
def StageBackupFailed : String := "StageBackupFailed"
def EnsureInitialBackupReplicated : String := "EnsureInitialBackupReplicated"
def EnsureStageBackupReplicated : String := "EnsureStageBackupReplicated"
def EnsureStageRestore : String := "EnsureStageRestore"
def StageRestoreCreated : String := "StageRestoreCreated"
def StageRestoreFailed : String := "StageRestoreFailed"
def EnsureFinalRestore : String := "EnsureFinalRestore"
def FinalRestoreCreated : String := "FinalRestoreCreated"
def FinalRestoreFailed : String := "FinalRestoreFailed"
def Verification : String := "Verification"
def EnsureStagePodsDeleted : String := "EnsureStagePodsDeleted"
def EnsureStagePodsTerminated : String := "EnsureStagePodsTerminated"
def EnsureAnnotationsDeleted : String := "EnsureAnnotationsDeleted"
def EnsureLabelsDeleted : String := "EnsureLabelsDeleted"
def EnsureMigratedDeleted : String := "EnsureMigratedDeleted"
def DeleteMigrated : String := "DeleteMigrated"
def DeleteBackups : String := "DeleteBackups"
def DeleteRestores : String := "DeleteRestores"
def MigrationFailed : String := "MigrationFailed"
def Canceling : String := "Canceling"
def Canceled : String := "Canceled"
def Completed : String := "Completed"

/-! ## Flags (bits of the `uint8` masks of a step) -/

def Quiesce : Nat := 0x01
def HasStagePods : Nat := 0x02
def HasPVs : Nat := 0x04
def HasVerify : Nat := 0x08

/-- Step of an itinerary: a phase name, the `all` mask (step included when
ALL flags evaluate true) and the `any` mask (step included when ANY flag
evaluates true).  The masks are `uint8` in the source; here they are natural
numbers, 8-bit when below 256. -/
structure Step where
  phase : String
  all : Nat := 0
  any : Nat := 0
deriving DecidableEq, Repr

structure Itinerary where
  Name : String
  Steps : List Step
deriving DecidableEq, Repr

def StageItinerary : Itinerary :=
  { Name := "Stage"
    Steps := [
      { phase := Created },
      { phase := Started },
      { phase := Prepare },
      { phase := EnsureCloudSecretPropagated },
      { phase := EnsureStagePodsFromRunning, all := HasPVs },
      { phase := EnsureStagePodsFromTemplates, all := HasPVs },
      { phase := EnsureStagePodsFromOrphanedPVCs, all := HasPVs },
      { phase := StagePodsCreated, all := HasStagePods },
      { phase := AnnotateResources, all := HasPVs },
      { phase := RestartRestic, all := HasStagePods },
      { phase := ResticRestarted, all := HasStagePods },
      { phase := QuiesceApplications, all := Quiesce },
      { phase := EnsureQuiesced, all := Quiesce },
      { phase := EnsureStageBackup, all := HasPVs },
      { phase := StageBackupCreated, all := HasPVs },
      { phase := EnsureStageBackupReplicated, all := HasPVs },
      { phase := EnsureStageRestore, all := HasPVs },
      { phase := StageRestoreCreated, all := HasPVs },
      { phase := EnsureStagePodsDeleted, all := HasStagePods },
      { phase := EnsureStagePodsTerminated, all := HasStagePods },
      { phase := EnsureAnnotationsDeleted, all := HasPVs },
      { phase := EnsureLabelsDeleted },
      { phase := Completed } ] }

def FinalItinerary : Itinerary :=
  { Name := "Final"
    Steps := [
      { phase := Created },
      { phase := Started },
      { phase := Prepare },
      { phase := EnsureCloudSecretPropagated },
      { phase := PreBackupHooks },
      { phase := EnsureInitialBackup },
      { phase := InitialBackupCreated },
      { phase := EnsureStagePodsFromRunning, all := HasPVs },
      { phase := EnsureStagePodsFromTemplates, all := HasPVs },
      { phase := EnsureStagePodsFromOrphanedPVCs, all := HasPVs },
      { phase := StagePodsCreated, all := HasStagePods },
      { phase := AnnotateResources, all := HasPVs },
      { phase := RestartRestic, all := HasStagePods },
      { phase := ResticRestarted, all := HasStagePods },
      { phase := QuiesceApplications, all := Quiesce },
      { phase := EnsureQuiesced, all := Quiesce },
      { phase := EnsureStageBackup, all := HasPVs },
      { phase := StageBackupCreated, all := HasPVs },
      { phase := EnsureStageBackupReplicated, all := HasPVs },
      { phase := EnsureStageRestore, all := HasPVs },
      { phase := StageRestoreCreated, all := HasPVs },
      { phase := EnsureStagePodsDeleted, all := HasStagePods },
      { phase := EnsureStagePodsTerminated, all := HasStagePods },
      { phase := EnsureAnnotationsDeleted, all := HasPVs },
      { phase := EnsureInitialBackupReplicated },
      { phase := PostBackupHooks },
      { phase := PreRestoreHooks },
      { phase := EnsureFinalRestore },
      { phase := FinalRestoreCreated },
      { phase := EnsureLabelsDeleted },
      { phase := PostRestoreHooks },
      { phase := Verification, all := HasVerify },
      { phase := Completed } ] }

def FinalItineraryNoPVs : Itinerary :=
  { Name := "FinalNoPVs"
    Steps := [
      { phase := Created },
      { phase := Started },
      { phase := Prepare },
      { phase := EnsureCloudSecretPropagated },
      { phase := PreBackupHooks },
      { phase := EnsureInitialBackup },
      { phase := InitialBackupCreated },
      { phase := QuiesceApplications, all := Quiesce },
      { phase := EnsureQuiesced, all := Quiesce },
      { phase := EnsureInitialBackupReplicated },
      { phase := PostBackupHooks },
      { phase := PreRestoreHooks },
      { phase := EnsureFinalRestore },
      { phase := FinalRestoreCreated },
      { phase := EnsureLabelsDeleted },
      { phase := PostRestoreHooks },
      { phase := Verification, all := HasVerify },
      { phase := Completed } ] }

def CancelItinerary : Itinerary :=
  { Name := "Cancel"
    Steps := [
      { phase := Canceling },
      { phase := DeleteBackups },
      { phase := DeleteRestores },
      { phase := EnsureStagePodsDeleted, all := HasStagePods },
      { phase := EnsureAnnotationsDeleted, all := HasPVs },
      { phase := DeleteMigrated },
      { phase := EnsureMigratedDeleted },
      { phase := UnQuiesceApplications, all := Quiesce },
      { phase := Canceled },
      { phase := Completed } ] }

def FailedItinerary : Itinerary :=
  { Name := "Failed"
    Steps := [
      { phase := MigrationFailed },
      { phase := EnsureStagePodsDeleted, all := HasStagePods },
      { phase := EnsureAnnotationsDeleted, all := HasPVs },
      { phase := DeleteMigrated },
      { phase := EnsureMigratedDeleted },
      { phase := UnQuiesceApplications, all := Quiesce },
      { phase := Completed } ] }

/-! ## The migration resource (`migapi`)

The package `pkg/apis/migration/v1alpha1` is present only through
`gvk.go` and `mighook_types.go`; the condition and error helpers that
`task.go` calls are modelled below. -/

/-- Modelled from the spec: the status condition record of `migapi`
(`type, status, reason, category, message, durable, items`), which is not
under `src/`.  The field `Type` is written `Type_`. -/
structure Condition where
  Type_ : String
  Status : String
  Reason : String := ""
  Category : String := ""
  Message : String := ""
  Durable : Bool := false
  Items : List String := []
deriving DecidableEq, Repr

/-- Modelled from the spec: `migapi.True`, the status of a condition that is set. -/
def True_ : String := "True"

/-- Modelled from the spec: `migapi.False`. -/
def False_ : String := "False"

/-- Modelled from the spec: the `Failed` condition type. -/
def Failed : String := "Failed"

/-- Modelled from the spec: the category `Advisory`. -/
def Advisory : String := "Advisory"

/-- Modelled from the spec: the category `Warn`. -/
def Warn : String := "Warn"

/-- Modelled from the spec: the category `Critical`. -/
def Critical : String := "Critical"

structure MigMigrationSpec where
  Stage : Bool := false
  QuiescePods : Bool := false
  KeepAnnotations : Bool := false
  Verify : Bool := false
  Canceled : Bool := false
deriving DecidableEq, Repr

structure MigMigrationStatus where
  Conditions : List Condition := []
  Errors : List String := []
  Itenerary : String := ""
  Phase : String := ""
deriving DecidableEq, Repr

structure MigMigration where
  Namespace : String := ""
  Name : String := ""
  Spec : MigMigrationSpec := {}
  Status : MigMigrationStatus := {}
deriving DecidableEq, Repr

/-- Modelled from the spec: `Conditions.HasCondition(type)` of `migapi`, not
under `src/`: the list holds a condition of this type whose status is
`True`. -/
def MigMigrationStatus.HasCondition (r : MigMigrationStatus) (cndType : String) : Bool :=
  r.Conditions.any (fun c => c.Type_ == cndType && c.Status == True_)

/-- Modelled from the spec: `Conditions.HasAnyCondition(types...)` of
`migapi`, not under `src/`: one of the types is held. -/
def MigMigrationStatus.HasAnyCondition (r : MigMigrationStatus) (types : List String) : Bool :=
  types.any (fun ty => r.HasCondition ty)

/-- Modelled from the spec: `Conditions.SetCondition(condition)` of `migapi`,
not under `src/`: the condition replaces the one of its type, or is appended
when the list has none of that type. -/
def MigMigrationStatus.SetCondition (r : MigMigrationStatus) (condition : Condition) :
    MigMigrationStatus :=
  if r.Conditions.any (fun c => c.Type_ == condition.Type_) then
    { r with
      Conditions := r.Conditions.map (fun c => if c.Type_ == condition.Type_ then condition else c) }
  else
    { r with Conditions := r.Conditions ++ [condition] }

/-- Modelled from the spec: `Conditions.DeleteCondition(type)` of `migapi`,
not under `src/`: every condition of this type is removed. -/
def MigMigrationStatus.DeleteCondition (r : MigMigrationStatus) (cndType : String) :
    MigMigrationStatus :=
  { r with Conditions := r.Conditions.filter (fun c => !(c.Type_ == cndType)) }

/-- Modelled from the spec: `MigMigration.HasErrors()` of `migapi`, not under
`src/`: the migration's error list is not empty. -/
def MigMigration.HasErrors (r : MigMigration) : Bool :=
  !r.Status.Errors.isEmpty

/-- Modelled from the spec: `MigMigration.AddErrors(errors)` of `migapi`, not
under `src/`: the errors are appended to the migration's error list. -/
def MigMigration.AddErrors (r : MigMigration) (errors : List String) : MigMigration :=
  { r with Status := { r.Status with Errors := r.Status.Errors ++ errors } }

/-! ## The plan -/

/-- Modelled from the spec: `migapi.PvSkipAction`, the action `skip` of a
selected PV (`action ∈ copy|move|skip`). -/
def PvSkipAction : String := "skip"

structure Selection where
  Action : String := ""
  CopyMethod : String := ""
deriving DecidableEq, Repr

structure PV where
  Name : String := ""
  Selection : Selection := {}
deriving DecidableEq, Repr

/-- The plan as `task.go` reads it: the list
`Spec.PersistentVolumes.List`, and the result of the method
`MigratePVsInFinal()`, which is not under `src/` and is carried as a field. -/
structure MigPlan where
  PersistentVolumes : List PV := []
  MigratePVsInFinal : Bool := false
deriving DecidableEq, Repr

structure MigCluster where
  Name : String := ""
deriving DecidableEq, Repr

structure PlanResources where
  MigPlan : MigPlan := {}
  SrcMigCluster : MigCluster := {}
  DestMigCluster : MigCluster := {}
deriving DecidableEq, Repr

/-! ## The task -/

structure Task where
  Owner : MigMigration := {}
  PlanResources : PlanResources := {}
  Phase : String := ""
  Requeue : Nat := 0
  Itinerary : Itinerary := { Name := "", Steps := [] }
  Errors : List String := []
deriving DecidableEq, Repr

/-- Package constants of `migmigration` that `task.go` uses and that are
declared in files not under `src/`; they are taken as parameters. -/
structure Consts where
  StageNoOp : String
  StageNoOpMessage : String
  FailedMessage : String
  Cancel : String
  CancelInProgressMessage : String
  CanceledMessage : String
deriving DecidableEq, Repr

/-- Application settings read by `Run`: `Settings.Migration.FailureRollback`. -/
structure MigrationSettings where
  FailureRollback : Bool := false
deriving DecidableEq, Repr

structure Settings where
  Migration : MigrationSettings := {}
deriving DecidableEq, Repr

/-! ## Backups and restores of the BR engine (`velero`), as `Run` reads them -/

def BackupPhaseNew : String := "New"
def BackupPhaseFailedValidation : String := "FailedValidation"
def BackupPhaseInProgress : String := "InProgress"
def BackupPhaseCompleted : String := "Completed"
def BackupPhasePartiallyFailed : String := "PartiallyFailed"
def BackupPhaseFailed : String := "Failed"

structure BackupProgress where
  TotalItems : Int := 0
  ItemsBackedUp : Int := 0
deriving DecidableEq, Repr

/-- The status of a backup.  `Progress` is a pointer in `velero`
(`*BackupProgress`), `none` standing for `nil`. -/
structure BackupStatus where
  Phase : String := ""
  ValidationErrors : List String := []
  Progress : Option BackupProgress := none
deriving DecidableEq, Repr

structure Backup where
  Namespace : String := ""
  Name : String := ""
  Status : BackupStatus := {}
deriving DecidableEq, Repr

structure Restore where
  Namespace : String := ""
  Name : String := ""
  Phase : String := ""
deriving DecidableEq, Repr

/-! ## Hook phases (`mighook_types.go`) -/

def PreBackupHookPhase : String := "PreBackup"
def PostBackupHookPhase : String := "PostBackup"
def PreRestoreHookPhase : String := "PreRestore"
def PostRestoreHookPhase : String := "PostRestore"

/-- A cluster-facing helper of the task, seen from `Run`: given the task it
leaves the migration resource in some state and yields a value or an
error. -/
abbrev Op (α : Type) := Task → MigMigration × Except String α

/-- The helpers that the phase handlers of `Run` call.  They talk to the two
clusters, or live in files not under `src/`; `Run` is embedded for every
behaviour of them.  A helper that returns only `error` yields `Unit`. -/
structure Ops where
  ensureStagePodsDeleted : Op Unit
  deleteAnnotations : Op Unit
  deleteLabels : Op Unit
  veleroPodCredSecretPropagated : MigCluster → Op Bool
  runHooks : String → Op Bool
  ensureInitialBackup : Op Unit
  getInitialBackup : Op (Option Backup)
  annotateStageResources : Op Unit
  ensureStagePodsFromRunning : Op Unit
  ensureStagePodsFromTemplates : Op Unit
  ensureStagePodsFromOrphanedPVCs : Op Unit
  ensureStagePodsStarted : Op Bool
  restartResticPods : Op Unit
  haveResticPodsStarted : Op Bool
  quiesceApplications : Op Unit
  ensureQuiescedPodsTerminated : Op Bool
  unQuiesceApplications : Op Unit
  ensureStageBackup : Op Unit
  getStageBackup : Op (Option Backup)
  isBackupReplicated : Backup → Op Bool
  ensureStageRestore : Op Unit
  getStageRestore : Op (Option Restore)
  getFinalRestore : Op (Option Restore)
  ensureFinalRestore : Op Unit
  hasRestoreCompleted : Restore → Task → MigMigration × (Bool × List String)
  setResticConditions : Restore → Task → MigMigration
  ensureStagePodsTerminated : Op Bool
  VerificationCompleted : Op Bool
  deleteMigrated : Op Unit
  ensureMigratedResourcesDeleted : Op Bool
  deleteBackups : Op Unit
  deleteRestores : Op Unit
  getPodVolumeBackupsProgress : Backup → Task → List String
  setProgress : List String → Task → MigMigration

namespace Task

/-- Get whether the migration has failed. -/
def failed (t : Task) : Bool :=
  t.Owner.HasErrors || t.Owner.Status.HasCondition Failed

/-- Get whether the migration is cancelled. -/
def canceled (t : Task) : Bool :=
  t.Owner.Spec.Canceled || t.Owner.Status.HasAnyCondition [Canceled, Canceling]

/-- Get whether the migration is stage. -/
def stage (t : Task) : Bool :=
  t.Owner.Spec.Stage

/-- Get whether to quiesce pods. -/
def quiesce (t : Task) : Bool :=
  t.Owner.Spec.QuiescePods

/-- Get whether to retain annotations. -/
def keepAnnotations (t : Task) : Bool :=
  t.Owner.Spec.KeepAnnotations

/-- Get whether the associated plan lists not skipped PVs. -/
def hasPVs (t : Task) : Bool :=
  t.PlanResources.MigPlan.PersistentVolumes.any (fun pv => pv.Selection.Action != PvSkipAction)

/-- Get whether the verification is desired. -/
def hasVerify (t : Task) : Bool :=
  t.Owner.Spec.Verify

/-- Get both source and destination clusters. -/
def getBothClusters (t : Task) : List MigCluster :=
  [t.PlanResources.SrcMigCluster, t.PlanResources.DestMigCluster]

/-- The call `t.Owner.Status.SetCondition(condition)` on the task's migration. -/
def setCondition (t : Task) (condition : Condition) : Task :=
  { t with Owner := { t.Owner with Status := t.Owner.Status.SetCondition condition } }

/-- The call `t.Owner.Status.DeleteCondition(type)` on the task's migration. -/
def deleteCondition (t : Task) (cndType : String) : Task :=
  { t with Owner := { t.Owner with Status := t.Owner.Status.DeleteCondition cndType } }

/-- Evaluate `all` flags. -/
def allFlags (t : Task) (step : Step) : Bool :=
  if step.all &&& HasPVs != 0 && !t.hasPVs then false
  else if step.all &&& HasStagePods != 0 && !t.Owner.Status.HasCondition StagePodsCreated then false
  else if step.all &&& Quiesce != 0 && !t.quiesce then false
  else if step.all &&& HasVerify != 0 && !t.hasVerify then false
  else true

/-- Evaluate `any` flags. -/
def anyFlags (t : Task) (step : Step) : Bool :=
  if step.any &&& HasPVs != 0 && t.hasPVs then true
  else if step.any &&& HasStagePods != 0 && t.Owner.Status.HasCondition StagePodsCreated then true
  else if step.any &&& Quiesce != 0 && t.quiesce then true
  else if step.any &&& HasVerify != 0 && t.hasVerify then true
  else step.any == 0

/-- The phase of `Steps[0]`.  Every itinerary that `init` assigns is one of
the five constant ones, none of which is empty, so the index exists. -/
def firstPhase (it : Mig.Itinerary) : String :=
  match it.Steps with
  | s :: _ => s.phase
  | [] => ""

/-- Initialize. -/
def init (k : Consts) (t : Task) : Task :=
  let t := { t with Requeue := FastReQ }
  let t :=
    if t.failed then { t with Itinerary := FailedItinerary }
    else if t.canceled then { t with Itinerary := CancelItinerary }
    else if t.stage then { t with Itinerary := StageItinerary }
    else if t.PlanResources.MigPlan.MigratePVsInFinal then { t with Itinerary := FinalItinerary }
    else { t with Itinerary := FinalItineraryNoPVs }
  let t :=
    if t.Owner.Status.Itenerary != t.Itinerary.Name then
      { t with Phase := firstPhase t.Itinerary }
    else t
  if t.stage && !t.hasPVs then
    t.setCondition
      { Type_ := k.StageNoOp, Status := True_, Category := Warn,
        Message := k.StageNoOpMessage, Durable := true }
  else t

/-- First loop of `next`: the index of the first step whose phase is the
given one (`none` stands for the source's `-1`). -/
def currentIndex : List Step → String → Option Nat
  | [], _ => none
  | step :: rest, phase =>
    if step.phase != phase then (currentIndex rest phase).map (· + 1) else some 0

/-- Second loop of `next`, run over the steps from index `current + 1` on:
the first step that passes `allFlags` and `anyFlags`. -/
def firstEligible (t : Task) : List Step → Option Step
  | [] => none
  | next :: rest =>
    if !t.allFlags next then firstEligible t rest
    else if !t.anyFlags next then firstEligible t rest
    else some next

/-- Advance the task to the next phase. -/
def next (t : Task) : Task :=
  match currentIndex t.Itinerary.Steps t.Phase with
  | none => { t with Phase := Completed }
  | some current =>
    match firstEligible t (t.Itinerary.Steps.drop (current + 1)) with
    | some next => { t with Phase := next.phase }
    | none => { t with Phase := Completed }

/-- Add errors. -/
def addErrors (t : Task) (errors : List String) : Task :=
  errors.foldl (fun t error => { t with Errors := t.Errors ++ [error] }) t

/-- Phase fail. -/
def fail (k : Consts) (t : Task) (nextPhase : String) (reasons : List String) : Task :=
  let t := t.addErrors reasons
  let t := { t with Owner := t.Owner.AddErrors t.Errors }
  let t := t.setCondition
    { Type_ := Failed, Status := True_, Reason := t.Phase, Category := Advisory,
      Message := k.FailedMessage, Durable := true }
  { t with Phase := nextPhase }

/-- Call of a cluster-facing helper on the task. -/
def call {α : Type} (t : Task) (op : Op α) : Task × Except String α :=
  ({ t with Owner := (op t).1 }, (op t).2)

/-- The text of the run-time panic on the dereference of a nil pointer. -/
def nilDereference : String :=
  "runtime error: invalid memory address or nil pointer dereference"

/-- Get whether a backup has completed on the source cluster.  The progress
lines of the per-volume backups are those of `getPodVolumeBackupsProgress`
on the list that `getPodVolumeBackupsForBackup` reads from the cluster.
The case `InProgress` dereferences the pointer `backup.Status.Progress`
without a nil check: on `nil` the call panics, before `setProgress`, and
returns nothing (`none`). -/
def hasBackupCompleted (ops : Ops) (t : Task) (backup : Backup) :
    Option (Task × Bool × List String) :=
  let pvbProgress := ops.getPodVolumeBackupsProgress backup t
  let r : Option (Bool × List String × List String) :=
    if backup.Status.Phase == BackupPhaseNew then
      some (false, [],
        ["Backup " ++ backup.Namespace ++ "/" ++ backup.Name ++ ": Not started yet"])
    else if backup.Status.Phase == BackupPhaseInProgress then
      match backup.Status.Progress with
      | none => none
      | some progress =>
        some (false, [],
          ["Backup " ++ backup.Namespace ++ "/" ++ backup.Name ++ ": " ++
              toString progress.ItemsBackedUp ++ " out of estimated total of " ++
              toString progress.TotalItems ++ " objects backed up"] ++ pvbProgress)
    else if backup.Status.Phase == BackupPhaseCompleted then
      some (true, [],
        ["Backup " ++ backup.Namespace ++ "/" ++ backup.Name ++ ": Completed"] ++ pvbProgress)
    else if backup.Status.Phase == BackupPhaseFailed then
      let message := "Backup: " ++ backup.Namespace ++ "/" ++ backup.Name ++ " failed."
      some (true, [message], [message] ++ pvbProgress)
    else if backup.Status.Phase == BackupPhasePartiallyFailed then
      let message := "Backup: " ++ backup.Namespace ++ "/" ++ backup.Name ++ " partially failed."
      some (true, [message], [message] ++ pvbProgress)
    else if backup.Status.Phase == BackupPhaseFailedValidation then
      some (true,
        backup.Status.ValidationErrors ++
          ["Backup: " ++ backup.Namespace ++ "/" ++ backup.Name ++ " validation failed."],
        [])
    else some (false, [], [])
  match r with
  | none => none
  | some r => some ({ t with Owner := ops.setProgress r.2.2 t }, r.1, r.2.1)

/-- The loop of the `EnsureCloudSecretPropagated` handler: the count of
clusters, in order, on which the secret is propagated, up to the first one
on which it is not. -/
def countPropagated (ops : Ops) : Task → List MigCluster → Nat → Task × Except String Nat
  | t, [], count => (t, .ok count)
  | t, cluster :: rest, count =>
    match t.call (ops.veleroPodCredSecretPropagated cluster) with
    | (t, .error err) => (t, .error err)
    | (t, .ok propagated) =>
      if propagated then countPropagated ops t rest (count + 1) else (t, .ok count)

/-- Handler shape `err := op(); if err != nil return err; t.Requeue = requeue; t.next()`
(`requeue = none` when the handler leaves the requeue as it is). -/
def stepErr (t : Task) (op : Op Unit) (requeue : Option Nat) : Task × Option String :=
  match t.call op with
  | (t, .error err) => (t, some err)
  | (t, .ok _) =>
    match requeue with
    | some d => (({ t with Requeue := d } : Task).next, none)
    | none => (t.next, none)

/-- Handler shape `ok, err := op(); if err != nil return err;
if ok t.next() else t.Requeue = requeue`. -/
def stepBool (t : Task) (op : Op Bool) (requeue : Nat) : Task × Option String :=
  match t.call op with
  | (t, .error err) => (t, some err)
  | (t, .ok ok) => if ok then (t.next, none) else ({ t with Requeue := requeue }, none)

/-- Handler shape of the four hook phases: an error of `runHooks` fails the
phase with the error text and is returned. -/
def stepHooks (k : Consts) (ops : Ops) (t : Task) (hookPhase failedPhase : String) :
    Task × Option String :=
  match t.call (ops.runHooks hookPhase) with
  | (t, .error err) => (t.fail k failedPhase [err], some err)
  | (t, .ok status) => if status then (t.next, none) else ({ t with Requeue := NoReQ }, none)

/-- Handler shape of `InitialBackupCreated` and `StageBackupCreated`.  A panic
of `hasBackupCompleted` ends the tick there and `Run` returns nothing; the
outcome is recorded as the error `nilDereference`, with the task as the call
of `getBackup` left it. -/
def stepBackupCreated (k : Consts) (ops : Ops) (t : Task) (getBackup : Op (Option Backup))
    (failedPhase : String) : Task × Option String :=
  match t.call getBackup with
  | (t, .error err) => (t, some err)
  | (t, .ok none) => (t, some "Backup not found")
  | (t, .ok (some backup)) =>
    match t.hasBackupCompleted ops backup with
    | none => (t, some nilDereference)
    | some (t, completed, reasons) =>
      if completed then
        if reasons.length > 0 then (t.fail k failedPhase reasons, none) else (t.next, none)
      else ({ t with Requeue := NoReQ }, none)

/-- Handler shape of `EnsureStageBackupReplicated` and `EnsureInitialBackupReplicated`. -/
def stepReplicated (ops : Ops) (t : Task) (getBackup : Op (Option Backup)) :
    Task × Option String :=
  match t.call getBackup with
  | (t, .error err) => (t, some err)
  | (t, .ok none) => (t, some "Backup not found")
  | (t, .ok (some backup)) => t.stepBool (ops.isBackupReplicated backup) NoReQ

/-- Handler shape of `StageRestoreCreated` (`restic = true`, which calls
`setResticConditions` on completion) and `FinalRestoreCreated`. -/
def stepRestoreCreated (k : Consts) (ops : Ops) (t : Task) (getRestore : Op (Option Restore))
    (failedPhase : String) (restic : Bool) : Task × Option String :=
  match t.call getRestore with
  | (t, .error err) => (t, some err)
  | (t, .ok none) => (t, some "Restore not found")
  | (t, .ok (some restore)) =>
    let r := ops.hasRestoreCompleted restore t
    let t := { t with Owner := r.1 }
    if r.2.1 then
      let t := if restic then { t with Owner := ops.setResticConditions restore t } else t
      if r.2.2.length > 0 then (t.fail k failedPhase r.2.2, none) else (t.next, none)
    else ({ t with Requeue := NoReQ }, none)

/-- The `switch t.Phase` of `Run`: the handler of the current phase.  The
result is the task as the handler leaves it and the error that `Run`
returns at once, if any. -/
def dispatch (k : Consts) (settings : Settings) (ops : Ops) (t : Task) : Task × Option String :=
  if t.Phase == Created || t.Phase == Started then (t.next, none)
  else if t.Phase == Prepare then
    match t.call ops.ensureStagePodsDeleted with
    | (t, .error err) => (t, some err)
    | (t, .ok _) => t.stepErr ops.deleteAnnotations none
  else if t.Phase == EnsureCloudSecretPropagated then
    match countPropagated ops t t.getBothClusters 0 with
    | (t, .error err) => (t, some err)
    | (t, .ok count) => if count == 2 then (t.next, none) else ({ t with Requeue := PollReQ }, none)
  else if t.Phase == PreBackupHooks then t.stepHooks k ops PreBackupHookPhase PreBackupHooksFailed
  else if t.Phase == EnsureInitialBackup then t.stepErr ops.ensureInitialBackup (some NoReQ)
  else if t.Phase == InitialBackupCreated then
    t.stepBackupCreated k ops ops.getInitialBackup InitialBackupFailed
  else if t.Phase == AnnotateResources then t.stepErr ops.annotateStageResources none
  else if t.Phase == EnsureStagePodsFromRunning then
    t.stepErr ops.ensureStagePodsFromRunning (some NoReQ)
  else if t.Phase == EnsureStagePodsFromTemplates then
    t.stepErr ops.ensureStagePodsFromTemplates (some NoReQ)
  else if t.Phase == EnsureStagePodsFromOrphanedPVCs then
    t.stepErr ops.ensureStagePodsFromOrphanedPVCs (some NoReQ)
  else if t.Phase == StagePodsCreated then t.stepBool ops.ensureStagePodsStarted NoReQ
  else if t.Phase == RestartRestic then t.stepErr ops.restartResticPods (some PollReQ)
  else if t.Phase == ResticRestarted then t.stepBool ops.haveResticPodsStarted PollReQ
  else if t.Phase == QuiesceApplications then t.stepErr ops.quiesceApplications none
  else if t.Phase == EnsureQuiesced then t.stepBool ops.ensureQuiescedPodsTerminated PollReQ
  else if t.Phase == UnQuiesceApplications then t.stepErr ops.unQuiesceApplications none
  else if t.Phase == EnsureStageBackup then t.stepErr ops.ensureStageBackup (some NoReQ)
  else if t.Phase == StageBackupCreated then
    t.stepBackupCreated k ops ops.getStageBackup StageBackupFailed
  else if t.Phase == EnsureStageBackupReplicated then t.stepReplicated ops ops.getStageBackup
  else if t.Phase == PostBackupHooks then t.stepHooks k ops PostBackupHookPhase PostBackupHooksFailed
  else if t.Phase == PreRestoreHooks then t.stepHooks k ops PreRestoreHookPhase PreRestoreHooksFailed
  else if t.Phase == EnsureStageRestore then t.stepErr ops.ensureStageRestore (some NoReQ)
  else if t.Phase == StageRestoreCreated then
    t.stepRestoreCreated k ops ops.getStageRestore StageRestoreFailed true
  else if t.Phase == EnsureStagePodsDeleted then t.stepErr ops.ensureStagePodsDeleted none
  else if t.Phase == EnsureStagePodsTerminated then t.stepBool ops.ensureStagePodsTerminated PollReQ
  else if t.Phase == EnsureAnnotationsDeleted then
    if !t.keepAnnotations then t.stepErr ops.deleteAnnotations none else (t.next, none)
  else if t.Phase == EnsureLabelsDeleted then
    if !t.keepAnnotations then t.stepErr ops.deleteLabels none else (t.next, none)
  else if t.Phase == EnsureInitialBackupReplicated then t.stepReplicated ops ops.getInitialBackup
  else if t.Phase == EnsureFinalRestore then
    match t.call ops.getInitialBackup with
    | (t, .error err) => (t, some err)
    | (t, .ok none) => (t, some "Backup not found")
    | (t, .ok (some _)) => t.stepErr ops.ensureFinalRestore (some NoReQ)
  else if t.Phase == FinalRestoreCreated then
    t.stepRestoreCreated k ops ops.getFinalRestore FinalRestoreFailed false
  else if t.Phase == PostRestoreHooks then
    t.stepHooks k ops PostRestoreHookPhase PostRestoreHooksFailed
  else if t.Phase == Verification then t.stepBool ops.VerificationCompleted PollReQ
  else if t.Phase == Canceling then
    ((t.setCondition
      { Type_ := Canceling, Status := True_, Reason := k.Cancel, Category := Advisory,
        Message := k.CancelInProgressMessage, Durable := true }).next, none)
  else if t.Phase == MigrationFailed then
    if settings.Migration.FailureRollback then (t.next, none)
    else ({ t with Phase := Completed }, none)
  else if t.Phase == DeleteMigrated then t.stepErr ops.deleteMigrated none
  else if t.Phase == EnsureMigratedDeleted then
    t.stepBool ops.ensureMigratedResourcesDeleted PollReQ
  else if t.Phase == DeleteBackups then t.stepErr ops.deleteBackups none
  else if t.Phase == DeleteRestores then t.stepErr ops.deleteRestores none
  else if t.Phase == Canceled then
    (((t.deleteCondition Canceling).setCondition
      { Type_ := Canceled, Status := True_, Reason := k.Cancel, Category := Advisory,
        Message := k.CanceledMessage, Durable := true }).next, none)
  else if t.Phase == InitialBackupFailed || t.Phase == FinalRestoreFailed ||
      t.Phase == StageBackupFailed || t.Phase == StageRestoreFailed then
    (({ t with Requeue := NoReQ } : Task).next, none)
  else (t, none)

/-- Run the task.  Each call will: run the current phase, update the phase to
the next phase, set the Requeue (as appropriate), return.  The result is the
task after the call and the returned error (`none` for `nil`). -/
def Run (k : Consts) (settings : Settings) (ops : Ops) (t : Task) : Task × Option String :=
  let t := t.init k
  match dispatch k settings ops t with
  | (t, some err) => (t, some err)
  | (t, none) =>
    if t.Phase == Completed then ({ t with Requeue := NoReQ }, none) else (t, none)

end Task


/-! ## Definitions that the statements use, and concrete instances -/

/-- The migration's derived flag set as a mask: `Quiesce`, `HasStagePods`,
`HasPVs`, `HasVerify`, each set when the task derives it. -/
def flagSet (t : Task) : Nat :=
  (if t.quiesce then Quiesce else 0) |||
  (if t.Owner.Status.HasCondition StagePodsCreated then HasStagePods else 0) |||
  (if t.hasPVs then HasPVs else 0) |||
  (if t.hasVerify then HasVerify else 0)

/-- The four defined flag bits. -/
def definedFlags : Nat := Quiesce ||| HasStagePods ||| HasPVs ||| HasVerify

/-- A step is accepted when it passes `allFlags` and `anyFlags`, the two
tests of the loop of `next`. -/
def Task.accepts (t : Task) (step : Step) : Bool :=
  t.allFlags step && t.anyFlags step

/-- The five itineraries. -/
def itineraries : List Itinerary :=
  [StageItinerary, FinalItinerary, FinalItineraryNoPVs, CancelItinerary, FailedItinerary]

/-- Sample values of the package constants, for the concrete instances. -/
def sampleConsts : Consts :=
  { StageNoOp := "StageNoOp"
    StageNoOpMessage := "Stage migration was run without any PVs."
    FailedMessage := "The migration has failed.  See: Errors."
    Cancel := "Cancel"
    CancelInProgressMessage := "The migration is being canceled."
    CanceledMessage := "The migration has been canceled." }

/-- A final migration recorded in the `Final` itinerary at phase `Prepare`
that the user has just canceled. -/
def sampleCanceledTask : Task :=
  { Owner := { Spec := { Canceled := true }, Status := { Itenerary := "Final" } }
    PlanResources := { MigPlan := { MigratePVsInFinal := true } }
    Phase := Prepare }

/-- A final migration recorded in the `Final` itinerary at phase `Prepare`. -/
def sampleFinalTask : Task :=
  { Owner := { Status := { Itenerary := "Final" } }
    PlanResources := { MigPlan := { MigratePVsInFinal := true } }
    Phase := Prepare }

/-- A step whose `all` mask holds only bit `0x10`, which is none of the four
defined flags. -/
def sampleHighBitStep : Step := { phase := Prepare, all := 0x10 }

/-- A migration with no flag set: no quiesce, no stage pods, no PVs, no
verification. -/
def sampleNoFlagsTask : Task := {}

/-- A step of the kind the itineraries hold, and one with an `any` mask. -/
def sampleAnyStep : Step := { phase := AnnotateResources, all := Quiesce, any := HasPVs ||| HasVerify }

/-- A migration that quiesces and verifies, with no PVs. -/
def sampleQuiesceVerifyTask : Task :=
  { Owner := { Spec := { QuiescePods := true, Verify := true } } }

/-- A stage migration that quiesces, with no PVs and no stage pods, in the
Stage itinerary at phase `EnsureCloudSecretPropagated`. -/
def sampleStageTask : Task :=
  { Owner := { Spec := { Stage := true, QuiescePods := true }, Status := { Itenerary := "Stage" } }
    Phase := EnsureCloudSecretPropagated
    Itinerary := StageItinerary }

/-- The same migration at a phase that the Stage itinerary does not hold. -/
def sampleStrayTask : Task := { sampleStageTask with Phase := DeleteBackups }

/-- Phase `q` is the phase of a step placed after a step of phase `p` in the
step list. -/
def appearsAfter : List Step → String → String → Bool
  | [], _, _ => false
  | s :: rest, p, q => (s.phase == p && rest.any (fun x => x.phase == q)) || appearsAfter rest p q

/-- The out-of-tree phases, entered only through `fail`. -/
def failurePhases : List String :=
  [PreBackupHooksFailed, PostBackupHooksFailed, PreRestoreHooksFailed, PostRestoreHooksFailed,
    InitialBackupFailed, StageBackupFailed, StageRestoreFailed, FinalRestoreFailed]

/-- What one tick may do to the phase `p` of a task in itinerary `I`: keep
it, move it to a later step of `I`, fail it into an out-of-tree phase (the
migration then holds a `Failed` condition or errors, so that the next `init`
selects the Failed itinerary), or, when `p` is no step of `I`, end at
`Completed`. -/
def Forward (I : Itinerary) (p : String) (t' : Task) : Prop :=
  t'.Itinerary = I ∧
  (t'.Phase = p ∨ appearsAfter I.Steps p t'.Phase = true ∨
    (t'.Phase ∈ failurePhases ∧ t'.failed = true) ∨
    (p ∉ I.Steps.map Step.phase ∧ t'.Phase = Completed))

/-- Helpers that all succeed at once and leave the migration as it is. -/
def quietOps : Ops :=
  { ensureStagePodsDeleted := fun t => (t.Owner, .ok ())
    deleteAnnotations := fun t => (t.Owner, .ok ())
    deleteLabels := fun t => (t.Owner, .ok ())
    veleroPodCredSecretPropagated := fun _ t => (t.Owner, .ok true)
    runHooks := fun _ t => (t.Owner, .ok true)
    ensureInitialBackup := fun t => (t.Owner, .ok ())
    getInitialBackup := fun t => (t.Owner, .ok none)
    annotateStageResources := fun t => (t.Owner, .ok ())
    ensureStagePodsFromRunning := fun t => (t.Owner, .ok ())
    ensureStagePodsFromTemplates := fun t => (t.Owner, .ok ())
    ensureStagePodsFromOrphanedPVCs := fun t => (t.Owner, .ok ())
    ensureStagePodsStarted := fun t => (t.Owner, .ok true)
    restartResticPods := fun t => (t.Owner, .ok ())
    haveResticPodsStarted := fun t => (t.Owner, .ok true)
    quiesceApplications := fun t => (t.Owner, .ok ())
    ensureQuiescedPodsTerminated := fun t => (t.Owner, .ok true)
    unQuiesceApplications := fun t => (t.Owner, .ok ())
    ensureStageBackup := fun t => (t.Owner, .ok ())
    getStageBackup := fun t => (t.Owner, .ok none)
    isBackupReplicated := fun _ t => (t.Owner, .ok true)
    ensureStageRestore := fun t => (t.Owner, .ok ())
    getStageRestore := fun t => (t.Owner, .ok none)
    getFinalRestore := fun t => (t.Owner, .ok none)
    ensureFinalRestore := fun t => (t.Owner, .ok ())
    hasRestoreCompleted := fun _ t => (t.Owner, (true, []))
    setResticConditions := fun _ t => t.Owner
    ensureStagePodsTerminated := fun t => (t.Owner, .ok true)
    VerificationCompleted := fun t => (t.Owner, .ok true)
    deleteMigrated := fun t => (t.Owner, .ok ())
    ensureMigratedResourcesDeleted := fun t => (t.Owner, .ok true)
    deleteBackups := fun t => (t.Owner, .ok ())
    deleteRestores := fun t => (t.Owner, .ok ())
    getPodVolumeBackupsProgress := fun _ _ => []
    setProgress := fun _ t => t.Owner }

/-- The initial backup `velero/migration-x7k2p`, reported in phase `Failed`. -/
def sampleFailedBackup : Backup :=
  { Namespace := "velero", Name := "migration-x7k2p", Status := { Phase := BackupPhaseFailed } }

/-- Helpers for a tick on which the BR engine reports the initial backup failed. -/
def failedBackupOps : Ops :=
  { quietOps with getInitialBackup := fun t => (t.Owner, .ok (some sampleFailedBackup)) }

/-- A final migration with PVs, recorded in the `Final` itinerary, waiting in
phase `InitialBackupCreated`. -/
def sampleBackupWaitTask : Task :=
  { Owner := { Status := { Itenerary := "Final" } }
    PlanResources := { MigPlan := { MigratePVsInFinal := true } }
    Phase := InitialBackupCreated }

/-- The task placed at the first step of an itinerary. -/
def Task.start (t : Task) (I : Mig.Itinerary) : Task :=
  { t with Itinerary := I, Phase := Task.firstPhase I }

/-- The task after `n` applications of `next`. -/
def Task.advance (t : Task) : Nat → Task
  | 0 => t
  | n + 1 => (t.advance n).next

/-- A stage migration whose plan lists one PV, with action `skip`. -/
def sampleSkipTask : Task :=
  { Owner := { Spec := { Stage := true } }
    PlanResources := { MigPlan := { PersistentVolumes := [{ Name := "pv1", Selection := { Action := "skip" } }] } } }

/-- A step is kept in the elided itinerary when its `all` mask contains
neither `HasPVs` nor `HasStagePods`. -/
def keptWithoutPVs (s : Step) : Bool :=
  s.all &&& HasPVs == 0 && s.all &&& HasStagePods == 0

/-- The place of a phase in the cross-cluster order: stage backup (1), stage
restore (2), stage-pod deletion (3); `none` for every other phase. -/
def orderRank (phase : String) : Option Nat :=
  if phase ∈ [EnsureStageBackup, StageBackupCreated, EnsureStageBackupReplicated] then some 1
  else if phase ∈ [EnsureStageRestore, StageRestoreCreated] then some 2
  else if phase ∈ [EnsureStagePodsDeleted, EnsureStagePodsTerminated] then some 3
  else none

/-- A stage migration with PVs and stage pods, placed at the first step of
the Stage itinerary. -/
def sampleStageRun : Task :=
  Task.start
    { Owner := { Spec := { Stage := true },
                 Status := { Conditions := [{ Type_ := StagePodsCreated, Status := True_ }] } }
      PlanResources := { MigPlan := { PersistentVolumes := [{ Name := "pv1", Selection := { Action := "copy" } }] } } }
    StageItinerary

/-- The requeue that a handler leaves when it advances from the given phase:
the handlers that assign `t.Requeue` before `t.next()` leave that value, every
other handler leaves the `FastReQ` set by `init`. -/
def requeueOnAdvance (phase : String) : Nat :=
  if phase ∈ [EnsureInitialBackup, EnsureStagePodsFromRunning, EnsureStagePodsFromTemplates,
      EnsureStagePodsFromOrphanedPVCs, EnsureStageBackup, EnsureStageRestore,
      EnsureFinalRestore] then NoReQ
  else if phase = RestartRestic then PollReQ
  else FastReQ

/-- A final migration recorded in the `Final` itinerary at phase
`EnsureInitialBackup`. -/
def sampleEnsureBackupTask : Task :=
  { Owner := { Status := { Itenerary := "Final" } }
    PlanResources := { MigPlan := { MigratePVsInFinal := true } }
    Phase := EnsureInitialBackup }

/-- The requeue that a handler leaves when it has moved the task: if the
result carries no error and its phase is neither `Completed`, nor the phase
`t` had, nor an out-of-tree failure phase, then its requeue is `d`. -/
structure Moved (t : Task) (r : Task × Option String) (d : Nat) : Prop where
  requeue : r.2 = none → r.1.Phase ≠ Completed → r.1.Phase ≠ t.Phase →
    r.1.Phase ∉ failurePhases → r.1.Requeue = d

/-- A failed final migration recorded in the `Final` itinerary, with stage
pods created, on its first tick after the failure. -/
def sampleFailedTask : Task :=
  { Owner := { Status := { Itenerary := "Final", Errors := ["Backup: velero/migration-x7k2p failed."],
                           Conditions := [{ Type_ := StagePodsCreated, Status := True_ }] } }
    PlanResources := { MigPlan := { MigratePVsInFinal := true } }
    Phase := InitialBackupFailed }

/-- Settings with failure rollback enabled. -/
def rollbackSettings : Settings := { Migration := { FailureRollback := true } }

/-- A backup `velero/migration-x7k2p` in phase `PartiallyFailed`. -/
def samplePartialBackup : Backup :=
  { Namespace := "velero", Name := "migration-x7k2p",
    Status := { Phase := BackupPhasePartiallyFailed } }

/-- The backup `velero/migration-x7k2p` just started: in phase `InProgress`,
its progress not yet set. -/
def sampleStartedBackup : Backup :=
  { Namespace := "velero", Name := "migration-x7k2p",
    Status := { Phase := BackupPhaseInProgress, Progress := none } }

/-- Helpers for a tick on which the BR engine reports the initial backup just
started. -/
def startedBackupOps : Ops :=
  { quietOps with getInitialBackup := fun t => (t.Owner, .ok (some sampleStartedBackup)) }

/-! ## Stage pods (`stage.go`)

Pods, volumes and containers of `corev1` carry the fields that `stage.go`
reads or writes; a stage pod is built from scratch, so no other field of a
source pod reaches it. -/

/-- Modelled from the spec: `migapi.PvCopyAction`, the action `copy` of a
selected PV. -/
def PvCopyAction : String := "copy"

/-- Modelled from the spec: `migapi.PvFilesystemCopyMethod`, the copy method
`filesystem`. -/
def PvFilesystemCopyMethod : String := "filesystem"

/-- A `resource.Quantity`, by its numeric value; `Cmp` is the order of the
values. -/
abbrev Quantity := ℚ

def memory : String := "memory"
def cpu : String := "cpu"
def defaultMemory : String := "128Mi"
def defaultCPU : String := "100m"

/-- The value of `resource.ParseQuantity(defaultMemory)`: 128 binary mega,
`128 * 2^20`.  The parse of this constant does not fail. -/
def defaultMemoryQuantity : Quantity := 128 * 1024 * 1024

/-- The value of `resource.ParseQuantity(defaultCPU)`: 100 milli, `100/1000`.
The parse of this constant does not fail. -/
def defaultCPUQuantity : Quantity := 100 / 1000

structure ObjectKey where
  Namespace : String := ""
  Name : String := ""
deriving DecidableEq, Repr

structure PersistentVolumeClaimVolumeSource where
  ClaimName : String := ""
  ReadOnly : Bool := false
deriving DecidableEq, Repr

/-- A `corev1.VolumeSource`: the claim source, and under `Other` whatever
other kind of source the volume has. -/
structure VolumeSource where
  PersistentVolumeClaim : Option PersistentVolumeClaimVolumeSource := none
  Other : String := ""
deriving DecidableEq, Repr

structure Volume where
  Name : String := ""
  VolumeSource : VolumeSource := {}
deriving DecidableEq, Repr

structure VolumeMount where
  Name : String := ""
  MountPath : String := ""
  ReadOnly : Bool := false
deriving DecidableEq, Repr

structure ResourceRequirements where
  Limits : List (String × Quantity) := []
  Requests : List (String × Quantity) := []
deriving DecidableEq, Repr

structure Container where
  Name : String := ""
  Image : String := ""
  Command : List String := []
  Args : List String := []
  VolumeMounts : List VolumeMount := []
  Resources : ResourceRequirements := {}
deriving DecidableEq, Repr

structure PodSpec where
  Containers : List Container := []
  NodeName : String := ""
  Volumes : List Volume := []
  SecurityContext : Option String := none
  ServiceAccountName : String := ""
  AutomountServiceAccountToken : Option Bool := none
deriving DecidableEq, Repr

/-- A `corev1.Pod`.  `GenerateName` is kept as the byte string that Go
computes, since `truncateName` cuts at a byte offset. -/
structure Pod where
  Namespace : String := ""
  Name : String := ""
  GenerateName : List Nat := []
  Labels : List (String × String) := []
  Spec : PodSpec := {}
deriving DecidableEq, Repr

/-- StagePod - wrapper for stage pod, allowing to compare two stage pods for
equality. -/
structure StagePod where
  Pod : Pod
deriving DecidableEq, Repr

/-- StagePodList - a list of stage pods, with built-in stage pod
deduplication. -/
abbrev StagePodList := List StagePod

/-- The `map[k8sclient.ObjectKey]migapi.PV` of claims to selected PVs. -/
abbrev PvcMapping := ObjectKey → Option PV

/-- The `map[string]map[string]resource.Quantity`: per namespace, the
quantities under the keys `memory` and `cpu`. -/
abbrev ResourceLimitMapping := String → Option (String → Option Quantity)

def LimitTypePod : String := "Pod"
def LimitTypeContainer : String := "Container"
def ResourceCPU : String := "cpu"
def ResourceMemory : String := "memory"

structure LimitRangeItem where
  Type_ : String := ""
  Min : List (String × Quantity) := []
deriving DecidableEq, Repr

structure LimitRangeSpec where
  Limits : List LimitRangeItem := []
deriving DecidableEq, Repr

structure LimitRange where
  Spec : LimitRangeSpec := {}
deriving DecidableEq, Repr

/-- The bytes (UTF-8) of a Go string. -/
def goBytes (s : String) : List Nat :=
  s.data.flatMap (fun c => (String.utf8EncodeChar c).map UInt8.toNat)

/-- The replacement of `(-+)` by `-`: every run of hyphens becomes one. -/
def collapseHyphens : List Char → List Char
  | [] => []
  | c :: rest =>
    if c = '-' then
      match collapseHyphens rest with
      | '-' :: r => '-' :: r
      | r => '-' :: r
    else c :: collapseHyphens rest

/-- `strings.TrimRight(name, "-")`. -/
def trimRightHyphens (name : List Char) : List Char :=
  (name.reverse.dropWhile (fun c => c == '-')).reverse

/-- The name without doubled or trailing hyphens, cut to its first 57 bytes. -/
def truncateName (name : String) : List Nat :=
  let name := goBytes (String.mk (trimRightHyphens (collapseHyphens name.data)))
  if name.length > 57 then name.take 57 else name

/-- The step of the two inner loops of `buildResourceLimitMapping` for one
limit: a `Min` above the value so far replaces it, for limits of type
`Container` or `Pod`. -/
def liftByLimit (vals : Quantity × Quantity) (limit : LimitRangeItem) : Quantity × Quantity :=
  if limit.Type_ == LimitTypeContainer || limit.Type_ == LimitTypePod then
    let memVal :=
      match limit.Min.lookup ResourceMemory with
      | some minMem => if minMem > vals.1 then minMem else vals.1
      | none => vals.1
    let cpuVal :=
      match limit.Min.lookup ResourceCPU with
      | some minCpu => if minCpu > vals.2 then minCpu else vals.2
      | none => vals.2
    (memVal, cpuVal)
  else vals

/-- The loop of `buildResourceLimitMapping` over the namespaces, from the
mapping built so far.  `list ns` is the result of listing the LimitRanges of
the namespace on the cluster. -/
def buildResourceLimitMappingFrom (list : String → Except String (List LimitRange)) :
    List String → ResourceLimitMapping → Except String ResourceLimitMapping
  | [], resourceLimitMapping => .ok resourceLimitMapping
  | ns :: rest, resourceLimitMapping =>
    match list ns with
    | .error err => .error err
    | .ok limitRangeList =>
      let vals := limitRangeList.foldl
        (fun vals limitRange => limitRange.Spec.Limits.foldl liftByLimit vals)
        (defaultMemoryQuantity, defaultCPUQuantity)
      buildResourceLimitMappingFrom list rest
        (fun n => if n = ns then
            some (fun key => if key = cpu then some vals.2
                             else if key = memory then some vals.1 else none)
          else resourceLimitMapping n)

def buildResourceLimitMapping (namespaces : List String)
    (list : String → Except String (List LimitRange)) : Except String ResourceLimitMapping :=
  buildResourceLimitMappingFrom list namespaces (fun _ => none)

def parseResourceLimitMapping (ns : String) (mapping : ResourceLimitMapping) :
    Quantity × Quantity :=
  match mapping ns with
  | some inner =>
    ((match inner memory with
      | some mappingMem => mappingMem
      | none => defaultMemoryQuantity),
     (match inner cpu with
      | some mappingCPU => mappingCPU
      | none => defaultCPUQuantity))
  | none => (defaultMemoryQuantity, defaultCPUQuantity)

/-- The closure `inVolumes` of `buildStagePodFromPod`. -/
def inVolumes (pvcVolumes : List Volume) (mount : VolumeMount) : Bool :=
  pvcVolumes.any (fun volume => volume.Name == mount.Name)

/-- The loop `Add containers` of `buildStagePodFromPod`, from index `i` on. -/
def stageContainers (pvcVolumes : List Volume) (stagePodImage : String)
    (podMemory podCPU : Quantity) : Nat → List Container → List Container
  | _, [] => []
  | i, container :: rest =>
    { Name := "sleep-" ++ toString i
      Image := stagePodImage
      Command := ["sleep"]
      Args := ["infinity"]
      VolumeMounts := container.VolumeMounts.filter (inVolumes pvcVolumes)
      Resources :=
        { Requests := [(memory, podMemory), (cpu, podCPU)]
          Limits := [(memory, podMemory), (cpu, podCPU)] } }
      :: stageContainers pvcVolumes stagePodImage podMemory podCPU (i + 1) rest

/-- Build a stage pod based on existing pod. -/
def buildStagePodFromPod (ref : ObjectKey) (labels : List (String × String)) (pod : Pod)
    (pvcVolumes : List Volume) (stagePodImage : String)
    (resourceLimitMapping : ResourceLimitMapping) : StagePod :=
  let limits := parseResourceLimitMapping ref.Namespace resourceLimitMapping
  { Pod :=
    { Namespace := ref.Namespace
      GenerateName := truncateName ("stage-" ++ ref.Name) ++ goBytes "-"
      Labels := labels
      Spec :=
        { Containers := stageContainers pvcVolumes stagePodImage limits.1 limits.2 0
            pod.Spec.Containers
          NodeName := pod.Spec.NodeName
          Volumes := pvcVolumes
          SecurityContext := pod.Spec.SecurityContext
          ServiceAccountName := pod.Spec.ServiceAccountName
          AutomountServiceAccountToken := pod.Spec.AutomountServiceAccountToken } } }

def StagePod.volumesContained (p pod : StagePod) : Bool :=
  if p.Pod.Namespace != pod.Pod.Namespace then false
  else p.Pod.Spec.Volumes.all (fun volume =>
    pod.Pod.Spec.Volumes.any (fun targetVolume => volume.VolumeSource == targetVolume.VolumeSource))

def StagePodList.contains (l : StagePodList) (pod : StagePod) : Bool :=
  l.any (fun srcPod => pod.volumesContained srcPod)

def StagePodList.merge (l : StagePodList) (list : List StagePod) : StagePodList :=
  list.foldl (fun l pod => if !StagePodList.contains l pod then l ++ [pod] else l) l

/-- The volumes of a pod that `BuildStagePods` keeps: claim volumes whose
claim maps to a PV with action `copy` and copy method `filesystem`. -/
def stageVolumes (pvcMapping : PvcMapping) (pod : Pod) : List Volume :=
  pod.Spec.Volumes.filter (fun volume =>
    match volume.VolumeSource.PersistentVolumeClaim with
    | none => false
    | some claim =>
      match pvcMapping { Name := claim.ClaimName, Namespace := pod.Namespace } with
      | none => false
      | some pv =>
        !(pv.Selection.Action != PvCopyAction ||
          pv.Selection.CopyMethod != PvFilesystemCopyMethod))

/-- BuildStagePods - creates a list of stage pods from a list of pods. -/
def BuildStagePods (labels : List (String × String)) (pvcMapping : PvcMapping)
    (list : List Pod) (stagePodImage : String) (resourceLimitMapping : ResourceLimitMapping) :
    StagePodList :=
  list.foldl (fun stagePods pod =>
    let volumes := stageVolumes pvcMapping pod
    if volumes.length == 0 then stagePods
    else
      let podKey : ObjectKey := { Name := pod.Name, Namespace := pod.Namespace }
      StagePodList.merge stagePods
        [buildStagePodFromPod podKey labels pod volumes stagePodImage resourceLimitMapping]) []

/-- The claim volume `data` of claim `data`. -/
def sampleDataVolume : Volume :=
  { Name := "data", VolumeSource := { PersistentVolumeClaim := some { ClaimName := "data" } } }

/-- The claim volume `logs` of claim `logs`. -/
def sampleLogsVolume : Volume :=
  { Name := "logs", VolumeSource := { PersistentVolumeClaim := some { ClaimName := "logs" } } }

/-- A plan that copies every claim of namespace `app` by the filesystem method. -/
def samplePvcMapping : PvcMapping :=
  fun key =>
    if key.Namespace = "app" then
      some { Name := key.Name, Selection := { Action := "copy", CopyMethod := "filesystem" } }
    else none

/-- The pod `app/db`, with one container mounting the claim volume `data`. -/
def sampleDbPod : Pod :=
  { Namespace := "app", Name := "db"
    Spec := { Containers := [{ Name := "postgres", Image := "postgres:12",
                               VolumeMounts := [{ Name := "data", MountPath := "/var/lib/pg" }] }]
              Volumes := [sampleDataVolume] } }

/-- The stage labels of the samples. -/
def sampleLabels : List (String × String) := [("migration-stage-pod", "True")]

/-- No namespace has limits. -/
def sampleNoLimits : ResourceLimitMapping := fun _ => none

/-- The stage pod of namespace `app` holding the claim volumes `data` and
`logs`. -/
def sampleTwoVolumeStagePod : StagePod :=
  { Pod := { Namespace := "app", GenerateName := goBytes "stage-db-",
             Spec := { Volumes := [sampleDataVolume, sampleLogsVolume] } } }

/-- The stage pod of namespace `app` holding the claim volume `data` only. -/
def sampleOneVolumeStagePod : StagePod :=
  { Pod := { Namespace := "app", GenerateName := goBytes "stage-web-",
             Spec := { Volumes := [sampleDataVolume] } } }

/-- The stage pods that `BuildStagePods` merges, in order: one per pod of the
list that has a volume to stage. -/
def stageCandidates (labels : List (String × String)) (pvcMapping : PvcMapping)
    (list : List Pod) (stagePodImage : String) (resourceLimitMapping : ResourceLimitMapping) :
    List StagePod :=
  list.filterMap (fun pod =>
    if (stageVolumes pvcMapping pod).length == 0 then none
    else some (buildStagePodFromPod { Name := pod.Name, Namespace := pod.Namespace } labels pod
      (stageVolumes pvcMapping pod) stagePodImage resourceLimitMapping))

/-- Every volume source of `vs` is a volume source of `ws`. -/
def sourcesIncluded (vs ws : List Volume) : Prop :=
  ∀ v ∈ vs, ∃ w ∈ ws, v.VolumeSource = w.VolumeSource

/-- The pod `app/web-7f9c`, another name, the same claim volume `data`. -/
def sampleWebPod : Pod :=
  { Namespace := "app", Name := "web-7f9c"
    Spec := { Containers := [{ Name := "nginx", Image := "nginx:1.19",
                               VolumeMounts := [{ Name := "data", MountPath := "/srv" }] }]
              Volumes := [sampleDataVolume] } }

/-- The stage pod as a second pass of `BuildStagePods` rebuilds it: the same
pod with the generated-name prefix `stage-`. -/
def restaged (sp : StagePod) : StagePod :=
  { Pod := { sp.Pod with GenerateName := goBytes "stage-" } }

/-- The `Min` values of a resource among the limits of type `Container` or
`Pod` of a list of LimitRanges, in order. -/
def applicableMins (res : String) (limitRanges : List LimitRange) : List Quantity :=
  (limitRanges.flatMap (fun limitRange => limitRange.Spec.Limits)).filterMap (fun limit =>
    if limit.Type_ = LimitTypeContainer ∨ limit.Type_ = LimitTypePod then limit.Min.lookup res
    else none)

/-- The LimitRanges of namespace `app`: a container minimum of 256Mi memory and
50m CPU, and a claim-typed limit that is not looked at. -/
def sampleLimitRanges : List LimitRange :=
  [{ Spec := { Limits := [
      { Type_ := "Container", Min := [("memory", 256 * 1024 * 1024), ("cpu", 50 / 1000)] },
      { Type_ := "PersistentVolumeClaim", Min := [("memory", 1024 * 1024 * 1024)] }] } }]

/-- The listing of LimitRanges of the sample cluster. -/
def sampleLimitListing (ns : String) : Except String (List LimitRange) :=
  if ns = "app" then .ok sampleLimitRanges else .ok []

/-! ## Compat client (`pkg/compat/client.go`) -/

/-- The Go types that the type switches of `supportedVersion` tell apart, by
package alias and type name; `other` stands for every other type. -/
inductive ObjectType where
  | appsv1Deployment | appsv1DeploymentList
  | appsv1DaemonSet | appsv1DaemonSetList
  | appsv1ReplicaSet | appsv1ReplicaSetList
  | appsv1StatefulSet | appsv1StatefulSetList
  | appsv1beta1Deployment | appsv1beta1DeploymentList
  | appsv1beta1StatefulSet | appsv1beta1StatefulSetList
  | extv1beta1DaemonSet | extv1beta1DaemonSetList
  | extv1beta1ReplicaSet | extv1beta1ReplicaSetList
  | batchv1betaCronJob | batchv1betaCronJobList
  | batchv2alphaCronJob | batchv2alphaCronJobList
  | other (name : String)
deriving DecidableEq, Repr

/-- A `runtime.Object`: its Go type and its content, as values by field path.
Two objects of the model are the same pointer in Go only if they are equal;
the fresh object that `supportedVersion` returns has another type than its
argument, so `new == obj` is decided by equality. -/
structure Object where
  Kind : ObjectType
  Fields : List (String × String) := []
deriving DecidableEq, Repr

/-- A smart client: the major and minor k8s version of its cluster. -/
structure Client where
  Major : Int
  Minor : Int
deriving DecidableEq, Repr

/-- A fresh object of a type, `&T{}`. -/
def emptyObject (kind : ObjectType) : Object := { Kind := kind }

/-- The first type switch of `supportedVersion`, taken when `c.Minor < 16`. -/
def appsFallback : ObjectType → Option ObjectType
  | .appsv1Deployment => some .appsv1beta1Deployment
  | .appsv1DeploymentList => some .appsv1beta1DeploymentList
  | .appsv1DaemonSet => some .extv1beta1DaemonSet
  | .appsv1DaemonSetList => some .extv1beta1DaemonSetList
  | .appsv1ReplicaSet => some .extv1beta1ReplicaSet
  | .appsv1ReplicaSetList => some .extv1beta1ReplicaSetList
  | .appsv1StatefulSet => some .appsv1beta1StatefulSet
  | .appsv1StatefulSetList => some .appsv1beta1StatefulSetList
  | _ => none

/-- The second type switch of `supportedVersion`, taken when `c.Minor < 8`. -/
def batchFallback : ObjectType → Option ObjectType
  | .batchv1betaCronJobList => some .batchv2alphaCronJobList
  | .batchv1betaCronJob => some .batchv2alphaCronJob
  | _ => none

/-- supportedVersion will determine correct version of the object provided,
based on cluster version. -/
def Client.supportedVersion (c : Client) (obj : Object) : Object :=
  match (if c.Minor < 16 then appsFallback obj.Kind else none) with
  | some kind => emptyObject kind
  | none =>
    match (if c.Minor < 8 then batchFallback obj.Kind else none) with
    | some kind => emptyObject kind
    | none => obj

/-- Down convert a resource as needed based on cluster version.  `convert` is
`scheme.Scheme.Convert(in, out)`: it yields `out` as the conversion leaves it,
or an error. -/
def Client.downConvert (c : Client) (convert : Object → Object → Except String Object)
    (obj : Object) : Except String Object :=
  let new := c.supportedVersion obj
  if new == obj then .ok obj
  else
    match convert obj new with
    | .error err => .error err
    | .ok new => .ok new

/-- upConvert will convert src resource to dst as needed based on cluster
version.  The result is `dst` as the call leaves it; the assignment
`dst = src` to the parameter changes nothing for the caller. -/
def Client.upConvert (c : Client) (convert : Object → Object → Except String Object)
    (src dst : Object) : Except String Object :=
  if c.supportedVersion dst == dst then .ok dst
  else convert src dst

/-- The fallback table in the spec's words: `(type, minVersion) → fallbackType`,
the minimum version being a minor version. -/
def fallbackTable : List (ObjectType × Int × ObjectType) :=
  [ (.appsv1Deployment, 16, .appsv1beta1Deployment),
    (.appsv1DeploymentList, 16, .appsv1beta1DeploymentList),
    (.appsv1DaemonSet, 16, .extv1beta1DaemonSet),
    (.appsv1DaemonSetList, 16, .extv1beta1DaemonSetList),
    (.appsv1ReplicaSet, 16, .extv1beta1ReplicaSet),
    (.appsv1ReplicaSetList, 16, .extv1beta1ReplicaSetList),
    (.appsv1StatefulSet, 16, .appsv1beta1StatefulSet),
    (.appsv1StatefulSetList, 16, .appsv1beta1StatefulSetList),
    (.batchv1betaCronJob, 8, .batchv2alphaCronJob),
    (.batchv1betaCronJobList, 8, .batchv2alphaCronJobList) ]

/-- The entry of the fallback table for a type, if any. -/
def fallbackEntry (kind : ObjectType) : Option (ObjectType × Int × ObjectType) :=
  fallbackTable.find? (fun e => e.1 == kind)

/-- Modelled from the spec: the conversions registered by
`conversion.RegisterConversions` (packages `conversion/appsv1` and
`conversion/batchv1beta`, not under `src/`): a registered scheme of field-wise
converters between each type of the fallback table and its fallback type, in
both directions; the converter copies the fields of the source into the
destination, which keeps its type, and a pair of types that is not registered
is a conversion error. -/
def convertFieldwise (src dst : Object) : Except String Object :=
  if fallbackTable.any (fun e =>
      (e.1 == src.Kind && e.2.2 == dst.Kind) || (e.1 == dst.Kind && e.2.2 == src.Kind)) then
    .ok { dst with Fields := src.Fields }
  else .error "converting: no conversion function registered"

/-- The round trip of the client on an object `x`, with the caller's object
as destination as in `List`: down-convert `x`, then up-convert the result
into `dst`. -/
def Client.roundTrip (c : Client) (convert : Object → Object → Except String Object)
    (x dst : Object) : Except String Object :=
  match c.downConvert convert x with
  | .error err => .error err
  | .ok obj => c.upConvert convert obj dst

/-- A Deployment with one container named `web`. -/
def sampleDeployment : Object :=
  { Kind := .appsv1Deployment
    Fields := [("metadata.name", "frontend"),
               ("spec.template.spec.containers[0].name", "web")] }

/-- A final migration recorded at `Completed` in the itinerary `Final`. -/
def sampleCompletedTask : Task :=
  { Owner := { Status := { Itenerary := "Final" } }
    PlanResources := { MigPlan := { MigratePVsInFinal := true } }
    Phase := Completed }

/-- Build a generic stage pod for PVC, where no pod template could be used. -/
def buildStagePod (pvc : ObjectKey) (labels : List (String × String)) (stagePodImage : String)
    (resourceLimitMapping : ResourceLimitMapping) : StagePod :=
  let limits := parseResourceLimitMapping pvc.Namespace resourceLimitMapping
  { Pod :=
    { Namespace := pvc.Namespace
      GenerateName := truncateName ("stage-" ++ pvc.Name) ++ goBytes "-"
      Labels := labels
      Spec :=
        { Containers :=
            [{ Name := "sleep"
               Image := stagePodImage
               Command := ["sleep"]
               Args := ["infinity"]
               VolumeMounts := [{ Name := "stage", MountPath := "/var/data" }]
               Resources :=
                 { Requests := [(memory, limits.1), (cpu, limits.2)]
                   Limits := [(memory, limits.1), (cpu, limits.2)] } }]
          Volumes :=
            [{ Name := "stage"
               VolumeSource := { PersistentVolumeClaim := some { ClaimName := pvc.Name } } }] } } }

/-- The byte of the hyphen. -/
def hyphenByte : Nat := 45

/-- A pod name of 52 bytes whose 51st byte is a hyphen: with `stage-` in
front, the hyphen is the 57th byte. -/
def sampleLongName : String := "aaaaaaaaaaaaaaaaaaaaaaaaaaaaaaaaaaaaaaaaaaaaaaaaaa-b"

/-! ## Byte counts in SI units (`backup.go`) -/

/-- The value that an int64 variable holds after being assigned the
mathematical result `x`: two's complement wrap-around. -/
def wrapInt64 (x : Int) : Int := (x + 2 ^ 63) % 2 ^ 64 - 2 ^ 63

/-- The values of the type int64. -/
def InInt64 (x : Int) : Prop := -2 ^ 63 ≤ x ∧ x < 2 ^ 63

instance (x : Int) : Decidable (InInt64 x) := by
  unfold InInt64
  exact inferInstance

/-- Rounding of the fraction `num / den` to the nearest integer, a tie going
to the even one: the rounding of float64 arithmetic and of `%.2f`. -/
def roundHalfEven (num den : Nat) : Nat :=
  let q := num / den
  let r := num % den
  if 2 * r < den then q
  else if den < 2 * r then q + 1
  else if q % 2 = 0 then q else q + 1

/-- Helper of `floorLog2`, by halving. -/
def log2Fuel : Nat → Nat → Nat
  | 0, _ => 0
  | fuel + 1, n => if n < 2 then 0 else log2Fuel fuel (n / 2) + 1

/-- The position of the highest bit of `n`. -/
def floorLog2 (n : Nat) : Nat := log2Fuel n n

/-- The fraction `num / den` divided by `2 ^ e`. -/
def scale (num den : Nat) (e : Int) : Nat × Nat :=
  if 0 ≤ e then (num, den * 2 ^ e.toNat) else (num * 2 ^ (-e).toNat, den)

/-- The exponent of the unit in the last place of the float64 nearest to the
positive fraction `num / den`: `l - 52` where `2 ^ l ≤ num / den < 2 ^ (l + 1)`
(53 bits of precision). -/
def ulpExp (num den : Nat) : Int :=
  let e0 : Int := (floorLog2 num : Int) - (floorLog2 den : Int)
  let l := if (scale num den e0).2 ≤ (scale num den e0).1 then e0 else e0 - 1
  l - 52

/-- A float64 value: `num / den` with the sign `neg`; `den = 0` stands for an
infinity (`num ≠ 0`) or NaN (`num = 0`). -/
structure Float64 where
  neg : Bool := false
  num : Nat
  den : Nat := 1
deriving DecidableEq, Repr

/-- The float64 nearest to the fraction `num / den` (`den ≠ 0`), ties to even,
in the range of normal numbers. -/
def roundFloat64 (neg : Bool) (num den : Nat) : Float64 :=
  if num = 0 then { neg := neg, num := 0, den := 1 }
  else
    let s := ulpExp num den
    let m := roundHalfEven (scale num den s).1 (scale num den s).2
    if 0 ≤ s then { neg := neg, num := m * 2 ^ s.toNat, den := 1 }
    else { neg := neg, num := m, den := 2 ^ (-s).toNat }

/-- The conversion `float64(x)` of an int64. -/
def Float64.ofInt64 (x : Int) : Float64 := roundFloat64 (decide (x < 0)) x.natAbs 1

/-- The quotient `a / b` of two finite float64 values. -/
def Float64.div (a b : Float64) : Float64 :=
  if b.num = 0 then { neg := a.neg != b.neg, num := if a.num = 0 then 0 else 1, den := 0 }
  else roundFloat64 (a.neg != b.neg) (a.num * b.den) (a.den * b.num)

/-- The value of a finite float64 in hundredths, rounded as `%.2f` rounds. -/
def Float64.hundredths (x : Float64) : Nat := roundHalfEven (100 * x.num) x.den

/-- The text of `%.2f`. -/
def formatFloat2 (x : Float64) : String :=
  if x.den = 0 then (if x.num = 0 then "NaN" else if x.neg then "-Inf" else "+Inf")
  else
    (if x.neg then "-" else "") ++ toString (x.hundredths / 100) ++ "." ++
      toString (x.hundredths % 100 / 10) ++ toString (x.hundredths % 10)

def baseUnit : Int := 1000

def siUnits : String := "kMGTPE"

/-- The loop of `bytesToSI`:
`for n := bytes / baseUnit; n >= baseUnit; n /= baseUnit { div *= baseUnit; exp++ }`,
from the state `(n, div, exp)` to the final `(div, exp)`, with a bound on the
number of iterations left. -/
def siLoopFrom : Nat → Int → Int → Nat → Int × Nat
  | 0, _, div, exp => (div, exp)
  | bound + 1, n, div, exp =>
    if baseUnit ≤ n then siLoopFrom bound (n.tdiv baseUnit) (wrapInt64 (div * baseUnit)) (exp + 1)
    else (div, exp)

/-- The loop of `bytesToSI` from the state `(n, div, exp)`.  The loop variable
bounds the iterations left: it gets smaller with each one, and the loop ends
before it is zero. -/
def siLoop (n div : Int) (exp : Nat) : Int × Nat := siLoopFrom n.toNat n div exp

/-- converts raw `bytes` to nearest possible SI unit with a precision of 2
decimal digits.  The result is `none` when the index `siUnits[exp]` is out of
range, a run-time panic. -/
def bytesToSI (bytes : Int) : Option String :=
  if bytes < baseUnit then some (toString bytes ++ " bytes")
  else
    let r := siLoop (bytes.tdiv baseUnit) baseUnit 0
    match siUnits.data[r.2]? with
    | none => none
    | some unit =>
      some (formatFloat2 ((Float64.ofInt64 bytes).div (Float64.ofInt64 r.1)) ++ " " ++
        String.singleton unit ++ "B")

/-! ## Progress of the per-volume backups (`backup.go`) -/

def PodVolumeBackupPhaseNew : String := "New"
def PodVolumeBackupPhaseInProgress : String := "InProgress"
def PodVolumeBackupPhaseCompleted : String := "Completed"
def PodVolumeBackupPhaseFailed : String := "Failed"

structure PodVolumeOperationProgress where
  TotalBytes : Int := 0
  BytesDone : Int := 0
deriving DecidableEq, Repr

/-- The status of a `velero.PodVolumeBackup`; a timestamp is an instant in
nanoseconds, `none` for `nil`. -/
structure PodVolumeBackupStatus where
  Phase : String := ""
  StartTimestamp : Option Int := none
  CompletionTimestamp : Option Int := none
  Progress : PodVolumeOperationProgress := {}
deriving DecidableEq, Repr

structure PodVolumeBackup where
  Namespace : String := ""
  Name : String := ""
  Status : PodVolumeBackupStatus := {}
deriving DecidableEq, Repr

/-- The clock of the Go runtime as `hasBackupCompleted` uses it: the instant
`time.Now()`, and the text that `%s` prints for
`later.Sub(earlier).Round(time.Second)`. -/
structure Clock where
  now : Int
  elapsed : Int → Int → String

/-- The closure `getDuration` of `hasBackupCompleted`. -/
def getDuration (clock : Clock) (pvb : PodVolumeBackup) : String :=
  match pvb.Status.StartTimestamp with
  | none => ""
  | some start =>
    match pvb.Status.CompletionTimestamp with
    | none => " (" ++ clock.elapsed start clock.now ++ ")"
    | some completion => " (" ++ clock.elapsed start completion ++ ")"

/-- The message `msg` that the loop of `getPodVolumeBackupsProgress` builds
for one child; `none` when `bytesToSI` panics. -/
def pvbMessage (clock : Clock) (pvb : PodVolumeBackup) : Option String :=
  if pvb.Status.Phase == PodVolumeBackupPhaseInProgress then
    match bytesToSI pvb.Status.Progress.BytesDone, bytesToSI pvb.Status.Progress.TotalBytes with
    | some done, some total =>
      some ("PodVolumeBackup " ++ pvb.Namespace ++ "/" ++ pvb.Name ++ ": " ++ done ++
        " out of " ++ total ++ " backed up" ++ getDuration clock pvb)
    | _, _ => none
  else if pvb.Status.Phase == PodVolumeBackupPhaseCompleted then
    match bytesToSI pvb.Status.Progress.BytesDone, bytesToSI pvb.Status.Progress.TotalBytes with
    | some done, some total =>
      some ("PodVolumeBackup " ++ pvb.Namespace ++ "/" ++ pvb.Name ++ ": Completed, " ++ done ++
        " out of " ++ total ++ " backed up" ++ getDuration clock pvb)
    | _, _ => none
  else if pvb.Status.Phase == PodVolumeBackupPhaseFailed then
    some ("PodVolumeBackup " ++ pvb.Namespace ++ "/" ++ pvb.Name ++ ": Failed" ++
      getDuration clock pvb)
  else
    some ("PodVolumeBackup " ++ pvb.Namespace ++ "/" ++ pvb.Name ++
      ": Waiting for ongoing volume backup(s) to complete")

/-- The key `pvb.Namespace+"/"+pvb.Name` of a child. -/
def pvbKey (pvb : PodVolumeBackup) : String := pvb.Namespace ++ "/" ++ pvb.Name

/-- The loop over `pvbList.Items`: the map `m`, as the list of its
assignments with the latest first, and the slice `keys`. -/
def collectMessages (clock : Clock) :
    List PodVolumeBackup → List (String × String) × List String →
      Option (List (String × String) × List String)
  | [], state => some state
  | pvb :: rest, (m, keys) =>
    match pvbMessage clock pvb with
    | none => none
    | some msg => collectMessages clock rest ((pvbKey pvb, msg) :: m, keys ++ [pvbKey pvb])

/-- The order of Go strings: byte by byte. -/
def bytesLE : List Nat → List Nat → Bool
  | [], _ => true
  | _ :: _, [] => false
  | a :: as, b :: bs => a < b || (a == b && bytesLE as bs)

/-- The comparison `a <= b` of two Go strings. -/
def stringLE (a b : String) : Prop := bytesLE (goBytes a) (goBytes b) = true

instance : DecidableRel stringLE := fun a b => by
  unfold stringLE
  exact inferInstance

/-- `sort.Strings`: the strings in increasing order. -/
def sortStrings (keys : List String) : List String := keys.insertionSort stringLE

/-- The closure `getPodVolumeBackupsProgress` of `hasBackupCompleted`: one
message per key of `keys`, in sorted order, read from the map (`m[k]` is the
empty string for a key without assignment). -/
def getPodVolumeBackupsProgress (clock : Clock) (pvbList : List PodVolumeBackup) :
    Option (List String) :=
  match collectMessages clock pvbList ([], []) with
  | none => none
  | some (m, keys) => some ((sortStrings keys).map (fun k => (m.lookup k).getD ""))

/-- The order of the children by their keys. -/
def keyLE (p q : PodVolumeBackup) : Prop := stringLE (pvbKey p) (pvbKey q)

instance : DecidableRel keyLE := fun p q => by
  unfold keyLE
  exact inferInstance

/-- A clock that prints the seconds elapsed. -/
def sampleClock : Clock :=
  { now := 90000000000
    elapsed := fun earlier later => toString ((later - earlier) / 1000000000) ++ "s" }

/-- Three children: one in progress, one completed, one waiting. -/
def samplePvbs : List PodVolumeBackup :=
  [ { Namespace := "velero", Name := "pvb-c"
      Status := { Phase := PodVolumeBackupPhaseInProgress, StartTimestamp := some 0
                  Progress := { TotalBytes := 2048, BytesDone := 512 } } },
    { Namespace := "velero", Name := "pvb-a"
      Status := { Phase := PodVolumeBackupPhaseCompleted, StartTimestamp := some 0
                  CompletionTimestamp := some 30000000000
                  Progress := { TotalBytes := 999, BytesDone := 999 } } },
    { Namespace := "velero", Name := "pvb-b" } ]

/-! ## Direct volume migration: progress resources (`directvolumemigration/rsync.go`) -/

namespace DirectVolume

def PodRunning : String := "Running"
def PodFailed : String := "Failed"
def PodSucceeded : String := "Succeeded"

/-- The progress of one rsync client pod, as the migration status lists it. -/
structure PodProgress where
  ObjectReference : ObjectKey := {}
  LastObservedProgressPercent : String := ""
  LastObservedTransferRate : String := ""
deriving DecidableEq, Repr

structure DirectVolumeMigrationProgressSpec where
  ClusterRef : Option ObjectKey := none
  PodRef : Option ObjectKey := none
deriving DecidableEq, Repr

structure DirectVolumeMigrationProgressStatus where
  PodPhase : String := ""
  LastObservedProgressPercent : String := ""
  LastObservedTransferRate : String := ""
deriving DecidableEq, Repr

/-- The progress resource of one rsync client pod. -/
structure DirectVolumeMigrationProgress where
  Namespace : String := ""
  Name : String := ""
  OwnerReference : Option ObjectKey := none
  Spec : DirectVolumeMigrationProgressSpec := {}
  Status : DirectVolumeMigrationProgressStatus := {}
deriving DecidableEq, Repr

structure DirectVolumeMigrationSpec where
  SrcMigClusterRef : Option ObjectKey := none
  PersistentVolumeClaims : List ObjectKey := []
  DeleteProgressReportingCRs : Bool := false
deriving DecidableEq, Repr

structure DirectVolumeMigrationStatus where
  RunningPods : List PodProgress := []
  FailedPods : List PodProgress := []
  SuccessfulPods : List PodProgress := []
deriving DecidableEq, Repr

structure DirectVolumeMigration where
  Namespace : String := ""
  Name : String := ""
  Spec : DirectVolumeMigrationSpec := {}
  Status : DirectVolumeMigrationStatus := {}
deriving DecidableEq, Repr

/-- The task of a direct volume migration, as far as the progress resources
go. -/
structure Task where
  Owner : DirectVolumeMigration := {}
deriving DecidableEq, Repr

/-- The errors of the cluster client that the callers tell apart. -/
inductive ClientError where
  | AlreadyExists
  | NotFound
  | Other (msg : String)
deriving DecidableEq, Repr

/-- The host cluster as `t.Client` sees it: the progress resources it holds,
and the requests that fail for another reason than the presence or absence of
the resource, by key. -/
structure Cluster where
  Progress : List DirectVolumeMigrationProgress := []
  Fault : ObjectKey → Option String := fun _ => none

/-- The key of a progress resource. -/
def DirectVolumeMigrationProgress.key (o : DirectVolumeMigrationProgress) : ObjectKey :=
  { Namespace := o.Namespace, Name := o.Name }

/-- `client.Create`. -/
def Cluster.Create (c : Cluster) (obj : DirectVolumeMigrationProgress) :
    Except ClientError Cluster :=
  match c.Fault obj.key with
  | some msg => .error (.Other msg)
  | none =>
    if c.Progress.any (fun o => o.key == obj.key) then .error .AlreadyExists
    else .ok { c with Progress := c.Progress ++ [obj] }

/-- `client.Get`. -/
def Cluster.Get (c : Cluster) (key : ObjectKey) :
    Except ClientError DirectVolumeMigrationProgress :=
  match c.Fault key with
  | some msg => .error (.Other msg)
  | none =>
    match c.Progress.find? (fun o => o.key == key) with
    | some o => .ok o
    | none => .error .NotFound

/-- `client.Delete`. -/
def Cluster.Delete (c : Cluster) (key : ObjectKey) : Except ClientError Cluster :=
  match c.Fault key with
  | some msg => .error (.Other msg)
  | none =>
    if c.Progress.any (fun o => o.key == key) then
      .ok { c with Progress := c.Progress.filter (fun o => !(o.key == key)) }
    else .error .NotFound

/-- The map from namespace to the names of its claims, as the list of its
entries, a namespace entering at its first claim. -/
def Task.getPVCNamespaceMap (t : Task) : List (String × List String) :=
  t.Owner.Spec.PersistentVolumeClaims.foldl
    (fun nsMap pvc =>
      match nsMap.lookup pvc.Namespace with
      | some vols =>
        nsMap.map (fun e => if e.1 == pvc.Namespace then (e.1, vols ++ [pvc.Name]) else e)
      | none => nsMap ++ [(pvc.Namespace, [pvc.Name])])
    []

/-- The pairs `(ns, vol)` that the loops `for ns, vols := range pvcMap` and
`for _, vol := range vols` visit, when `range` yields the entries of the map
in the order `entries`.  Go leaves that order open: `entries` is any
arrangement of the entries of the map. -/
def visited (entries : List (String × List String)) : List (String × String) :=
  entries.flatMap (fun e => e.2.map (fun vol => (e.1, vol)))

/-- The loops of `createPVProgressCR` over the pairs still to visit. -/
def createProgressFrom (namespace_ : String) (t : Task) :
    List (String × String) → Cluster → Cluster × Option ClientError
  | [], c => (c, none)
  | (ns, vol) :: rest, c =>
    let dvmp : DirectVolumeMigrationProgress :=
      { Name := "directvolumemigration-rsync-transfer-" ++ vol
        Namespace := namespace_
        OwnerReference := some { Namespace := t.Owner.Namespace, Name := t.Owner.Name }
        Spec :=
          { ClusterRef := t.Owner.Spec.SrcMigClusterRef
            PodRef := some
              { Namespace := ns, Name := "directvolumemigration-rsync-transfer-" ++ vol } } }
    match c.Create dvmp with
    | .error .AlreadyExists => createProgressFrom namespace_ t rest c
    | .error err => (c, some err)
    | .ok c => createProgressFrom namespace_ t rest c

/-- Create rsync PV progress CR (the source comment has "on destination
cluster"; the client is `t.Client`, that of the host cluster, which `c`
stands for).  The first argument is `migapi.OpenshiftMigrationNamespace`. -/
def Task.createPVProgressCR (OpenshiftMigrationNamespace : String) (t : Task)
    (entries : List (String × List String)) (c : Cluster) : Cluster × Option ClientError :=
  createProgressFrom OpenshiftMigrationNamespace t (visited entries) c

/-- The loops of `haveRsyncClientPodsCompletedOrFailed` over the pairs still
to visit. -/
def collectPodsFrom (namespace_ : String) (c : Cluster) :
    List (String × String) → Task → Task × Option ClientError
  | [], t => (t, none)
  | (ns, vol) :: rest, t =>
    match c.Get { Name := "directvolumemigration-rsync-transfer-" ++ vol,
                  Namespace := namespace_ } with
    | .error err => (t, some err)
    | .ok dvmp =>
      let progress : PodProgress :=
        { ObjectReference :=
            { Namespace := ns, Name := "directvolumemigration-rsync-transfer-" ++ vol }
          LastObservedProgressPercent := dvmp.Status.LastObservedProgressPercent
          LastObservedTransferRate := dvmp.Status.LastObservedTransferRate }
      let status := t.Owner.Status
      let status :=
        if dvmp.Status.PodPhase == PodRunning then
          { status with RunningPods := status.RunningPods ++ [progress] }
        else if dvmp.Status.PodPhase == PodFailed then
          { status with FailedPods := status.FailedPods ++ [progress] }
        else if dvmp.Status.PodPhase == PodSucceeded then
          { status with SuccessfulPods := status.SuccessfulPods ++ [progress] }
        else status
      collectPodsFrom namespace_ c rest { t with Owner := { t.Owner with Status := status } }

/-- The result is the task with the three lists of pods, `isCompleted`,
`hasAnyFailed` and the error. -/
def Task.haveRsyncClientPodsCompletedOrFailed (OpenshiftMigrationNamespace : String)
    (t : Task) (entries : List (String × List String)) (c : Cluster) :
    Task × Bool × Bool × Option ClientError :=
  let t : Task :=
    { t with Owner := { t.Owner with
        Status := { RunningPods := [], FailedPods := [], SuccessfulPods := [] } } }
  match collectPodsFrom OpenshiftMigrationNamespace c (visited entries) t with
  | (t, some err) => (t, false, false, some err)
  | (t, none) =>
    let isCompleted :=
      t.Owner.Status.SuccessfulPods.length + t.Owner.Status.FailedPods.length
        == t.Owner.Spec.PersistentVolumeClaims.length
    let hasAnyFailed := decide (t.Owner.Status.FailedPods.length > 0)
    (t, isCompleted, hasAnyFailed, none)

/-- The loops of `deleteProgressReportingCRs` over the pairs still to
visit. -/
def deleteProgressFrom : List (String × String) → Cluster → Cluster × Option ClientError
  | [], c => (c, none)
  | (ns, vol) :: rest, c =>
    match c.Delete { Name := "directvolumemigration-rsync-transfer-" ++ vol, Namespace := ns } with
    | .error .NotFound => deleteProgressFrom rest c
    | .error err => (c, some err)
    | .ok c => deleteProgressFrom rest c

def Task.deleteProgressReportingCRs (_t : Task) (entries : List (String × List String))
    (client : Cluster) : Cluster × Option ClientError :=
  deleteProgressFrom (visited entries) client

/-- The steps of `deleteRsyncResources` that act on other resources than the
progress resources (pods, secrets, routes on the two clusters): the error
that each returns, `none` for `nil`. -/
structure TeardownSteps where
  getSourceClient : Option ClientError := none
  getDestinationClient : Option ClientError := none
  findAndDeleteResourcesSrc : Option ClientError := none
  findAndDeleteResourcesDest : Option ClientError := none
  deleteRsyncPassword : Option ClientError := none

/-- Delete rsync resources. -/
def Task.deleteRsyncResources (t : Task) (steps : TeardownSteps)
    (entries : List (String × List String)) (c : Cluster) : Cluster × Option ClientError :=
  match steps.getSourceClient with
  | some err => (c, some err)
  | none =>
  match steps.getDestinationClient with
  | some err => (c, some err)
  | none =>
  match steps.findAndDeleteResourcesSrc with
  | some err => (c, some err)
  | none =>
  match steps.findAndDeleteResourcesDest with
  | some err => (c, some err)
  | none =>
  match steps.deleteRsyncPassword with
  | some err => (c, some err)
  | none =>
    if !t.Owner.Spec.DeleteProgressReportingCRs then (c, none)
    else t.deleteProgressReportingCRs entries c

end DirectVolume

/-- The keys of the progress resources that a cluster holds. -/
def progressKeys (c : DirectVolume.Cluster) : List ObjectKey :=
  c.Progress.map DirectVolume.DirectVolumeMigrationProgress.key

/-- A migration of two claims named `data`, in the namespaces `app1` and
`app2`, that asks for its progress resources to be deleted. -/
def sampleDvmTask : DirectVolume.Task :=
  { Owner :=
    { Namespace := "openshift-migration", Name := "dvm"
      Spec :=
        { PersistentVolumeClaims :=
            [{ Namespace := "app1", Name := "data" }, { Namespace := "app2", Name := "data" }]
          DeleteProgressReportingCRs := true } } }

/-- The pairs `(namespace, name)` of the claims of a migration. -/
def claimPairs (t : DirectVolume.Task) : List (String × String) :=
  t.Owner.Spec.PersistentVolumeClaims.map (fun pvc => (pvc.Namespace, pvc.Name))

/-- The step of the loop of `getPVCNamespaceMap`. -/
def addClaim (nsMap : List (String × List String)) (pvc : ObjectKey) :
    List (String × List String) :=
  match nsMap.lookup pvc.Namespace with
  | some vols =>
    nsMap.map (fun e => if e.1 == pvc.Namespace then (e.1, vols ++ [pvc.Name]) else e)
  | none => nsMap ++ [(pvc.Namespace, [pvc.Name])]

/-- The pod phase that the progress resource of a visited pair reports; the
empty phase when the resource cannot be read. -/
def phaseAt (namespace_ : String) (c : DirectVolume.Cluster) (pair : String × String) : String :=
  match c.Get { Name := "directvolumemigration-rsync-transfer-" ++ pair.2,
                Namespace := namespace_ } with
  | .ok dvmp => dvmp.Status.PodPhase
  | .error _ => ""

/-- The entry that `haveRsyncClientPodsCompletedOrFailed` builds for a visited
pair. -/
def podProgressAt (namespace_ : String) (c : DirectVolume.Cluster) (pair : String × String) :
    DirectVolume.PodProgress :=
  match c.Get { Name := "directvolumemigration-rsync-transfer-" ++ pair.2,
                Namespace := namespace_ } with
  | .ok dvmp =>
    { ObjectReference :=
        { Namespace := pair.1, Name := "directvolumemigration-rsync-transfer-" ++ pair.2 }
      LastObservedProgressPercent := dvmp.Status.LastObservedProgressPercent
      LastObservedTransferRate := dvmp.Status.LastObservedTransferRate }
  | .error _ =>
    { ObjectReference :=
        { Namespace := pair.1, Name := "directvolumemigration-rsync-transfer-" ++ pair.2 } }

/-- A host cluster that holds the progress resource of the claims named
`data`, its pod succeeded, and the one of the claims named `logs`, its pod
failed. -/
def sampleProgressCluster : DirectVolume.Cluster :=
  { Progress :=
      [ { Namespace := "openshift-migration", Name := "directvolumemigration-rsync-transfer-data"
          Status := { PodPhase := DirectVolume.PodSucceeded
                      LastObservedProgressPercent := "100%" } },
        { Namespace := "openshift-migration", Name := "directvolumemigration-rsync-transfer-logs"
          Status := { PodPhase := DirectVolume.PodFailed
                      LastObservedProgressPercent := "40%" } } ] }

/-- A migration of the claims `app1/data` and `app1/logs`. -/
def sampleTwoClaimTask : DirectVolume.Task :=
  { Owner :=
    { Namespace := "openshift-migration", Name := "dvm"
      Spec :=
        { PersistentVolumeClaims :=
            [{ Namespace := "app1", Name := "data" }, { Namespace := "app1", Name := "logs" }] } } }

/-- The key under which `createPVProgressCR` and
`haveRsyncClientPodsCompletedOrFailed` address the progress resource of a
claim named `vol`. -/
def transferKey (namespace_ vol : String) : ObjectKey :=
  { Namespace := namespace_, Name := "directvolumemigration-rsync-transfer-" ++ vol }

/-- The progress resource that `createPVProgressCR` builds for the pair
`(ns, vol)`. -/
def progressResource (namespace_ : String) (t : DirectVolume.Task) (ns vol : String) :
    DirectVolume.DirectVolumeMigrationProgress :=
  { Name := "directvolumemigration-rsync-transfer-" ++ vol
    Namespace := namespace_
    OwnerReference := some { Namespace := t.Owner.Namespace, Name := t.Owner.Name }
    Spec :=
      { ClusterRef := t.Owner.Spec.SrcMigClusterRef
        PodRef := some
          { Namespace := ns, Name := "directvolumemigration-rsync-transfer-" ++ vol } } }

/-- The host cluster once the progress controller has reported on every
progress resource it holds that the pod succeeded, all of its data
transferred. -/
def reportSucceeded (c : DirectVolume.Cluster) : DirectVolume.Cluster :=
  { c with
    Progress := c.Progress.map (fun o =>
      { o with Status := { PodPhase := DirectVolume.PodSucceeded
                           LastObservedProgressPercent := "100%" } }) }

/-! ## Progress controller (`directvolumemigrationprogress`)

Only the test file of this controller is under `src/`; `parseLogs`, which
the test exercises line by line, is modelled. -/

namespace ProgressController

/-- White space of a log line: blank, tab, carriage return, form feed. -/
def isSpace (c : Char) : Bool :=
  c == ' ' || c == Char.ofNat 9 || c == Char.ofNat 13 || c == Char.ofNat 12

/-- A number written in decimal digits. -/
def isNumber (w : List Char) : Bool := !w.isEmpty && w.all Char.isDigit

/-- The fields of a text: its parts between white space. -/
def fields (text : List Char) : List (List Char) :=
  (text.splitOnP isSpace).filter (fun w => !w.isEmpty)

/-- The form of a progress record of rsync up to its closing parenthesis:
`<bytes> <pct>% <rate>/s <elapsed> (xfr#N, to-chk=R/T`. -/
def isRecord (text : List Char) : Bool :=
  match fields text with
  | [_bytes, pct, rate, _elapsed, xfr, chk] =>
    (pct.getLast? == some '%' && isNumber pct.dropLast) &&
    "/s".data.isSuffixOf rate &&
    ("(xfr#".data.isPrefixOf xfr && xfr.getLast? == some ',' &&
      isNumber (xfr.drop 5).dropLast) &&
    ("to-chk=".data.isPrefixOf chk &&
      (match (chk.drop 7).splitOnP (fun c => c == '/') with
        | [remaining, total] => isNumber remaining && isNumber total
        | _ => false))
  | _ => false

/-- The progress record of a log line, if it holds one: the line without its
leading white space, cut after the two characters that follow the closing
parenthesis. -/
def progressRecord (line : List Char) : Option (List Char) :=
  match (line.dropWhile isSpace).dropWhile (fun c => c != ')') with
  | _ :: next1 :: next2 :: _ =>
    if isRecord ((line.dropWhile isSpace).takeWhile (fun c => c != ')')) then
      some ((line.dropWhile isSpace).takeWhile (fun c => c != ')') ++ [')', next1, next2])
    else none
  | _ => none

/-- Modelled from the spec: `parseLogs` of the progress controller, whose
source is not under `src/` (its test is).  The progress lines of rsync have the
form `<bytes> <pct>% <rate>/s <elapsed> (xfr#N, to-chk=R/T)`; the parser keeps,
of each line that holds such a record, the prefix up to the closing
parenthesis plus two trailing characters, and returns the kept records in the
order of the log, joined by newlines.  The argument is what reading the
`io.Reader` gives: the text, or the error of the read, which is returned. -/
def parseLogs (reader : Except String String) : Except String String :=
  match reader with
  | .error err => .error err
  | .ok text =>
    .ok (String.mk
      (['\n'].intercalate ((text.data.splitOn '\n').filterMap progressRecord)))

end ProgressController

/-- A log line that holds a progress record: white space, the record up to
its closing parenthesis, the parenthesis, two characters and the rest of the
line. -/
structure LogLine where
  indent : List Char
  record : List Char
  next1 : Char
  next2 : Char
  rest : List Char

/-- The text of the line. -/
def LogLine.text (l : LogLine) : List Char :=
  l.indent ++ l.record ++ ')' :: l.next1 :: l.next2 :: l.rest

/-- The part of the line that the parser keeps. -/
def LogLine.kept (l : LogLine) : List Char := l.record ++ [')', l.next1, l.next2]

/-- The line is one line of a log and holds one progress record: the indent
is white space, the record has the form of a progress record, starts with its
first field and holds no closing parenthesis, and the line holds no newline. -/
def LogLine.wellFormed (l : LogLine) : Prop :=
  l.indent.all ProgressController.isSpace = true ∧
  ProgressController.isRecord l.record = true ∧
  (∀ c ∈ l.record.head?, ProgressController.isSpace c = false) ∧
  ')' ∉ l.record ∧ '\n' ∉ l.text

instance (l : LogLine) : Decidable l.wellFormed := by
  unfold LogLine.wellFormed
  exact inferInstance

/-- A line of the log of the test. -/
def sampleLogLine : LogLine :=
  { indent := "          ".data
    record := "1.65G  94%   40.95MB/s    0:00:38 (xfr#139, to-chk=23/163".data
    next1 := '2'
    next2 := '0'
    rest := "20/11/03 23:16:34 [1] <f+++++++++ file76".data }

/-- The lines of the log of the test `Test_parseLogs`; the log starts with a
newline, so the first line is empty. -/
def testLogLines : List String :=
  [ "",
    "          1.65G  94%   40.95MB/s    0:00:38 (xfr#139, to-chk=23/163)2020/11/03 23:16:34 [1] <f+++++++++ file76",
    "          1.65G  94%   40.95MB/s    0:00:38 (xfr#139, to-chk=23/163)2020/11/03 23:16:34 [1] <f+++++++++ file76",
    "          1.65G  94%   40.95MB/s    0:00:38 (xfr#139, to-chk=23/163)2020/11/03 23:16:34 [1] <f+++++++++ file76",
    "          1.65G  94%   40.95MB/s    0:00:38 (xfr#139, to-chk=23/163)2020/11/03 23:16:34 [1] <f+++++++++ file76",
    "          1.65G  94%   40.95MB/s    0:00:38 (xfr#139, to-chk=23/163)2020/11/03 23:16:34 [1] <f+++++++++ file76",
    "          1.65G  94%   40.95MB/s    0:00:38 (xfr#139, to-chk=23/163)2020/11/03 23:16:34 [1] <f+++++++++ file76",
    "          1.65G  94%   40.95MB/s    0:00:38 (xfr#139, to-chk=23/163)2020/11/03 23:16:34 [1] <f+++++++++ file76",
    "          1.65G  94%   40.95MB/s    0:00:38 (xfr#139, to-chk=23/163)2020/11/03 23:16:34 [1] <f+++++++++ file76",
    "          1.65G  94%   40.95MB/s    0:00:38 (xfr#139, to-chk=23/163)2020/11/03 23:16:34 [1] <f+++++++++ file76",
    "          1.65G  94%   40.95MB/s    0:00:38 (xfr#139, to-chk=23/163)2020/11/03 23:16:34 [1] <f+++++++++ file76",
    "          1.57G  89%   40.90MB/s    0:00:36 (xfr#120, to-chk=42/163)2020/11/04 01:49:41 [1] <f+++++++++ file57",
    "          1.57G  90%   40.91MB/s    0:00:36 (xfr#121, to-chk=41/163)2020/11/04 01:49:41 [1] <f+++++++++ file58",
    "          1.58G  90%   40.91MB/s    0:00:36 (xfr#122, to-chk=40/163)2020/11/04 01:49:41 [1] <f+++++++++ file59",
    "          1.58G  90%   40.91MB/s    0:00:36 (xfr#123, to-chk=39/163)2020/11/04 01:49:41 [1] <f+++++++++ file60",
    "          1.59G  90%   40.91MB/s    0:00:36 (xfr#124, to-chk=38/163)2020/11/04 01:49:42 [1] <f+++++++++ file61",
    "          1.59G  91%   40.91MB/s    0:00:37 (xfr#125, to-chk=37/163)2020/11/04 01:49:42 [1] <f+++++++++ file62",
    "          1.59G  91%   40.91MB/s    0:00:37 (xfr#126, to-chk=36/163)2020/11/04 01:49:42 [1] <f+++++++++ file63",
    "          1.60G  91%   40.91MB/s    0:00:37 (xfr#127, to-chk=35/163)2020/11/04 01:49:42 [1] <f+++++++++ file64",
    "          1.60G  91%   40.91MB/s    0:00:37 (xfr#128, to-chk=34/163)2020/11/04 01:49:42 [1] <f+++++++++ file65",
    "          1.61G  92%   40.91MB/s    0:00:37 (xfr#129, to-chk=33/163)2020/11/04 01:49:42 [1] <f+++++++++ file66" ]

/-- The lines of the text that `Test_parseLogs` expects. -/
def testLogRecords : List String :=
  [ "1.65G  94%   40.95MB/s    0:00:38 (xfr#139, to-chk=23/163)20",
    "1.65G  94%   40.95MB/s    0:00:38 (xfr#139, to-chk=23/163)20",
    "1.65G  94%   40.95MB/s    0:00:38 (xfr#139, to-chk=23/163)20",
    "1.65G  94%   40.95MB/s    0:00:38 (xfr#139, to-chk=23/163)20",
    "1.65G  94%   40.95MB/s    0:00:38 (xfr#139, to-chk=23/163)20",
    "1.65G  94%   40.95MB/s    0:00:38 (xfr#139, to-chk=23/163)20",
    "1.65G  94%   40.95MB/s    0:00:38 (xfr#139, to-chk=23/163)20",
    "1.65G  94%   40.95MB/s    0:00:38 (xfr#139, to-chk=23/163)20",
    "1.65G  94%   40.95MB/s    0:00:38 (xfr#139, to-chk=23/163)20",
    "1.65G  94%   40.95MB/s    0:00:38 (xfr#139, to-chk=23/163)20",
    "1.57G  89%   40.90MB/s    0:00:36 (xfr#120, to-chk=42/163)20",
    "1.57G  90%   40.91MB/s    0:00:36 (xfr#121, to-chk=41/163)20",
    "1.58G  90%   40.91MB/s    0:00:36 (xfr#122, to-chk=40/163)20",
    "1.58G  90%   40.91MB/s    0:00:36 (xfr#123, to-chk=39/163)20",
    "1.59G  90%   40.91MB/s    0:00:36 (xfr#124, to-chk=38/163)20",
    "1.59G  91%   40.91MB/s    0:00:37 (xfr#125, to-chk=37/163)20",
    "1.59G  91%   40.91MB/s    0:00:37 (xfr#126, to-chk=36/163)20",
    "1.60G  91%   40.91MB/s    0:00:37 (xfr#127, to-chk=35/163)20",
    "1.60G  91%   40.91MB/s    0:00:37 (xfr#128, to-chk=34/163)20",
    "1.61G  92%   40.91MB/s    0:00:37 (xfr#129, to-chk=33/163)20" ]

/-- The lines of a text, joined by newlines. -/
def joinLines (lines : List (List Char)) : String := String.mk (['\n'].intercalate lines)

/-- The helpers that the handlers of the Failed itinerary call succeed at
once and leave the migration's error list as it is. -/
def Ops.rollbackSucceeds (ops : Ops) : Prop :=
  ∀ t : Task,
    ((ops.ensureStagePodsDeleted t).2 = .ok () ∧
      (ops.ensureStagePodsDeleted t).1.Status.Errors = t.Owner.Status.Errors) ∧
    ((ops.deleteAnnotations t).2 = .ok () ∧
      (ops.deleteAnnotations t).1.Status.Errors = t.Owner.Status.Errors) ∧
    ((ops.deleteMigrated t).2 = .ok () ∧
      (ops.deleteMigrated t).1.Status.Errors = t.Owner.Status.Errors) ∧
    ((ops.ensureMigratedResourcesDeleted t).2 = .ok true ∧
      (ops.ensureMigratedResourcesDeleted t).1.Status.Errors = t.Owner.Status.Errors) ∧
    ((ops.unQuiesceApplications t).2 = .ok () ∧
      (ops.unQuiesceApplications t).1.Status.Errors = t.Owner.Status.Errors)

/-- What the task of a tick takes over from the task that the tick before
left: the phase, the name of the itinerary as the recorded one, and the
migration's error list. -/
def Resumes (resume : Task → Task) : Prop :=
  ∀ r : Task, (resume r).Phase = r.Phase ∧
    (resume r).Owner.Status.Itenerary = r.Itinerary.Name ∧
    (resume r).Owner.Status.Errors = r.Owner.Status.Errors

/-- The task after `n` further ticks, `resume` building the task of a tick
from the task that the tick before left. -/
def Task.ticks (k : Consts) (settings : Settings) (ops : Ops) (resume : Task → Task)
    (t : Task) : Nat → Task
  | 0 => t
  | n + 1 => ((resume (Task.ticks k settings ops resume t n)).Run k settings ops).1

/-- Modelled from the spec: the task of the following tick.  `migrate.go`
builds the task of a tick from the migration (`Owner: migration`,
`PlanResources: planResources`, `Phase: migration.Status.Phase`), having
recorded the phase of the tick before (`migration.Status.Phase = task.Phase`).
The statement that records the name of the itinerary is not under `src/`; the
spec has the migration hold its "current Itinerary name", the "recorded
itinerary name" that `init` compares with the chosen one. -/
def Task.resume (t : Task) : Task :=
  { Owner := { t.Owner with
      Status := { t.Owner.Status with Phase := t.Phase, Itenerary := t.Itinerary.Name } }
    PlanResources := t.PlanResources
    Phase := t.Phase }

/-! ## Itinerary selection -/

theorem init_itinerary_eq (k : Consts) (t : Task) :
    (t.init k).Itinerary =
      if t.failed then FailedItinerary
      else if t.canceled then CancelItinerary
      else if t.stage then StageItinerary
      else if t.PlanResources.MigPlan.MigratePVsInFinal then FinalItinerary
      else FinalItineraryNoPVs := by
  unfold Task.init
  simp only [Task.failed, Task.canceled, Task.stage, Task.hasPVs, Task.setCondition]
  split_ifs <;> rfl

theorem init_phase_eq (k : Consts) (t : Task) :
    (t.init k).Phase =
      if t.Owner.Status.Itenerary != (t.init k).Itinerary.Name then
        Task.firstPhase (t.init k).Itinerary
      else t.Phase := by
  rw [init_itinerary_eq]
  unfold Task.init
  simp only [Task.failed, Task.canceled, Task.stage, Task.hasPVs, Task.setCondition]
  split_ifs <;> simp_all

/-- C1: `Task.init` selects the itinerary by strict priority: Failed when the
migration has errors or a `Failed` condition; otherwise Cancel when the
migration is canceled (`spec.canceled`, or a `Canceled` or `Canceling`
condition); otherwise Stage when `spec.stage` is true; otherwise Final when
the plan migrates PVs in the final cut-over; otherwise FinalNoPVs. -/
theorem init_selects_itinerary_by_priority (k : Consts) (t : Task) :
    (t.init k).Itinerary =
      if t.Owner.HasErrors = true ∨ t.Owner.Status.HasCondition Failed = true then
        FailedItinerary
      else if t.Owner.Spec.Canceled = true ∨
          t.Owner.Status.HasAnyCondition [Canceled, Canceling] = true then
        CancelItinerary
      else if t.Owner.Spec.Stage = true then StageItinerary
      else if t.PlanResources.MigPlan.MigratePVsInFinal = true then FinalItinerary
      else FinalItineraryNoPVs := by
  rw [init_itinerary_eq]
  simp only [Task.failed, Task.canceled, Task.stage, Bool.or_eq_true]

/-- C2: after `Task.init`, when the itinerary name recorded in the migration
status differs from the name of the chosen itinerary, the phase is the phase
of the first step of the chosen itinerary; when the names are equal, the
phase is the one the task had before `init`. -/
theorem init_resets_phase_on_itinerary_change (k : Consts) (t : Task) :
    (t.Owner.Status.Itenerary ≠ (t.init k).Itinerary.Name →
      (t.init k).Itinerary.Steps.head?.map Step.phase = some (t.init k).Phase) ∧
    (t.Owner.Status.Itenerary = (t.init k).Itinerary.Name → (t.init k).Phase = t.Phase) := by
  constructor
  · intro h
    rw [init_phase_eq]
    simp only [bne_iff_ne, ne_eq, h, not_false_eq_true, if_true]
    rw [init_itinerary_eq]
    split_ifs <;> rfl
  · intro h
    rw [init_phase_eq]
    simp [h]

/-- Instance of C2: the canceled migration is moved to `Canceling`, the first
step of the Cancel itinerary; the other one stays at `Prepare`. -/
theorem init_resets_phase_on_itinerary_change_witness :
    ((sampleCanceledTask.init sampleConsts).Itinerary.Steps.head?.map Step.phase
        = some (sampleCanceledTask.init sampleConsts).Phase ∧
      (sampleCanceledTask.init sampleConsts).Phase = Canceling) ∧
    (sampleFinalTask.init sampleConsts).Phase = Prepare :=
  ⟨⟨(init_resets_phase_on_itinerary_change sampleConsts sampleCanceledTask).1 (by decide),
      by decide⟩,
    (init_resets_phase_on_itinerary_change sampleConsts sampleFinalTask).2 (by decide)⟩

/-! ## Flag evaluation -/

set_option maxRecDepth 1000000 in
theorem allFlags_bits :
    ∀ a < 256, ∀ p s q v : Bool,
      ((if (a &&& HasPVs != 0 && !p) = true then false
        else if (a &&& HasStagePods != 0 && !s) = true then false
        else if (a &&& Quiesce != 0 && !q) = true then false
        else if (a &&& HasVerify != 0 && !v) = true then false
        else true) = true ↔
        (a &&& definedFlags) &&&
          ((if q = true then Quiesce else 0) ||| (if s = true then HasStagePods else 0) |||
            (if p = true then HasPVs else 0) ||| (if v = true then HasVerify else 0))
          = a &&& definedFlags) := by
  decide

set_option maxRecDepth 1000000 in
theorem anyFlags_bits :
    ∀ a < 256, ∀ p s q v : Bool,
      ((if (a &&& HasPVs != 0 && p) = true then true
        else if (a &&& HasStagePods != 0 && s) = true then true
        else if (a &&& Quiesce != 0 && q) = true then true
        else if (a &&& HasVerify != 0 && v) = true then true
        else a == 0) = true ↔
        (a = 0 ∨
          a &&& ((if q = true then Quiesce else 0) ||| (if s = true then HasStagePods else 0) |||
            (if p = true then HasPVs else 0) ||| (if v = true then HasVerify else 0)) ≠ 0)) := by
  decide

/-- C3 as stated fails: the step with `all = 0x10` (an 8-bit mask) is accepted
by `allFlags` and `anyFlags` for the migration with an empty flag set,
although bit `0x10` of its `all` mask is not set in the derived flag set. -/
theorem accepts_all_bits_counterexample :
    sampleHighBitStep.all < 256 ∧ sampleHighBitStep.any < 256 ∧
    ¬ ((sampleNoFlagsTask.allFlags sampleHighBitStep && sampleNoFlagsTask.anyFlags sampleHighBitStep)
          = true ↔
        (sampleHighBitStep.all &&& flagSet sampleNoFlagsTask = sampleHighBitStep.all ∧
          (sampleHighBitStep.any = 0 ∨
            sampleHighBitStep.any &&& flagSet sampleNoFlagsTask ≠ 0))) := by
  decide

/-- C3, amended: for every step with 8-bit `all` and `any` masks and every
migration, the step is accepted by `allFlags` and `anyFlags` together if and
only if every one of the four defined flag bits (Quiesce, HasStagePods,
HasPVs, HasVerify) of its `all` mask is set in the migration's derived flag
set, and either its `any` mask is empty or at least one bit of its `any` mask
is set in the derived flag set.  Bits of the `all` mask outside the four
defined flags are not examined. -/
theorem accepts_iff_defined_flags (t : Task) (step : Step)
    (hall : step.all < 256) (hany : step.any < 256) :
    (t.allFlags step && t.anyFlags step) = true ↔
      ((step.all &&& definedFlags) &&& flagSet t = step.all &&& definedFlags ∧
        (step.any = 0 ∨ step.any &&& flagSet t ≠ 0)) := by
  rw [Bool.and_eq_true]
  exact and_congr
    (allFlags_bits step.all hall t.hasPVs (t.Owner.Status.HasCondition StagePodsCreated)
      t.quiesce t.hasVerify)
    (anyFlags_bits step.any hany t.hasPVs (t.Owner.Status.HasCondition StagePodsCreated)
      t.quiesce t.hasVerify)

/-- Instance of C3 (amended): the step `all = Quiesce`, `any = HasPVs|HasVerify`
is accepted for a migration that quiesces and verifies. -/
theorem accepts_iff_defined_flags_witness :
    (sampleAnyStep.all < 256 ∧ sampleAnyStep.any < 256) ∧
    ((sampleQuiesceVerifyTask.allFlags sampleAnyStep &&
        sampleQuiesceVerifyTask.anyFlags sampleAnyStep) = true ↔
      ((sampleAnyStep.all &&& definedFlags) &&& flagSet sampleQuiesceVerifyTask
          = sampleAnyStep.all &&& definedFlags ∧
        (sampleAnyStep.any = 0 ∨ sampleAnyStep.any &&& flagSet sampleQuiesceVerifyTask ≠ 0))) :=
  ⟨by decide,
    accepts_iff_defined_flags sampleQuiesceVerifyTask sampleAnyStep (by decide) (by decide)⟩

/-! ## Failing a phase -/

theorem addErrors_errors (t : Task) (errors : List String) :
    (t.addErrors errors).Errors = t.Errors ++ errors := by
  unfold Task.addErrors
  induction errors generalizing t with
  | nil => simp
  | cons e rest ih => simp [List.foldl_cons, ih]

theorem addErrors_frame (t : Task) (errors : List String) :
    (t.addErrors errors).Owner = t.Owner ∧ (t.addErrors errors).Phase = t.Phase ∧
    (t.addErrors errors).Itinerary = t.Itinerary ∧ (t.addErrors errors).Requeue = t.Requeue ∧
    (t.addErrors errors).PlanResources = t.PlanResources := by
  unfold Task.addErrors
  induction errors generalizing t with
  | nil => simp
  | cons e rest ih => simp [List.foldl_cons, ih]

theorem setCondition_mem (r : MigMigrationStatus) (c : Condition) :
    c ∈ (r.SetCondition c).Conditions := by
  unfold MigMigrationStatus.SetCondition
  split_ifs with h
  · simp only [List.any_eq_true, beq_iff_eq] at h
    obtain ⟨x, hx, hxt⟩ := h
    simp only [List.mem_map]
    exact ⟨x, hx, by simp [hxt]⟩
  · simp

theorem setCondition_hasCondition (r : MigMigrationStatus) (c : Condition)
    (h : c.Status = True_) : (r.SetCondition c).HasCondition c.Type_ = true := by
  unfold MigMigrationStatus.HasCondition
  simp only [List.any_eq_true, Bool.and_eq_true, beq_iff_eq]
  exact ⟨c, setCondition_mem r c, rfl, h⟩

/-- C5: `Task.fail(nextPhase, reasons)` appends the reasons in order to the
task's error list, passes the task's errors (so every reason) to the
migration's `AddErrors`, after which every reason is among the migration's
errors, sets the durable `Failed` condition with status `True` whose reason
is the phase the task had before the call, and leaves the task's phase equal
to `nextPhase`. -/
theorem fail_records_failure (k : Consts) (t : Task) (nextPhase : String)
    (reasons : List String) :
    (t.fail k nextPhase reasons).Errors = t.Errors ++ reasons ∧
    (t.fail k nextPhase reasons).Owner.Status.Errors
      = (t.Owner.AddErrors (t.Errors ++ reasons)).Status.Errors ∧
    (∀ r ∈ reasons, r ∈ (t.fail k nextPhase reasons).Owner.Status.Errors) ∧
    ({ Type_ := Failed, Status := True_, Reason := t.Phase, Category := Advisory,
       Message := k.FailedMessage, Durable := true } : Condition)
      ∈ (t.fail k nextPhase reasons).Owner.Status.Conditions ∧
    (t.fail k nextPhase reasons).Owner.Status.HasCondition Failed = true ∧
    (t.fail k nextPhase reasons).Phase = nextPhase := by
  have hE := addErrors_errors t reasons
  obtain ⟨hO, hP, -, -, -⟩ := addErrors_frame t reasons
  refine ⟨?_, ?_, ?_, ?_, ?_, ?_⟩
  · simp [Task.fail, Task.setCondition, hE]
  · simp [Task.fail, Task.setCondition, hE, hO, MigMigrationStatus.SetCondition,
      MigMigration.AddErrors]
    split_ifs <;> rfl
  · intro r hr
    have : (t.fail k nextPhase reasons).Owner.Status.Errors
        = t.Owner.Status.Errors ++ (t.Errors ++ reasons) := by
      simp [Task.fail, Task.setCondition, hE, hO, MigMigrationStatus.SetCondition,
        MigMigration.AddErrors]
      split_ifs <;> rfl
    rw [this]
    simp [hr]
  · simp only [Task.fail, Task.setCondition, hP]
    exact setCondition_mem _ _
  · simp only [Task.fail, Task.setCondition]
    exact setCondition_hasCondition _
      { Type_ := Failed, Status := True_, Reason := _, Category := Advisory,
        Message := k.FailedMessage, Durable := true } rfl
  · simp [Task.fail]

/-! ## The Stage itinerary -/

/-- C8 as stated fails: the Stage itinerary is not the step list of the spec,
whose tenth step is named `RestartResticSidecar`; the phase of that step is
`RestartRestic`. -/
theorem stage_itinerary_spec_list_counterexample :
    StageItinerary.Steps ≠ [
        ⟨Created, 0, 0⟩,
        ⟨"Started", 0, 0⟩,
        ⟨"Prepare", 0, 0⟩,
        ⟨"EnsureCloudSecretPropagated", 0, 0⟩,
        ⟨"EnsureStagePodsFromRunning", HasPVs, 0⟩,
        ⟨"EnsureStagePodsFromTemplates", HasPVs, 0⟩,
        ⟨"EnsureStagePodsFromOrphanedPVCs", HasPVs, 0⟩,
        ⟨"StagePodsCreated", HasStagePods, 0⟩,
        ⟨"AnnotateResources", HasPVs, 0⟩,
        ⟨"RestartResticSidecar", HasStagePods, 0⟩,
        ⟨"ResticRestarted", HasStagePods, 0⟩,
        ⟨"QuiesceApplications", Quiesce, 0⟩,
        ⟨"EnsureQuiesced", Quiesce, 0⟩,
        ⟨"EnsureStageBackup", HasPVs, 0⟩,
        ⟨"StageBackupCreated", HasPVs, 0⟩,
        ⟨"EnsureStageBackupReplicated", HasPVs, 0⟩,
        ⟨"EnsureStageRestore", HasPVs, 0⟩,
        ⟨"StageRestoreCreated", HasPVs, 0⟩,
        ⟨"EnsureStagePodsDeleted", HasStagePods, 0⟩,
        ⟨"EnsureStagePodsTerminated", HasStagePods, 0⟩,
        ⟨"EnsureAnnotationsDeleted", HasPVs, 0⟩,
        ⟨"EnsureLabelsDeleted", 0, 0⟩,
        ⟨"Completed", 0, 0⟩ ] ∧
    (StageItinerary.Steps.map Step.phase)[9]? = some "RestartRestic" := by
  decide

/-- C8, amended: the Stage itinerary is exactly the ordered step list of the
spec with the stated all-flags and no any-flags, except that its tenth step
is the phase `RestartRestic` (not `RestartResticSidecar`); `Created` is the
empty phase name. -/
theorem stage_itinerary_steps :
    StageItinerary.Name = "Stage" ∧ Created = "" ∧
    StageItinerary.Steps = [
        ⟨Created, 0, 0⟩,
        ⟨"Started", 0, 0⟩,
        ⟨"Prepare", 0, 0⟩,
        ⟨"EnsureCloudSecretPropagated", 0, 0⟩,
        ⟨"EnsureStagePodsFromRunning", HasPVs, 0⟩,
        ⟨"EnsureStagePodsFromTemplates", HasPVs, 0⟩,
        ⟨"EnsureStagePodsFromOrphanedPVCs", HasPVs, 0⟩,
        ⟨"StagePodsCreated", HasStagePods, 0⟩,
        ⟨"AnnotateResources", HasPVs, 0⟩,
        ⟨"RestartRestic", HasStagePods, 0⟩,
        ⟨"ResticRestarted", HasStagePods, 0⟩,
        ⟨"QuiesceApplications", Quiesce, 0⟩,
        ⟨"EnsureQuiesced", Quiesce, 0⟩,
        ⟨"EnsureStageBackup", HasPVs, 0⟩,
        ⟨"StageBackupCreated", HasPVs, 0⟩,
        ⟨"EnsureStageBackupReplicated", HasPVs, 0⟩,
        ⟨"EnsureStageRestore", HasPVs, 0⟩,
        ⟨"StageRestoreCreated", HasPVs, 0⟩,
        ⟨"EnsureStagePodsDeleted", HasStagePods, 0⟩,
        ⟨"EnsureStagePodsTerminated", HasStagePods, 0⟩,
        ⟨"EnsureAnnotationsDeleted", HasPVs, 0⟩,
        ⟨"EnsureLabelsDeleted", 0, 0⟩,
        ⟨"Completed", 0, 0⟩ ] := by
  decide

/-! ## Advancing: `next` -/

theorem currentIndex_eq_some_of_first (steps : List Step) (phase : String) (i : Nat) (s : Step)
    (hi : steps[i]? = some s) (hs : s.phase = phase)
    (hfirst : ∀ j s', j < i → steps[j]? = some s' → s'.phase ≠ phase) :
    Task.currentIndex steps phase = some i := by
  induction steps generalizing i with
  | nil => simp at hi
  | cons x rest ih =>
    cases i with
    | zero =>
      simp only [List.getElem?_cons_zero, Option.some.injEq] at hi
      simp [Task.currentIndex, hi, hs]
    | succ n =>
      have hx : x.phase ≠ phase := hfirst 0 x (Nat.succ_pos n) (by simp)
      have := ih n (by simpa using hi)
        (fun j s' hj hs' => hfirst (j + 1) s' (Nat.succ_lt_succ hj) (by simpa using hs'))
      simp [Task.currentIndex, hx, this]

theorem currentIndex_eq_none_of_absent (steps : List Step) (phase : String)
    (h : ∀ s ∈ steps, s.phase ≠ phase) : Task.currentIndex steps phase = none := by
  induction steps with
  | nil => rfl
  | cons x rest ih =>
    have hx : x.phase ≠ phase := h x (by simp)
    simp [Task.currentIndex, hx, ih (fun s hs => h s (by simp [hs]))]

theorem currentIndex_some_spec (steps : List Step) (phase : String) (i : Nat)
    (h : Task.currentIndex steps phase = some i) :
    ∃ s, steps[i]? = some s ∧ s.phase = phase := by
  induction steps generalizing i with
  | nil => simp [Task.currentIndex] at h
  | cons x rest ih =>
    by_cases hx : x.phase = phase
    · simp [Task.currentIndex, hx] at h
      subst h
      exact ⟨x, by simp, hx⟩
    · simp [Task.currentIndex, hx] at h
      obtain ⟨a, ha, rfl⟩ := h
      obtain ⟨s, hs, hp⟩ := ih a ha
      exact ⟨s, by simpa using hs, hp⟩

theorem firstEligible_eq_some_of_first (t : Task) (l : List Step) (j : Nat) (s : Step)
    (hj : l[j]? = some s) (hs : t.accepts s = true)
    (hskip : ∀ m s', m < j → l[m]? = some s' → t.accepts s' = false) :
    Task.firstEligible t l = some s := by
  induction l generalizing j with
  | nil => simp at hj
  | cons x rest ih =>
    cases j with
    | zero =>
      simp only [List.getElem?_cons_zero, Option.some.injEq] at hj
      subst hj
      simp only [Task.accepts, Bool.and_eq_true] at hs
      simp [Task.firstEligible, hs.1, hs.2]
    | succ n =>
      have hx : t.accepts x = false := hskip 0 x (Nat.succ_pos n) (by simp)
      have hrest := ih n (by simpa using hj)
        (fun m s' hm hs' => hskip (m + 1) s' (Nat.succ_lt_succ hm) (by simpa using hs'))
      simp only [Task.accepts, Bool.and_eq_false_iff] at hx
      rcases hx with hx | hx
      · simp [Task.firstEligible, hx, hrest]
      · by_cases ha : t.allFlags x = true
        · simp [Task.firstEligible, ha, hx, hrest]
        · simp [Task.firstEligible, ha, hrest]

theorem firstEligible_eq_none_of_all (t : Task) (l : List Step)
    (h : ∀ s ∈ l, t.accepts s = false) : Task.firstEligible t l = none := by
  induction l with
  | nil => rfl
  | cons x rest ih =>
    have hx : t.accepts x = false := h x (by simp)
    have hrest := ih (fun s hs => h s (by simp [hs]))
    simp only [Task.accepts, Bool.and_eq_false_iff] at hx
    rcases hx with hx | hx
    · simp [Task.firstEligible, hx, hrest]
    · by_cases ha : t.allFlags x = true
      · simp [Task.firstEligible, ha, hx, hrest]
      · simp [Task.firstEligible, ha, hrest]

theorem firstEligible_some_spec (t : Task) (l : List Step) (s : Step)
    (h : Task.firstEligible t l = some s) : s ∈ l ∧ t.accepts s = true := by
  induction l with
  | nil => simp [Task.firstEligible] at h
  | cons x rest ih =>
    unfold Task.firstEligible at h
    split_ifs at h with h1 h2
    · exact ⟨by simp [(ih h).1], (ih h).2⟩
    · exact ⟨by simp [(ih h).1], (ih h).2⟩
    · simp only [Option.some.injEq] at h
      subst h
      simp only [Bool.not_eq_true, Bool.not_eq_false, Bool.not_eq_true'] at h1 h2
      exact ⟨by simp, by simp_all [Task.accepts]⟩

theorem next_frame (t : Task) :
    t.next.Owner = t.Owner ∧ t.next.PlanResources = t.PlanResources ∧
    t.next.Requeue = t.Requeue ∧ t.next.Itinerary = t.Itinerary ∧ t.next.Errors = t.Errors := by
  unfold Task.next
  split
  · simp
  · split <;> simp

/-- C4: for every itinerary, flag state and current phase: when the phase
occurs in the itinerary, first at position `i`, `Task.next` sets the phase to
the phase of the first step after position `i` that is accepted under the
flags (every step strictly between being not accepted), and to `Completed`
when no step after position `i` is accepted; when the phase does not occur in
the itinerary it sets the phase to `Completed`.  Nothing but the phase is
changed. -/
theorem next_moves_to_first_eligible_step (t : Task) :
    (∀ (i : Nat) (s : Step), t.Itinerary.Steps[i]? = some s → s.phase = t.Phase →
        (∀ (j : Nat) (s' : Step), j < i → t.Itinerary.Steps[j]? = some s' → s'.phase ≠ t.Phase) →
      (∀ (j : Nat) (s' : Step), i < j → t.Itinerary.Steps[j]? = some s' → t.accepts s' = true →
          (∀ (m : Nat) (s'' : Step), i < m → m < j → t.Itinerary.Steps[m]? = some s'' →
            t.accepts s'' = false) →
          t.next.Phase = s'.phase) ∧
      ((∀ (j : Nat) (s' : Step), i < j → t.Itinerary.Steps[j]? = some s' →
            t.accepts s' = false) →
          t.next.Phase = Completed)) ∧
    ((∀ s ∈ t.Itinerary.Steps, s.phase ≠ t.Phase) → t.next.Phase = Completed) ∧
    (t.next.Owner = t.Owner ∧ t.next.PlanResources = t.PlanResources ∧
      t.next.Requeue = t.Requeue ∧ t.next.Itinerary = t.Itinerary ∧
      t.next.Errors = t.Errors) := by
  refine ⟨?_, ?_, next_frame t⟩
  · intro i s hi hs hfirst
    have hcur := currentIndex_eq_some_of_first t.Itinerary.Steps t.Phase i s hi hs hfirst
    constructor
    · intro j s' hij hj hacc hskip
      have hfe : Task.firstEligible t (t.Itinerary.Steps.drop (i + 1)) = some s' := by
        apply firstEligible_eq_some_of_first t _ (j - (i + 1)) s'
        · rw [List.getElem?_drop]
          have : i + 1 + (j - (i + 1)) = j := by omega
          rw [this]; exact hj
        · exact hacc
        · intro m s'' hm hm'
          rw [List.getElem?_drop] at hm'
          exact hskip (i + 1 + m) s'' (by omega) (by omega) hm'
      simp [Task.next, hcur, hfe]
    · intro hnone
      have hfe : Task.firstEligible t (t.Itinerary.Steps.drop (i + 1)) = none := by
        apply firstEligible_eq_none_of_all
        intro x hx
        obtain ⟨m, hm⟩ := List.getElem?_of_mem hx
        rw [List.getElem?_drop] at hm
        exact hnone (i + 1 + m) x (by omega) hm
      simp [Task.next, hcur, hfe]
  · intro habs
    simp [Task.next, currentIndex_eq_none_of_absent _ _ habs]

/-- Instance of C4: from `EnsureCloudSecretPropagated` (position 3) the stage
migration moves to `QuiesceApplications` (position 11), skipping the seven
steps that need PVs or stage pods; from a phase outside the itinerary it
moves to `Completed`. -/
theorem next_moves_to_first_eligible_step_witness :
    sampleStageTask.next.Phase = QuiesceApplications ∧
    sampleStrayTask.next.Phase = Completed :=
  ⟨((next_moves_to_first_eligible_step sampleStageTask).1 3
        ⟨EnsureCloudSecretPropagated, 0, 0⟩ (by decide) (by decide)
        (by
          intro j s' hj h
          interval_cases j <;>
            (simp [sampleStageTask, StageItinerary] at h; subst h; decide))).1
      11 ⟨QuiesceApplications, Quiesce, 0⟩ (by decide) (by decide) (by decide)
      (by
        intro m s'' h1 h2 h
        interval_cases m <;>
          (simp [sampleStageTask, StageItinerary] at h; subst h; decide)),
    (next_moves_to_first_eligible_step sampleStrayTask).2.1 (by decide)⟩

/-! ## Phase order within an itinerary -/

theorem appearsAfter_of_index (steps : List Step) (p q : String) (i : Nat) (s s' : Step)
    (hi : steps[i]? = some s) (hs : s.phase = p)
    (hmem : s' ∈ steps.drop (i + 1)) (hq : s'.phase = q) :
    appearsAfter steps p q = true := by
  induction steps generalizing i with
  | nil => simp at hi
  | cons x rest ih =>
    cases i with
    | zero =>
      simp only [List.getElem?_cons_zero, Option.some.injEq] at hi
      subst hi
      simp only [zero_add, List.drop_succ_cons, List.drop_zero] at hmem
      simp only [appearsAfter, Bool.or_eq_true, Bool.and_eq_true, beq_iff_eq, List.any_eq_true]
      exact Or.inl ⟨hs, s', hmem, hq⟩
    | succ n =>
      simp only [List.getElem?_cons_succ] at hi
      simp only [List.drop_succ_cons] at hmem
      simp only [appearsAfter, Bool.or_eq_true]
      exact Or.inr (ih n hi hmem)

theorem next_phase_cases (t : Task) :
    t.next.Phase = Completed ∨ appearsAfter t.Itinerary.Steps t.Phase t.next.Phase = true := by
  unfold Task.next
  split
  · exact Or.inl rfl
  · rename_i current hcur
    split
    · rename_i s' hfe
      obtain ⟨s, hs, hp⟩ := currentIndex_some_spec _ _ _ hcur
      exact Or.inr (appearsAfter_of_index _ _ _ current s s' hs hp
        (firstEligible_some_spec _ _ _ hfe).1 rfl)
    · exact Or.inl rfl

theorem completed_is_last :
    ∀ I ∈ itineraries, ∀ p ∈ I.Steps.map Step.phase,
      p = Completed ∨ appearsAfter I.Steps p Completed = true := by
  decide

theorem forward_stay {I : Itinerary} {p : String} {t : Task}
    (hI : t.Itinerary = I) (hp : t.Phase = p) : Forward I p t :=
  ⟨hI, Or.inl hp⟩

theorem forward_completed {I : Itinerary} {p : String} {t : Task} (hmem : I ∈ itineraries)
    (hI : t.Itinerary = I) (hc : t.Phase = Completed) : Forward I p t := by
  refine ⟨hI, ?_⟩
  by_cases hin : p ∈ I.Steps.map Step.phase
  · rcases completed_is_last I hmem p hin with h | h
    · exact Or.inl (by rw [hc, h])
    · exact Or.inr (Or.inl (by rw [hc]; exact h))
  · exact Or.inr (Or.inr (Or.inr ⟨hin, hc⟩))

theorem forward_next {I : Itinerary} {p : String} {t : Task} (hmem : I ∈ itineraries)
    (hI : t.Itinerary = I) (hp : t.Phase = p) : Forward I p t.next := by
  have hIn : t.next.Itinerary = I := by rw [(next_frame t).2.2.2.1, hI]
  rcases next_phase_cases t with h | h
  · exact forward_completed hmem hIn h
  · exact ⟨hIn, Or.inr (Or.inl (by rw [← hI, ← hp]; exact h))⟩

theorem fail_itinerary (k : Consts) (t : Task) (nextPhase : String) (reasons : List String) :
    (t.fail k nextPhase reasons).Itinerary = t.Itinerary := by
  simp [Task.fail, Task.setCondition, (addErrors_frame t reasons).2.2.1]

theorem fail_failed (k : Consts) (t : Task) (nextPhase : String) (reasons : List String) :
    (t.fail k nextPhase reasons).failed = true := by
  have h : (t.fail k nextPhase reasons).Owner.Status.HasCondition Failed = true := by
    simp only [Task.fail, Task.setCondition]
    exact setCondition_hasCondition _
      { Type_ := Failed, Status := True_, Reason := _, Category := Advisory,
        Message := k.FailedMessage, Durable := true } rfl
  simp [Task.failed, h]

theorem forward_fail {I : Itinerary} {p : String} {t : Task} (k : Consts) (nextPhase : String)
    (reasons : List String) (hI : t.Itinerary = I) (hf : nextPhase ∈ failurePhases) :
    Forward I p (t.fail k nextPhase reasons) := by
  refine ⟨by rw [fail_itinerary, hI], Or.inr (Or.inr (Or.inl ⟨?_, fail_failed k t nextPhase reasons⟩))⟩
  simpa [Task.fail] using hf

/-! ## One tick: `Run` -/

theorem call_frame {α : Type} (t : Task) (op : Op α) :
    (t.call op).1.Phase = t.Phase ∧ (t.call op).1.Itinerary = t.Itinerary ∧
    (t.call op).1.Errors = t.Errors ∧ (t.call op).1.Requeue = t.Requeue ∧
    (t.call op).1.PlanResources = t.PlanResources := by
  simp [Task.call]

theorem forward_stepErr {I : Itinerary} {p : String} {t : Task} (hmem : I ∈ itineraries)
    (hI : t.Itinerary = I) (hp : t.Phase = p) (op : Op Unit) (requeue : Option Nat) :
    Forward I p (t.stepErr op requeue).1 := by
  obtain ⟨h1, h2, -⟩ := call_frame t op
  unfold Task.stepErr
  split
  · rename_i t' err heq
    have : t' = (t.call op).1 := by rw [heq]
    subst this
    exact forward_stay (h2.trans hI) (h1.trans hp)
  · rename_i t' u heq
    have : t' = (t.call op).1 := by rw [heq]
    subst this
    split
    · exact forward_next hmem (by simpa using h2.trans hI) (by simpa using h1.trans hp)
    · exact forward_next hmem (h2.trans hI) (h1.trans hp)

theorem forward_stepBool {I : Itinerary} {p : String} {t : Task} (hmem : I ∈ itineraries)
    (hI : t.Itinerary = I) (hp : t.Phase = p) (op : Op Bool) (requeue : Nat) :
    Forward I p (t.stepBool op requeue).1 := by
  obtain ⟨h1, h2, -⟩ := call_frame t op
  unfold Task.stepBool
  split
  · rename_i t' err heq
    have : t' = (t.call op).1 := by rw [heq]
    subst this
    exact forward_stay (h2.trans hI) (h1.trans hp)
  · rename_i t' ok heq
    have : t' = (t.call op).1 := by rw [heq]
    subst this
    split_ifs
    · exact forward_next hmem (h2.trans hI) (h1.trans hp)
    · exact forward_stay (by simpa using h2.trans hI) (by simpa using h1.trans hp)

theorem forward_stepHooks {I : Itinerary} {p : String} {t : Task} (hmem : I ∈ itineraries)
    (hI : t.Itinerary = I) (hp : t.Phase = p) (k : Consts) (ops : Ops)
    (hookPhase failedPhase : String) (hf : failedPhase ∈ failurePhases) :
    Forward I p (t.stepHooks k ops hookPhase failedPhase).1 := by
  obtain ⟨h1, h2, -⟩ := call_frame t (ops.runHooks hookPhase)
  unfold Task.stepHooks
  split
  · rename_i t' err heq
    have : t' = (t.call (ops.runHooks hookPhase)).1 := by rw [heq]
    subst this
    exact forward_fail k failedPhase [err] (h2.trans hI) hf
  · rename_i t' status heq
    have : t' = (t.call (ops.runHooks hookPhase)).1 := by rw [heq]
    subst this
    split_ifs
    · exact forward_next hmem (h2.trans hI) (h1.trans hp)
    · exact forward_stay (by simpa using h2.trans hI) (by simpa using h1.trans hp)

theorem hasBackupCompleted_frame (ops : Ops) (t : Task) (backup : Backup)
    (r : Task × Bool × List String) (h : t.hasBackupCompleted ops backup = some r) :
    r.1.Phase = t.Phase ∧ r.1.Itinerary = t.Itinerary ∧ r.1.Errors = t.Errors ∧
    r.1.Requeue = t.Requeue := by
  simp only [Task.hasBackupCompleted] at h
  split at h
  · exact absurd h (by simp)
  · simp only [Option.some.injEq] at h
    subst h
    exact ⟨rfl, rfl, rfl, rfl⟩

theorem forward_stepBackupCreated {I : Itinerary} {p : String} {t : Task}
    (hmem : I ∈ itineraries) (hI : t.Itinerary = I) (hp : t.Phase = p) (k : Consts) (ops : Ops)
    (getBackup : Op (Option Backup)) (failedPhase : String) (hf : failedPhase ∈ failurePhases) :
    Forward I p (t.stepBackupCreated k ops getBackup failedPhase).1 := by
  obtain ⟨h1, h2, -⟩ := call_frame t getBackup
  unfold Task.stepBackupCreated
  split
  · rename_i t' err heq
    have : t' = (t.call getBackup).1 := by rw [heq]
    subst this
    exact forward_stay (h2.trans hI) (h1.trans hp)
  · rename_i t' heq
    have : t' = (t.call getBackup).1 := by rw [heq]
    subst this
    exact forward_stay (h2.trans hI) (h1.trans hp)
  · rename_i t' backup heq
    have : t' = (t.call getBackup).1 := by rw [heq]
    subst this
    split
    · exact forward_stay (h2.trans hI) (h1.trans hp)
    · rename_i t'' completed reasons heq2
      obtain ⟨h3, h4, -⟩ := hasBackupCompleted_frame ops (t.call getBackup).1 backup _ heq2
      simp only at h3 h4
      split_ifs
      · exact forward_fail k failedPhase reasons (h4.trans (h2.trans hI)) hf
      · exact forward_next hmem (h4.trans (h2.trans hI)) (h3.trans (h1.trans hp))
      · exact forward_stay (by simpa using h4.trans (h2.trans hI))
          (by simpa using h3.trans (h1.trans hp))

theorem forward_stepReplicated {I : Itinerary} {p : String} {t : Task}
    (hmem : I ∈ itineraries) (hI : t.Itinerary = I) (hp : t.Phase = p) (ops : Ops)
    (getBackup : Op (Option Backup)) :
    Forward I p (t.stepReplicated ops getBackup).1 := by
  obtain ⟨h1, h2, -⟩ := call_frame t getBackup
  unfold Task.stepReplicated
  split
  · rename_i t' err heq
    have : t' = (t.call getBackup).1 := by rw [heq]
    subst this
    exact forward_stay (h2.trans hI) (h1.trans hp)
  · rename_i t' heq
    have : t' = (t.call getBackup).1 := by rw [heq]
    subst this
    exact forward_stay (h2.trans hI) (h1.trans hp)
  · rename_i t' backup heq
    have : t' = (t.call getBackup).1 := by rw [heq]
    subst this
    exact forward_stepBool hmem (h2.trans hI) (h1.trans hp) _ _

theorem forward_stepRestoreCreated {I : Itinerary} {p : String} {t : Task}
    (hmem : I ∈ itineraries) (hI : t.Itinerary = I) (hp : t.Phase = p) (k : Consts) (ops : Ops)
    (getRestore : Op (Option Restore)) (failedPhase : String) (restic : Bool)
    (hf : failedPhase ∈ failurePhases) :
    Forward I p (t.stepRestoreCreated k ops getRestore failedPhase restic).1 := by
  obtain ⟨h1, h2, -⟩ := call_frame t getRestore
  unfold Task.stepRestoreCreated
  split
  · rename_i t' err heq
    have : t' = (t.call getRestore).1 := by rw [heq]
    subst this
    exact forward_stay (h2.trans hI) (h1.trans hp)
  · rename_i t' heq
    have : t' = (t.call getRestore).1 := by rw [heq]
    subst this
    exact forward_stay (h2.trans hI) (h1.trans hp)
  · rename_i t' restore heq
    have : t' = (t.call getRestore).1 := by rw [heq]
    subst this
    simp only
    split_ifs <;>
      first
        | exact forward_fail k failedPhase _ (by simpa using h2.trans hI) hf
        | exact forward_next hmem (by simpa using h2.trans hI) (by simpa using h1.trans hp)
        | exact forward_stay (by simpa using h2.trans hI) (by simpa using h1.trans hp)

theorem countPropagated_frame (ops : Ops) (t : Task) (clusters : List MigCluster) (count : Nat) :
    (Task.countPropagated ops t clusters count).1.Phase = t.Phase ∧
    (Task.countPropagated ops t clusters count).1.Itinerary = t.Itinerary := by
  induction clusters generalizing t count with
  | nil => simp [Task.countPropagated]
  | cons c rest ih =>
    obtain ⟨h1, h2, -⟩ := call_frame t (ops.veleroPodCredSecretPropagated c)
    unfold Task.countPropagated
    split
    · rename_i t' err heq
      have : t' = (t.call (ops.veleroPodCredSecretPropagated c)).1 := by rw [heq]
      subst this
      exact ⟨h1, h2⟩
    · rename_i t' propagated heq
      have : t' = (t.call (ops.veleroPodCredSecretPropagated c)).1 := by rw [heq]
      subst this
      split_ifs
      · exact ⟨(ih _ _).1.trans h1, (ih _ _).2.trans h2⟩
      · exact ⟨h1, h2⟩

theorem forward_ite {I : Itinerary} {p : String} {c : Prop} [Decidable c]
    {a b : Task × Option String} (ha : Forward I p a.1) (hb : Forward I p b.1) :
    Forward I p (if c then a else b).1 := by
  split_ifs <;> assumption

theorem forward_dispatch {I : Itinerary} {p : String} {t : Task} (hmem : I ∈ itineraries)
    (hI : t.Itinerary = I) (hp : t.Phase = p) (k : Consts) (settings : Settings) (ops : Ops) :
    Forward I p (Task.dispatch k settings ops t).1 := by
  unfold Task.dispatch
  repeat' apply forward_ite
  all_goals
    first
      | exact forward_next hmem hI hp
      | exact forward_stay hI hp
      | exact forward_stepErr hmem hI hp _ _
      | exact forward_stepBool hmem hI hp _ _
      | exact forward_stepHooks hmem hI hp k ops _ _ (by decide)
      | exact forward_stepBackupCreated hmem hI hp k ops _ _ (by decide)
      | exact forward_stepReplicated hmem hI hp ops _
      | exact forward_stepRestoreCreated hmem hI hp k ops _ _ _ (by decide)
      | exact forward_next hmem (by simpa [Task.setCondition, Task.deleteCondition] using hI)
          (by simpa [Task.setCondition, Task.deleteCondition] using hp)
      | exact forward_completed hmem (by simpa using hI) rfl
      | skip
  · -- Prepare
    obtain ⟨h1, h2, -⟩ := call_frame t ops.ensureStagePodsDeleted
    split
    · rename_i t' err heq
      have : t' = (t.call ops.ensureStagePodsDeleted).1 := by rw [heq]
      subst this
      exact forward_stay (h2.trans hI) (h1.trans hp)
    · rename_i t' u heq
      have : t' = (t.call ops.ensureStagePodsDeleted).1 := by rw [heq]
      subst this
      exact forward_stepErr hmem (h2.trans hI) (h1.trans hp) _ _
  · -- EnsureCloudSecretPropagated
    obtain ⟨h1, h2⟩ := countPropagated_frame ops t t.getBothClusters 0
    split
    · rename_i t' err heq
      have : t' = (Task.countPropagated ops t t.getBothClusters 0).1 := by rw [heq]
      subst this
      exact forward_stay (h2.trans hI) (h1.trans hp)
    · rename_i t' count heq
      have : t' = (Task.countPropagated ops t t.getBothClusters 0).1 := by rw [heq]
      subst this
      split_ifs
      · exact forward_next hmem (h2.trans hI) (h1.trans hp)
      · exact forward_stay (by simpa using h2.trans hI) (by simpa using h1.trans hp)
  · -- EnsureFinalRestore
    obtain ⟨h1, h2, -⟩ := call_frame t ops.getInitialBackup
    split
    · rename_i t' err heq
      have : t' = (t.call ops.getInitialBackup).1 := by rw [heq]
      subst this
      exact forward_stay (h2.trans hI) (h1.trans hp)
    · rename_i t' heq
      have : t' = (t.call ops.getInitialBackup).1 := by rw [heq]
      subst this
      exact forward_stay (h2.trans hI) (h1.trans hp)
    · rename_i t' b heq
      have : t' = (t.call ops.getInitialBackup).1 := by rw [heq]
      subst this
      exact forward_stepErr hmem (h2.trans hI) (h1.trans hp) _ _

theorem init_itinerary_mem (k : Consts) (t : Task) : (t.init k).Itinerary ∈ itineraries := by
  rw [init_itinerary_eq]
  split_ifs <;> simp [itineraries]

theorem forward_run {I : Itinerary} {p : String} {t : Task} (k : Consts) (settings : Settings)
    (ops : Ops) (hI : (t.init k).Itinerary = I) (hp : (t.init k).Phase = p) :
    Forward I p (t.Run k settings ops).1 := by
  have hmem : I ∈ itineraries := hI ▸ init_itinerary_mem k t
  have hd := forward_dispatch hmem hI hp k settings ops
  unfold Task.Run
  simp only
  split
  · rename_i t' err heq
    rw [heq] at hd
    exact hd
  · rename_i t' heq
    rw [heq] at hd
    split_ifs
    · exact ⟨hd.1, by simpa [Task.failed] using hd.2⟩
    · exact hd

/-- C6 as stated fails: the migration in itinerary `Final` at phase
`InitialBackupCreated` whose initial backup is reported `Failed` keeps the
itinerary `Final` through the tick, and its phase after the tick is
`InitialBackupFailed`, which is neither the phase before nor the phase of
any step of `Final`. -/
theorem run_phase_monotone_counterexample :
    sampleBackupWaitTask.Owner.Status.Itenerary
      = (sampleBackupWaitTask.init sampleConsts).Itinerary.Name ∧
    (sampleBackupWaitTask.init sampleConsts).Itinerary = FinalItinerary ∧
    (sampleBackupWaitTask.Run sampleConsts {} failedBackupOps).1.Itinerary = FinalItinerary ∧
    (sampleBackupWaitTask.Run sampleConsts {} failedBackupOps).1.Phase = InitialBackupFailed ∧
    ¬ ((sampleBackupWaitTask.Run sampleConsts {} failedBackupOps).1.Phase
          = sampleBackupWaitTask.Phase ∨
        appearsAfter FinalItinerary.Steps sampleBackupWaitTask.Phase
          (sampleBackupWaitTask.Run sampleConsts {} failedBackupOps).1.Phase = true) := by
  decide

/-- C6, amended: for the itinerary `I` that the tick selects (one of the five)
and every migration whose phase is `p`, if the tick (`Task.Run`) leaves the
selected itinerary unchanged (the recorded itinerary name is the name of `I`),
then the task ends the tick in itinerary `I` and its phase is either `p`, or
the phase of a step that appears after `p` in `I`, or, when the phase handler
fails the phase through `Task.fail`, one of the out-of-tree failure phases
(the migration then counts as failed, so the next tick selects the Failed
itinerary), or, when `p` is no step of `I`, `Completed`. -/
theorem run_phase_monotone_or_failed (k : Consts) (settings : Settings) (ops : Ops) (t : Task)
    (hrec : t.Owner.Status.Itenerary = (t.init k).Itinerary.Name) :
    (t.init k).Itinerary ∈ itineraries ∧
    (t.Run k settings ops).1.Itinerary = (t.init k).Itinerary ∧
    ((t.Run k settings ops).1.Phase = t.Phase ∨
      appearsAfter (t.init k).Itinerary.Steps t.Phase (t.Run k settings ops).1.Phase = true ∨
      ((t.Run k settings ops).1.Phase ∈ failurePhases ∧
        (t.Run k settings ops).1.failed = true) ∨
      (t.Phase ∉ (t.init k).Itinerary.Steps.map Step.phase ∧
        (t.Run k settings ops).1.Phase = Completed)) := by
  have hp : (t.init k).Phase = t.Phase := by
    rw [init_phase_eq]
    simp [hrec]
  exact ⟨init_itinerary_mem k t, forward_run k settings ops rfl hp⟩

/-- Instance of C6 (amended): the final migration at `Prepare`, on a tick whose
helpers succeed, stays in itinerary `Final` and moves forward. -/
theorem run_phase_monotone_or_failed_witness :
    sampleFinalTask.Owner.Status.Itenerary = (sampleFinalTask.init sampleConsts).Itinerary.Name ∧
    (sampleFinalTask.Run sampleConsts {} quietOps).1.Itinerary
      = (sampleFinalTask.init sampleConsts).Itinerary ∧
    (sampleFinalTask.Run sampleConsts {} quietOps).1.Phase = EnsureCloudSecretPropagated :=
  ⟨by decide,
    (run_phase_monotone_or_failed sampleConsts {} quietOps sampleFinalTask (by decide)).2.1,
    by decide⟩

/-! ## Runs of `next` -/

theorem advance_frame (t : Task) (n : Nat) :
    (t.advance n).Owner = t.Owner ∧ (t.advance n).PlanResources = t.PlanResources ∧
    (t.advance n).Itinerary = t.Itinerary := by
  induction n with
  | zero => simp [Task.advance]
  | succ n ih =>
    obtain ⟨h1, h2, -, h3, -⟩ := next_frame (t.advance n)
    simp only [Task.advance]
    exact ⟨h1.trans ih.1, h2.trans ih.2.1, h3.trans ih.2.2⟩

theorem next_phase_accepted (t : Task) :
    t.next.Phase = Completed ∨
      ∃ s ∈ t.Itinerary.Steps, s.phase = t.next.Phase ∧ t.accepts s = true := by
  unfold Task.next
  split
  · exact Or.inl rfl
  · split
    · rename_i s' hfe
      obtain ⟨hmem, hacc⟩ := firstEligible_some_spec _ _ _ hfe
      exact Or.inr ⟨s', List.mem_of_mem_drop hmem, rfl, hacc⟩
    · exact Or.inl rfl

theorem allFlags_congr (t t' : Task) (s : Step) (hO : t'.Owner = t.Owner)
    (hP : t'.PlanResources = t.PlanResources) :
    t'.allFlags s = t.allFlags s ∧ t'.anyFlags s = t.anyFlags s ∧ t'.accepts s = t.accepts s := by
  simp [Task.accepts, Task.allFlags, Task.anyFlags, Task.hasPVs, Task.quiesce, Task.hasVerify,
    hO, hP]

theorem not_accepts_of_no_pvs (t : Task) (s : Step) (hpv : t.hasPVs = false)
    (hs : s.all &&& HasPVs ≠ 0) : t.accepts s = false := by
  simp [Task.accepts, Task.allFlags, hpv, hs]

theorem hasPVs_eq_false_of_all_skip (t : Task)
    (h : ∀ pv ∈ t.PlanResources.MigPlan.PersistentVolumes, pv.Selection.Action = PvSkipAction) :
    t.hasPVs = false := by
  simp only [Task.hasPVs, List.any_eq_false, bne_iff_ne, ne_eq, not_not]
  exact h

theorem pv_steps_apart :
    ∀ I ∈ itineraries, ∀ s ∈ I.Steps, s.all &&& HasPVs ≠ 0 →
      s.phase ≠ Completed ∧ s.phase ≠ Task.firstPhase I ∧
      ∀ s' ∈ I.Steps, s'.all &&& HasPVs = 0 → s'.phase ≠ s.phase := by
  decide

/-- C7: for every plan with zero PVs whose action is not skip: in every
itinerary, each application of `Task.next` leaves the task at `Completed` or
at the phase of a step that passed the flag tests, whose `all` mask does not
contain `HasPVs`; and in each of the five itineraries, starting from the
first step and advancing with `Task.next` any number of times, the phase
reached is never the phase of a step whose `all` mask contains `HasPVs`. -/
theorem has_pvs_steps_never_reached (t : Task)
    (hplan : ∀ pv ∈ t.PlanResources.MigPlan.PersistentVolumes,
      pv.Selection.Action = PvSkipAction) :
    (t.next.Phase = Completed ∨
      ∃ s ∈ t.Itinerary.Steps, s.phase = t.next.Phase ∧ t.accepts s = true ∧
        s.all &&& HasPVs = 0) ∧
    (∀ I ∈ itineraries, ∀ (n : Nat), ∀ s ∈ I.Steps, s.all &&& HasPVs ≠ 0 →
      ((t.start I).advance n).Phase ≠ s.phase) := by
  have hpv := hasPVs_eq_false_of_all_skip t hplan
  have hstep : ∀ u : Task, u.Owner = t.Owner → u.PlanResources = t.PlanResources →
      (u.next.Phase = Completed ∨
        ∃ s ∈ u.Itinerary.Steps, s.phase = u.next.Phase ∧ u.accepts s = true ∧
          s.all &&& HasPVs = 0) := by
    intro u hO hP
    have hupv : u.hasPVs = false := by simpa [Task.hasPVs, hP] using hpv
    rcases next_phase_accepted u with h | ⟨s, hs, hph, hacc⟩
    · exact Or.inl h
    · refine Or.inr ⟨s, hs, hph, hacc, ?_⟩
      by_contra hne
      rw [not_accepts_of_no_pvs u s hupv hne] at hacc
      exact Bool.false_ne_true hacc
  refine ⟨hstep t rfl rfl, ?_⟩
  intro I hI n s hs hmask
  obtain ⟨hc, hf, hothers⟩ := pv_steps_apart I hI s hs hmask
  cases n with
  | zero => simpa [Task.advance, Task.start] using Ne.symm hf
  | succ n =>
    obtain ⟨hO, hP, hIt⟩ := advance_frame (t.start I) n
    simp only [Task.advance]
    rcases hstep ((t.start I).advance n) (by simpa [Task.start] using hO)
      (by simpa [Task.start] using hP) with h | ⟨s', hs', hph, -, hmask'⟩
    · rw [h]; exact Ne.symm hc
    · rw [← hph]
      have hsI : s' ∈ I.Steps := by
        rw [hIt] at hs'
        exact hs'
      exact hothers s' hsI hmask'

/-- Instance of C7: with the only PV skipped, five advances from the first
step of the Stage itinerary do not reach `EnsureStageBackup`. -/
theorem has_pvs_steps_never_reached_witness :
    (∀ pv ∈ sampleSkipTask.PlanResources.MigPlan.PersistentVolumes,
      pv.Selection.Action = PvSkipAction) ∧
    ((sampleSkipTask.start StageItinerary).advance 5).Phase ≠ EnsureStageBackup :=
  ⟨by decide,
    (has_pvs_steps_never_reached sampleSkipTask (by decide)).2 StageItinerary (by decide) 5
      ⟨EnsureStageBackup, HasPVs, 0⟩ (by decide) (by decide)⟩

/-! ## Final and FinalNoPVs -/

theorem firstEligible_congr (t t' : Task) (l : List Step) (hO : t'.Owner = t.Owner)
    (hP : t'.PlanResources = t.PlanResources) :
    Task.firstEligible t' l = Task.firstEligible t l := by
  induction l with
  | nil => rfl
  | cons x rest ih =>
    obtain ⟨h1, h2, -⟩ := allFlags_congr t t' x hO hP
    simp only [Task.firstEligible, h1, h2, ih]

theorem firstEligible_filter (t : Task) (keep : Step → Bool) (l : List Step)
    (hdrop : ∀ s ∈ l, keep s = false → t.accepts s = false) :
    Task.firstEligible t (l.filter keep) = Task.firstEligible t l := by
  induction l with
  | nil => rfl
  | cons x rest ih =>
    have ih' := ih (fun s hs => hdrop s (by simp [hs]))
    by_cases hk : keep x = true
    · simp only [List.filter_cons, hk, if_true, Task.firstEligible, ih']
    · have hx := hdrop x (by simp) (by simpa using hk)
      simp only [Task.accepts, Bool.and_eq_false_iff] at hx
      simp only [List.filter_cons, hk]
      rcases hx with hx | hx
      · simp [Task.firstEligible, hx, ih']
      · by_cases ha : t.allFlags x = true
        · simp [Task.firstEligible, ha, hx, ih']
        · simp [Task.firstEligible, ha, ih']

theorem rest_filter (keep : Step → Bool) (l : List Step) (p : String)
    (hkeep : ∀ s ∈ l, s.phase = p → keep s = true) :
    (Task.currentIndex (l.filter keep) p).map (fun i => (l.filter keep).drop (i + 1))
      = (Task.currentIndex l p).map (fun i => (l.drop (i + 1)).filter keep) := by
  induction l with
  | nil => rfl
  | cons x rest ih =>
    have ih' := ih (fun s hs => hkeep s (by simp [hs]))
    by_cases hx : x.phase = p
    · have hk := hkeep x (by simp) hx
      simp [List.filter_cons, hk, Task.currentIndex, hx]
    · by_cases hk : keep x = true
      · simp only [List.filter_cons, hk, if_true, Task.currentIndex, bne_iff_ne, ne_eq, hx,
          not_false_eq_true, Option.map_map]
        simpa [Function.comp_def] using ih'
      · simp only [List.filter_cons, hk, Task.currentIndex, bne_iff_ne, ne_eq, hx,
          not_false_eq_true, if_true, Option.map_map]
        simpa [Function.comp_def] using ih'

theorem next_phase_eq (t : Task) :
    t.next.Phase =
      match ((Task.currentIndex t.Itinerary.Steps t.Phase).map
          (fun i => t.Itinerary.Steps.drop (i + 1))).bind (Task.firstEligible t) with
      | some s => s.phase
      | none => Completed := by
  unfold Task.next
  cases hcur : Task.currentIndex t.Itinerary.Steps t.Phase with
  | none => simp
  | some i =>
    simp only [Option.map_some', Option.some_bind]
    cases Task.firstEligible t (List.drop (i + 1) t.Itinerary.Steps) <;> simp

theorem next_filter (t tN : Task) (keep : Step → Bool) (hO : tN.Owner = t.Owner)
    (hP : tN.PlanResources = t.PlanResources) (hPh : tN.Phase = t.Phase)
    (hsteps : tN.Itinerary.Steps = t.Itinerary.Steps.filter keep)
    (hdrop : ∀ s ∈ t.Itinerary.Steps, keep s = false → t.accepts s = false)
    (hkeep : ∀ s ∈ t.Itinerary.Steps, s.phase = t.Phase → keep s = true) :
    tN.next.Phase = t.next.Phase := by
  rw [next_phase_eq, next_phase_eq, hsteps, hPh, rest_filter keep _ _ hkeep]
  have hfun : Task.firstEligible tN = Task.firstEligible t :=
    funext (fun l => firstEligible_congr t tN l hO hP)
  rw [hfun]
  cases hcur : Task.currentIndex t.Itinerary.Steps t.Phase with
  | none => simp
  | some i =>
    simp only [Option.map_some', Option.some_bind]
    rw [firstEligible_filter t keep _
      (fun s hs => hdrop s (List.mem_of_mem_drop hs))]

theorem final_steps_unique :
    ∀ s ∈ FinalItinerary.Steps, ∀ s' ∈ FinalItinerary.Steps, s'.phase = s.phase → s' = s := by
  decide

theorem final_completed_kept :
    ∀ s ∈ FinalItinerary.Steps, s.phase = Completed → keptWithoutPVs s = true := by
  decide

theorem final_first_kept :
    ∀ s ∈ FinalItinerary.Steps, s.phase = Task.firstPhase FinalItinerary →
      keptWithoutPVs s = true := by
  decide

theorem not_accepts_of_not_kept (t : Task) (hpv : t.hasPVs = false)
    (hsp : t.Owner.Status.HasCondition StagePodsCreated = false) (s : Step)
    (hk : keptWithoutPVs s = false) : t.accepts s = false := by
  simp only [keptWithoutPVs, Bool.and_eq_false_iff, beq_eq_false_iff_ne, ne_eq] at hk
  rcases hk with hk | hk
  · simp [Task.accepts, Task.allFlags, hpv, hk]
  · by_cases h4 : s.all &&& HasPVs = 0
    · simp [Task.accepts, Task.allFlags, hpv, hsp, hk, h4]
    · simp [Task.accepts, Task.allFlags, hpv, h4]

theorem final_runs_agree (t : Task) (hpv : t.hasPVs = false)
    (hsp : t.Owner.Status.HasCondition StagePodsCreated = false) (n : Nat) :
    ((t.start FinalItineraryNoPVs).advance n).Phase = ((t.start FinalItinerary).advance n).Phase ∧
    ∀ s ∈ FinalItinerary.Steps, s.phase = ((t.start FinalItinerary).advance n).Phase →
      keptWithoutPVs s = true := by
  induction n with
  | zero => exact ⟨rfl, final_first_kept⟩
  | succ n ih =>
    obtain ⟨hO, hP, hIt⟩ := advance_frame (t.start FinalItinerary) n
    obtain ⟨hO', hP', hIt'⟩ := advance_frame (t.start FinalItineraryNoPVs) n
    have hOt : ((t.start FinalItinerary).advance n).Owner = t.Owner := hO
    have hPt : ((t.start FinalItinerary).advance n).PlanResources = t.PlanResources := hP
    have hItF : ((t.start FinalItinerary).advance n).Itinerary = FinalItinerary := hIt
    have hItN : ((t.start FinalItineraryNoPVs).advance n).Itinerary = FinalItineraryNoPVs := hIt'
    have hupv : ((t.start FinalItinerary).advance n).hasPVs = false := by
      simpa [Task.hasPVs, hPt] using hpv
    have husp : ((t.start FinalItinerary).advance n).Owner.Status.HasCondition StagePodsCreated
        = false := by rw [hOt]; exact hsp
    have hdrop : ∀ s ∈ ((t.start FinalItinerary).advance n).Itinerary.Steps,
        keptWithoutPVs s = false → ((t.start FinalItinerary).advance n).accepts s = false :=
      fun s _ hk => not_accepts_of_not_kept _ hupv husp s hk
    constructor
    · simp only [Task.advance]
      apply next_filter _ _ keptWithoutPVs (hO'.trans hO.symm) (hP'.trans hP.symm) ih.1
      · rw [hItF, hItN]; decide
      · exact hdrop
      · rw [hItF]; exact ih.2
    · simp only [Task.advance]
      rcases next_phase_accepted ((t.start FinalItinerary).advance n) with h | ⟨s, hs, hph, hacc⟩
      · rw [h]; exact final_completed_kept
      · intro s' hs' hph'
        rw [hItF] at hs
        have heq : s' = s := final_steps_unique s hs s' hs' (hph'.trans hph.symm)
        rw [heq]
        by_contra hk
        rw [hdrop s (by rw [hItF]; exact hs) (by simpa using hk)] at hacc
        exact Bool.false_ne_true hacc

/-- C9: the step list of the FinalNoPVs itinerary is exactly the step list of
the Final itinerary, in the same order, with the steps whose `all` mask
contains `HasPVs` or `HasStagePods` removed; both start at `Created`; and for
every flag state with `HasPVs` and `HasStagePods` unset, repeated `Task.next`
from the first step visits the same phase sequence in both itineraries. -/
theorem final_no_pvs_is_final_elided :
    FinalItineraryNoPVs.Steps
      = FinalItinerary.Steps.filter
          (fun s => s.all &&& HasPVs == 0 && s.all &&& HasStagePods == 0) ∧
    Task.firstPhase FinalItinerary = Created ∧ Task.firstPhase FinalItineraryNoPVs = Created ∧
    ∀ t : Task, t.hasPVs = false → t.Owner.Status.HasCondition StagePodsCreated = false →
      ∀ n : Nat, ((t.start FinalItineraryNoPVs).advance n).Phase
        = ((t.start FinalItinerary).advance n).Phase :=
  ⟨by decide, by decide, by decide, fun t hpv hsp n => (final_runs_agree t hpv hsp n).1⟩

/-- Instance of C9: for the migration that quiesces and verifies, with no PVs
and no stage pods, the eighth phase of both runs is `QuiesceApplications`. -/
theorem final_no_pvs_is_final_elided_witness :
    (sampleQuiesceVerifyTask.hasPVs = false ∧
      sampleQuiesceVerifyTask.Owner.Status.HasCondition StagePodsCreated = false) ∧
    ((sampleQuiesceVerifyTask.start FinalItineraryNoPVs).advance 7).Phase
      = ((sampleQuiesceVerifyTask.start FinalItinerary).advance 7).Phase ∧
    ((sampleQuiesceVerifyTask.start FinalItinerary).advance 7).Phase = QuiesceApplications :=
  ⟨by decide,
    final_no_pvs_is_final_elided.2.2.2 sampleQuiesceVerifyTask (by decide) (by decide) 7,
    by decide⟩

/-! ## Cross-cluster ordering -/

theorem appearsAfter_mem (l : List Step) (p q : String) (h : appearsAfter l p q = true) :
    p ∈ l.map Step.phase ∧ q ∈ l.map Step.phase := by
  induction l with
  | nil => simp [appearsAfter] at h
  | cons x rest ih =>
    simp only [appearsAfter, Bool.or_eq_true, Bool.and_eq_true, beq_iff_eq,
      List.any_eq_true] at h
    rcases h with ⟨hx, s, hs, hq⟩ | h
    · exact ⟨by simp [hx], by simp only [List.map_cons, List.mem_cons, List.mem_map]
                              exact Or.inr ⟨s, hs, hq⟩⟩
    · exact ⟨by simp [(ih h).1], by simp [(ih h).2]⟩

theorem appearsAfter_trans (l : List Step) (p q r : String) (hnd : (l.map Step.phase).Nodup)
    (hpq : appearsAfter l p q = true) (hqr : appearsAfter l q r = true) :
    appearsAfter l p r = true := by
  induction l with
  | nil => simp [appearsAfter] at hpq
  | cons x rest ih =>
    simp only [List.map_cons, List.nodup_cons] at hnd
    simp only [appearsAfter, Bool.or_eq_true, Bool.and_eq_true, beq_iff_eq,
      List.any_eq_true] at hpq hqr ⊢
    rcases hpq with ⟨hx, s, hs, hq⟩ | hpq
    · rcases hqr with ⟨hx', -⟩ | hqr
      · exact absurd (List.mem_map.mpr ⟨s, hs, hq.trans hx'.symm⟩) hnd.1
      · obtain ⟨s', hs', hr⟩ := List.mem_map.mp (appearsAfter_mem rest q r hqr).2
        exact Or.inl ⟨hx, s', hs', hr⟩
    · rcases hqr with ⟨hx', -⟩ | hqr
      · exact absurd (hx' ▸ (appearsAfter_mem rest p q hpq).2) hnd.1
      · exact Or.inr (ih hnd.2 hpq hqr)

theorem itineraries_nodup : ∀ I ∈ itineraries, (I.Steps.map Step.phase).Nodup := by
  decide

theorem next_forward {I : Itinerary} {t : Task} (hmem : I ∈ itineraries)
    (hI : t.Itinerary = I) (hp : t.Phase ∈ I.Steps.map Step.phase) :
    (t.next.Phase = t.Phase ∨ appearsAfter I.Steps t.Phase t.next.Phase = true) ∧
    t.next.Phase ∈ I.Steps.map Step.phase := by
  have h : t.next.Phase = t.Phase ∨ appearsAfter I.Steps t.Phase t.next.Phase = true := by
    rcases next_phase_cases t with h | h
    · rcases completed_is_last I hmem t.Phase hp with h' | h'
      · exact Or.inl (h.trans h'.symm)
      · exact Or.inr (by rw [h]; exact h')
    · exact Or.inr (by rw [← hI]; exact h)
  refine ⟨h, ?_⟩
  rcases h with h | h
  · rw [h]; exact hp
  · exact (appearsAfter_mem _ _ _ h).2

theorem advance_forward {I : Itinerary} {t : Task} (hmem : I ∈ itineraries)
    (hI : t.Itinerary = I) (hp : t.Phase ∈ I.Steps.map Step.phase) (m d : Nat) :
    (t.advance m).Phase ∈ I.Steps.map Step.phase ∧
    ((t.advance (m + d)).Phase = (t.advance m).Phase ∨
      appearsAfter I.Steps (t.advance m).Phase (t.advance (m + d)).Phase = true) := by
  have hin : ∀ n, (t.advance n).Phase ∈ I.Steps.map Step.phase := by
    intro n
    induction n with
    | zero => exact hp
    | succ n ih =>
      exact (next_forward hmem ((advance_frame t n).2.2.trans hI) ih).2
  refine ⟨hin m, ?_⟩
  induction d with
  | zero => exact Or.inl rfl
  | succ d ih =>
    have hstep := (next_forward hmem ((advance_frame t (m + d)).2.2.trans hI) (hin (m + d))).1
    have hadv : t.advance (m + (d + 1)) = (t.advance (m + d)).next := rfl
    rw [hadv]
    rcases hstep with hs | hs
    · rw [hs]; exact ih
    · rcases ih with ih | ih
      · rw [ih] at hs; exact Or.inr hs
      · exact Or.inr (appearsAfter_trans _ _ _ _ (itineraries_nodup I hmem) ih hs)

theorem orderRank_phases :
    ∀ p : String, ∀ a : Nat, orderRank p = some a →
      p ∈ [EnsureStageBackup, StageBackupCreated, EnsureStageBackupReplicated,
        EnsureStageRestore, StageRestoreCreated, EnsureStagePodsDeleted,
        EnsureStagePodsTerminated] := by
  intro p a h
  unfold orderRank at h
  split_ifs at h with h1 h2 h3
  · simp only [List.mem_cons, List.mem_singleton, List.not_mem_nil, or_false] at h1 ⊢
    tauto
  · simp only [List.mem_cons, List.mem_singleton, List.not_mem_nil, or_false] at h2 ⊢
    tauto
  · simp only [List.mem_cons, List.mem_singleton, List.not_mem_nil, or_false] at h3 ⊢
    tauto

theorem orderRank_monotone :
    ∀ I ∈ [StageItinerary, FinalItinerary],
      ∀ p ∈ [EnsureStageBackup, StageBackupCreated, EnsureStageBackupReplicated,
        EnsureStageRestore, StageRestoreCreated, EnsureStagePodsDeleted,
        EnsureStagePodsTerminated],
      ∀ q ∈ [EnsureStageBackup, StageBackupCreated, EnsureStageBackupReplicated,
        EnsureStageRestore, StageRestoreCreated, EnsureStagePodsDeleted,
        EnsureStagePodsTerminated],
      (p ∈ I.Steps.map Step.phase ∧ q ∈ I.Steps.map Step.phase) ∧
      (appearsAfter I.Steps p q = true →
        ∀ a ∈ orderRank p, ∀ b ∈ orderRank q, a ≤ b) := by
  decide

theorem advance_add (t : Task) (a b : Nat) : (t.advance a).advance b = t.advance (a + b) := by
  induction b with
  | zero => rfl
  | succ b ih =>
    have h : t.advance (a + (b + 1)) = (t.advance (a + b)).next := rfl
    rw [h, ← ih]
    rfl

theorem order_of_member {I : Itinerary} {t : Task} (hI2 : I ∈ [StageItinerary, FinalItinerary])
    (hI : t.Itinerary = I) (hp : t.Phase ∈ I.Steps.map Step.phase)
    (m n a b : Nat) (hmn : m ≤ n)
    (ha : orderRank (t.advance m).Phase = some a)
    (hb : orderRank (t.advance n).Phase = some b) : a ≤ b := by
  have hmem : I ∈ itineraries := by
    simp only [List.mem_cons, List.mem_singleton, List.not_mem_nil, or_false] at hI2
    rcases hI2 with h | h <;> simp [h, itineraries]
  obtain ⟨-, hfw⟩ := advance_forward hmem hI hp m (n - m)
  have hn : m + (n - m) = n := by omega
  rw [hn] at hfw
  rcases hfw with h | h
  · rw [h, ha] at hb
    exact le_of_eq (Option.some.inj hb)
  · exact (orderRank_monotone I hI2 _ (orderRank_phases _ a ha) _ (orderRank_phases _ b hb)).2 h
      a (by simp [ha]) b (by simp [hb])

/-- C10: in the Stage and Final itineraries, for every flag state and every
run of repeated `Task.next` (from the first step, or from any phase), the
phases of stage backup (`EnsureStageBackup`, `StageBackupCreated`,
`EnsureStageBackupReplicated`), stage restore (`EnsureStageRestore`,
`StageRestoreCreated`) and stage-pod deletion (`EnsureStagePodsDeleted`,
`EnsureStagePodsTerminated`) are reached in this order: a phase reached
earlier in the run never belongs to a later group than a phase reached after
it. -/
theorem stage_backup_restore_delete_order (t : Task)
    (hI : t.Itinerary = StageItinerary ∨ t.Itinerary = FinalItinerary)
    (m n a b : Nat) (hmn : m ≤ n)
    (ha : orderRank (t.advance m).Phase = some a)
    (hb : orderRank (t.advance n).Phase = some b) : a ≤ b := by
  have hI2 : t.Itinerary ∈ [StageItinerary, FinalItinerary] := by
    rcases hI with h | h <;> simp [h]
  have hmem : t.Itinerary ∈ itineraries := by
    rcases hI with h | h <;> simp [h, itineraries]
  by_cases hp : t.Phase ∈ t.Itinerary.Steps.map Step.phase
  · exact order_of_member hI2 rfl hp m n a b hmn ha hb
  · cases m with
    | zero =>
      exact absurd ((orderRank_monotone _ hI2 _ (orderRank_phases _ a ha) _
        (orderRank_phases _ a ha)).1.1) hp
    | succ m =>
      obtain ⟨n', rfl⟩ : ∃ n', n = n' + 1 := ⟨n - 1, by omega⟩
      have h1 : (t.advance 1).Phase ∈ t.Itinerary.Steps.map Step.phase := by
        have hc : Completed ∈ t.Itinerary.Steps.map Step.phase := by
          rcases hI with h | h <;> rw [h] <;> decide
        rcases next_phase_cases t with h | h
        · simpa [Task.advance, h] using hc
        · simpa [Task.advance] using (appearsAfter_mem _ _ _ h).2
      have hIt1 : (t.advance 1).Itinerary = t.Itinerary := (advance_frame t 1).2.2
      have hm : t.advance (m + 1) = (t.advance 1).advance m := by
        rw [advance_add, Nat.add_comm]
      have hn : t.advance (n' + 1) = (t.advance 1).advance n' := by
        rw [advance_add, Nat.add_comm]
      rw [hm] at ha
      rw [hn] at hb
      exact order_of_member hI2 hIt1 h1 m n' a b (by omega) ha hb

/-- Instance of C10: in the stage run with PVs and stage pods, the phase after
12 advances is `StageBackupCreated` (group 1) and the phase after 16 advances
is `EnsureStagePodsDeleted` (group 3), in this order. -/
theorem stage_backup_restore_delete_order_witness :
    (sampleStageRun.advance 12).Phase = StageBackupCreated ∧
    (sampleStageRun.advance 16).Phase = EnsureStagePodsDeleted ∧
    (1 : Nat) ≤ 3 :=
  ⟨by decide, by decide,
    stage_backup_restore_delete_order sampleStageRun (Or.inl (by decide)) 12 16 1 3
      (by decide) (by decide) (by decide)⟩

/-! ## Requeue after a tick -/

/-- C11 as stated fails: the handler of `EnsureInitialBackup` advances the
final migration to `InitialBackupCreated`, which is not `Completed`, and the
requeue that `Run` leaves is `NoReQ` (0), not `FastReQ` (100 ms). -/
theorem requeue_fast_on_advance_counterexample :
    (sampleEnsureBackupTask.Run sampleConsts {} quietOps).2 = none ∧
    (sampleEnsureBackupTask.Run sampleConsts {} quietOps).1.Phase = InitialBackupCreated ∧
    (sampleEnsureBackupTask.Run sampleConsts {} quietOps).1.Phase ≠ Completed ∧
    (sampleEnsureBackupTask.Run sampleConsts {} quietOps).1.Requeue = 0 ∧
    (sampleEnsureBackupTask.Run sampleConsts {} quietOps).1.Requeue ≠ FastReQ ∧
    FastReQ = 100 * 1000000 := by
  decide

theorem moved_congr {t : Task} {r : Task × Option String} {d d' : Nat}
    (h : Moved t r d) (hd : d = d') : Moved t r d' :=
  hd ▸ h

theorem moved_ite {t : Task} {d : Nat} {c : Prop} [Decidable c] {a b : Task × Option String}
    (ha : c → Moved t a d) (hb : ¬c → Moved t b d) : Moved t (if c then a else b) d := by
  split_ifs with h
  · exact ha h
  · exact hb h

theorem moved_stay {t t' : Task} {e : Option String} {d : Nat} (hp : t'.Phase = t.Phase) :
    Moved t (t', e) d :=
  ⟨fun _ _ h _ => absurd hp h⟩

theorem moved_error {t t' : Task} {err : String} {d : Nat} : Moved t (t', some err) d :=
  ⟨fun h _ _ _ => absurd h (by simp)⟩

theorem moved_next {t t' : Task} : Moved t (t'.next, none) t'.Requeue :=
  ⟨fun _ _ _ _ => (next_frame t').2.2.1⟩

theorem moved_failed {t t' : Task} {e : Option String} {d : Nat}
    (hf : t'.Phase ∈ failurePhases) : Moved t (t', e) d :=
  ⟨fun _ _ _ h => absurd hf h⟩

theorem moved_completed {t t' : Task} {e : Option String} {d : Nat}
    (hc : t'.Phase = Completed) : Moved t (t', e) d :=
  ⟨fun _ h _ _ => absurd hc h⟩

theorem fail_phase (k : Consts) (t : Task) (nextPhase : String) (reasons : List String) :
    (t.fail k nextPhase reasons).Phase = nextPhase := by
  simp [Task.fail]

theorem moved_stepErr (t0 t : Task) (op : Op Unit) (requeue : Option Nat) :
    Moved t0 (t.stepErr op requeue) (requeue.getD t.Requeue) := by
  obtain ⟨-, -, -, h4, -⟩ := call_frame t op
  unfold Task.stepErr
  split
  · exact moved_error
  · rename_i t' u heq
    have : t' = (t.call op).1 := by rw [heq]
    subst this
    split
    · exact moved_congr moved_next (by simp)
    · exact moved_congr moved_next (by simpa using h4)

theorem moved_stepBool (t0 t : Task) (hp : t.Phase = t0.Phase) (op : Op Bool) (requeue : Nat) :
    Moved t0 (t.stepBool op requeue) t.Requeue := by
  obtain ⟨h1, -, -, h4, -⟩ := call_frame t op
  unfold Task.stepBool
  split
  · exact moved_error
  · rename_i t' ok heq
    have : t' = (t.call op).1 := by rw [heq]
    subst this
    split_ifs
    · exact moved_congr moved_next h4
    · exact moved_stay (by simpa using h1.trans hp)

theorem moved_stepHooks (t0 t : Task) (hp : t.Phase = t0.Phase) (k : Consts) (ops : Ops)
    (hookPhase failedPhase : String) :
    Moved t0 (t.stepHooks k ops hookPhase failedPhase) t.Requeue := by
  obtain ⟨h1, -, -, h4, -⟩ := call_frame t (ops.runHooks hookPhase)
  unfold Task.stepHooks
  split
  · exact moved_error
  · rename_i t' status heq
    have : t' = (t.call (ops.runHooks hookPhase)).1 := by rw [heq]
    subst this
    split_ifs
    · exact moved_congr moved_next h4
    · exact moved_stay (by simpa using h1.trans hp)

theorem moved_stepBackupCreated (t0 t : Task) (hp : t.Phase = t0.Phase) (k : Consts) (ops : Ops)
    (getBackup : Op (Option Backup)) (failedPhase : String) (hf : failedPhase ∈ failurePhases) :
    Moved t0 (t.stepBackupCreated k ops getBackup failedPhase) t.Requeue := by
  obtain ⟨h1, -, -, h4, -⟩ := call_frame t getBackup
  unfold Task.stepBackupCreated
  split
  · exact moved_error
  · exact moved_error
  · rename_i t' backup heq
    have : t' = (t.call getBackup).1 := by rw [heq]
    subst this
    split
    · exact moved_error
    · rename_i t'' completed reasons heq2
      obtain ⟨h5, -, -, h6⟩ := hasBackupCompleted_frame ops (t.call getBackup).1 backup _ heq2
      simp only at h5 h6
      split_ifs
      · exact moved_failed (by rw [fail_phase]; exact hf)
      · exact moved_congr moved_next (h6.trans h4)
      · exact moved_stay (by simpa using h5.trans (h1.trans hp))

theorem moved_stepReplicated (t0 t : Task) (hp : t.Phase = t0.Phase) (ops : Ops)
    (getBackup : Op (Option Backup)) :
    Moved t0 (t.stepReplicated ops getBackup) t.Requeue := by
  obtain ⟨h1, -, -, h4, -⟩ := call_frame t getBackup
  unfold Task.stepReplicated
  split
  · exact moved_error
  · exact moved_error
  · rename_i t' backup heq
    have : t' = (t.call getBackup).1 := by rw [heq]
    subst this
    exact moved_congr (moved_stepBool t0 _ (h1.trans hp) _ _) h4

theorem moved_stepRestoreCreated (t0 t : Task) (hp : t.Phase = t0.Phase) (k : Consts)
    (ops : Ops) (getRestore : Op (Option Restore)) (failedPhase : String) (restic : Bool)
    (hf : failedPhase ∈ failurePhases) :
    Moved t0 (t.stepRestoreCreated k ops getRestore failedPhase restic) t.Requeue := by
  obtain ⟨h1, -, -, h4, -⟩ := call_frame t getRestore
  unfold Task.stepRestoreCreated
  split
  · exact moved_error
  · exact moved_error
  · rename_i t' restore heq
    have : t' = (t.call getRestore).1 := by rw [heq]
    subst this
    simp only
    split_ifs <;>
      first
        | exact moved_failed (by rw [fail_phase]; exact hf)
        | exact moved_congr moved_next (by simpa using h4)
        | exact moved_stay (by simpa using h1.trans hp)

theorem countPropagated_requeue (ops : Ops) (t : Task) (clusters : List MigCluster)
    (count : Nat) : (Task.countPropagated ops t clusters count).1.Requeue = t.Requeue := by
  induction clusters generalizing t count with
  | nil => simp [Task.countPropagated]
  | cons c rest ih =>
    obtain ⟨-, -, -, h4, -⟩ := call_frame t (ops.veleroPodCredSecretPropagated c)
    unfold Task.countPropagated
    split
    · rename_i t' err heq
      have : t' = (t.call (ops.veleroPodCredSecretPropagated c)).1 := by rw [heq]
      subst this
      exact h4
    · rename_i t' propagated heq
      have : t' = (t.call (ops.veleroPodCredSecretPropagated c)).1 := by rw [heq]
      subst this
      split_ifs
      · exact (ih _ _).trans h4
      · exact h4

theorem out_of_tree_absent :
    ∀ I ∈ itineraries, ∀ p ∈ [InitialBackupFailed, FinalRestoreFailed, StageBackupFailed,
      StageRestoreFailed], ∀ s ∈ I.Steps, s.phase ≠ p := by
  decide

theorem moved_dispatch (k : Consts) (settings : Settings) (ops : Ops) (t : Task)
    (hreq : t.Requeue = FastReQ) (hI : t.Itinerary ∈ itineraries) :
    Moved t (Task.dispatch k settings ops t) (requeueOnAdvance t.Phase) := by
  unfold Task.dispatch
  repeat' (first | apply moved_ite | intro _)
  all_goals
    first
      | exact moved_stay rfl
      | exact moved_completed rfl
      | (have hp : t.Phase = _ := eq_of_beq (by assumption)
         first
           | exact moved_congr (moved_stepErr t t _ _)
               (by simp only [Option.getD_some, Option.getD_none, hreq, hp]; decide)
           | exact moved_congr (moved_stepBool t t rfl _ _) (by rw [hreq, hp]; decide)
           | exact moved_congr (moved_stepHooks t t rfl k ops _ _) (by rw [hreq, hp]; decide)
           | exact moved_congr (moved_stepBackupCreated t t rfl k ops _ _ (by decide))
               (by rw [hreq, hp]; decide)
           | exact moved_congr (moved_stepReplicated t t rfl ops _) (by rw [hreq, hp]; decide)
           | exact moved_congr (moved_stepRestoreCreated t t rfl k ops _ _ _ (by decide))
               (by rw [hreq, hp]; decide)
           | exact moved_congr moved_next (by rw [hreq, hp]; decide)
           | exact moved_congr moved_next
               (by simp only [Task.setCondition, Task.deleteCondition, hreq, hp]; decide))
      | skip
  · -- Created, Started
    rename_i hc
    simp only [Bool.or_eq_true, beq_iff_eq] at hc
    rcases hc with hp | hp <;> exact moved_congr moved_next (by rw [hreq, hp]; decide)
  · -- Prepare
    have hp : t.Phase = _ := eq_of_beq (by assumption)
    obtain ⟨-, -, -, h4, -⟩ := call_frame t ops.ensureStagePodsDeleted
    split
    · exact moved_error
    · rename_i t' u heq
      have : t' = (t.call ops.ensureStagePodsDeleted).1 := by rw [heq]
      subst this
      exact moved_congr (moved_stepErr t _ _ _)
        (by simp only [Option.getD_none, h4, hreq, hp]; decide)
  · -- EnsureCloudSecretPropagated
    have hp : t.Phase = _ := eq_of_beq (by assumption)
    have h4 := countPropagated_requeue ops t t.getBothClusters 0
    have h1 := (countPropagated_frame ops t t.getBothClusters 0).1
    split
    · exact moved_error
    · rename_i t' count heq
      have : t' = (Task.countPropagated ops t t.getBothClusters 0).1 := by rw [heq]
      subst this
      split_ifs
      · exact moved_congr moved_next (by rw [h4, hreq, hp]; decide)
      · exact moved_stay (by simpa using h1)
  · -- EnsureFinalRestore
    have hp : t.Phase = _ := eq_of_beq (by assumption)
    split
    · exact moved_error
    · exact moved_error
    · exact moved_congr (moved_stepErr t _ _ _)
        (by simp only [Option.getD_some, hp]; decide)
  · -- InitialBackupFailed, FinalRestoreFailed, StageBackupFailed, StageRestoreFailed
    rename_i hc
    have hmem : t.Phase ∈ [InitialBackupFailed, FinalRestoreFailed, StageBackupFailed,
        StageRestoreFailed] := by
      simp only [Bool.or_eq_true, beq_iff_eq] at hc
      simp only [List.mem_cons, List.mem_singleton, List.not_mem_nil, or_false]
      tauto
    refine moved_completed ?_
    have habs := out_of_tree_absent t.Itinerary hI t.Phase hmem
    simp [Task.next, currentIndex_eq_none_of_absent _ _ habs]

theorem init_requeue (k : Consts) (t : Task) : (t.init k).Requeue = FastReQ := by
  unfold Task.init
  simp only [Task.setCondition]
  split_ifs <;> rfl

/-- C11, amended: whenever a phase handler in `Task.Run` advances the task to
a next step other than `Completed` (the tick returns no error and ends in a
phase that is neither the phase dispatched, nor `Completed`, nor an
out-of-tree failure phase), the requeue that `Run` leaves is the one of the
handler: `NoReQ` (0) after `EnsureInitialBackup`, `EnsureStagePodsFromRunning`,
`EnsureStagePodsFromTemplates`, `EnsureStagePodsFromOrphanedPVCs`,
`EnsureStageBackup`, `EnsureStageRestore` and `EnsureFinalRestore`, `PollReQ`
(3 s) after `RestartRestic`, and the fast requeue `FastReQ` (100 ms) after
every other phase. -/
theorem requeue_after_advance (k : Consts) (settings : Settings) (ops : Ops) (t : Task)
    (herr : (t.Run k settings ops).2 = none)
    (hc : (t.Run k settings ops).1.Phase ≠ Completed)
    (hmove : (t.Run k settings ops).1.Phase ≠ (t.init k).Phase)
    (hf : (t.Run k settings ops).1.Phase ∉ failurePhases) :
    (t.Run k settings ops).1.Requeue =
      if (t.init k).Phase ∈ [EnsureInitialBackup, EnsureStagePodsFromRunning,
          EnsureStagePodsFromTemplates, EnsureStagePodsFromOrphanedPVCs, EnsureStageBackup,
          EnsureStageRestore, EnsureFinalRestore] then NoReQ
      else if (t.init k).Phase = RestartRestic then PollReQ
      else FastReQ := by
  have hd := moved_dispatch k settings ops (t.init k) (init_requeue k t) (init_itinerary_mem k t)
  have hrun : t.Run k settings ops =
      (match Task.dispatch k settings ops (t.init k) with
        | (t', some err) => (t', some err)
        | (t', none) =>
          if t'.Phase == Completed then ({ t' with Requeue := NoReQ }, none) else (t', none)) :=
    rfl
  have hexp := hd.requeue
  rw [hrun] at herr hc hmove hf ⊢
  clear hd hrun
  generalize Task.dispatch k settings ops (t.init k) = r at herr hc hmove hf hexp ⊢
  obtain ⟨t', e⟩ := r
  cases e with
  | some err => simp at herr
  | none =>
    simp only at herr hc hmove hf hexp ⊢
    by_cases hcomp : (t'.Phase == Completed) = true
    · simp only [hcomp, if_true] at hc
      exact absurd (eq_of_beq hcomp) hc
    · simp only [hcomp] at hc hmove hf ⊢
      exact hexp trivial hc hmove hf

/-- Instance of C11 (amended): after `EnsureInitialBackup` the requeue is
`NoReQ`. -/
theorem requeue_after_advance_witness :
    (sampleEnsureBackupTask.Run sampleConsts {} quietOps).1.Phase = InitialBackupCreated ∧
    (sampleEnsureBackupTask.Run sampleConsts {} quietOps).1.Requeue = NoReQ :=
  ⟨by decide,
    (requeue_after_advance sampleConsts {} quietOps sampleEnsureBackupTask (by decide)
      (by decide) (by decide) (by decide)).trans (by decide)⟩

/-! ## The `MigrationFailed` phase -/

theorem dispatch_migrationFailed (k : Consts) (settings : Settings) (ops : Ops) (t : Task)
    (h : t.Phase = MigrationFailed) :
    Task.dispatch k settings ops t =
      if settings.Migration.FailureRollback then (t.next, none)
      else ({ t with Phase := Completed }, none) := by
  unfold Task.dispatch
  rw [h]
  simp [MigrationFailed, Created, Started, Prepare, EnsureCloudSecretPropagated, PreBackupHooks,
    EnsureInitialBackup, InitialBackupCreated, AnnotateResources, EnsureStagePodsFromRunning,
    EnsureStagePodsFromTemplates, EnsureStagePodsFromOrphanedPVCs, StagePodsCreated,
    RestartRestic, ResticRestarted, QuiesceApplications, EnsureQuiesced, UnQuiesceApplications,
    EnsureStageBackup, StageBackupCreated, EnsureStageBackupReplicated, PostBackupHooks,
    PreRestoreHooks, EnsureStageRestore, StageRestoreCreated, EnsureStagePodsDeleted,
    EnsureStagePodsTerminated, EnsureAnnotationsDeleted, EnsureLabelsDeleted,
    EnsureInitialBackupReplicated, EnsureFinalRestore, FinalRestoreCreated, PostRestoreHooks,
    Verification, Canceling]

theorem next_from_migrationFailed (t : Task) (hI : t.Itinerary = FailedItinerary)
    (hp : t.Phase = MigrationFailed) :
    t.next.Phase =
      if t.Owner.Status.HasCondition StagePodsCreated then EnsureStagePodsDeleted
      else if t.hasPVs then EnsureAnnotationsDeleted
      else DeleteMigrated := by
  have hcur : Task.currentIndex t.Itinerary.Steps t.Phase = some 0 := by
    rw [hI, hp]; decide
  have hrest : t.Itinerary.Steps.drop (0 + 1) =
      [⟨EnsureStagePodsDeleted, HasStagePods, 0⟩, ⟨EnsureAnnotationsDeleted, HasPVs, 0⟩,
       ⟨DeleteMigrated, 0, 0⟩, ⟨EnsureMigratedDeleted, 0, 0⟩,
       ⟨UnQuiesceApplications, Quiesce, 0⟩, ⟨Completed, 0, 0⟩] := by
    rw [hI]; decide
  rw [next_phase_eq, hcur]
  simp only [Option.map_some', Option.some_bind, hrest, Task.firstEligible, Task.allFlags,
    Task.anyFlags]
  generalize t.Owner.Status.HasCondition StagePodsCreated = sp
  generalize t.hasPVs = pv
  generalize t.quiesce = q
  generalize t.hasVerify = v
  revert sp pv q v
  decide

theorem init_failed_itinerary (k : Consts) (t : Task) (h : t.failed = true) :
    (t.init k).Itinerary = FailedItinerary := by
  rw [init_itinerary_eq]
  simp [h]

/-- C12: when the phase that the tick dispatches is `MigrationFailed`: with
failure rollback disabled in settings, `Task.Run` returns no error, sets the
phase directly to `Completed` and the requeue to `NoReQ`; with rollback
enabled it returns no error and advances with `next`, which for a failed
migration (Failed itinerary) is the first eligible step after
`MigrationFailed`: `EnsureStagePodsDeleted` when stage pods were created,
else `EnsureAnnotationsDeleted` when the plan has PVs, else `DeleteMigrated`. -/
theorem migration_failed_rollback (k : Consts) (settings : Settings) (ops : Ops) (t : Task)
    (hp : (t.init k).Phase = MigrationFailed) :
    (settings.Migration.FailureRollback = false →
      (t.Run k settings ops).2 = none ∧ (t.Run k settings ops).1.Phase = Completed ∧
      (t.Run k settings ops).1.Requeue = NoReQ) ∧
    (settings.Migration.FailureRollback = true →
      (t.Run k settings ops).2 = none ∧
      (t.Run k settings ops).1.Phase = (t.init k).next.Phase ∧
      (t.failed = true →
        (t.Run k settings ops).1.Phase =
          if (t.init k).Owner.Status.HasCondition StagePodsCreated then EnsureStagePodsDeleted
          else if (t.init k).hasPVs then EnsureAnnotationsDeleted
          else DeleteMigrated)) := by
  have hrun : t.Run k settings ops =
      (match Task.dispatch k settings ops (t.init k) with
        | (t', some err) => (t', some err)
        | (t', none) =>
          if t'.Phase == Completed then ({ t' with Requeue := NoReQ }, none) else (t', none)) :=
    rfl
  rw [hrun, dispatch_migrationFailed k settings ops _ hp]
  constructor
  · intro hoff
    simp [hoff]
  · intro hon
    have hphase : ∀ u : Task,
        (if (u.Phase == Completed) = true then
          (({ u with Requeue := NoReQ } : Task), (none : Option String))
         else (u, none)).1.Phase = u.Phase ∧
        (if (u.Phase == Completed) = true then
          (({ u with Requeue := NoReQ } : Task), (none : Option String))
         else (u, none)).2 = none := by
      intro u
      split_ifs <;> simp
    simp only [hon, if_true]
    refine ⟨(hphase _).2, (hphase _).1, ?_⟩
    intro hfailed
    rw [(hphase _).1]
    exact next_from_migrationFailed _ (init_failed_itinerary k t hfailed) hp

/-- Instance of C12: the failed migration with stage pods, on the tick that
switches it to the Failed itinerary, ends at `Completed` without requeue when
rollback is disabled and at `EnsureStagePodsDeleted` when it is enabled. -/
theorem migration_failed_rollback_witness :
    (sampleFailedTask.init sampleConsts).Phase = MigrationFailed ∧
    ((sampleFailedTask.Run sampleConsts {} quietOps).1.Phase = Completed ∧
      (sampleFailedTask.Run sampleConsts {} quietOps).1.Requeue = NoReQ) ∧
    (sampleFailedTask.Run sampleConsts rollbackSettings quietOps).1.Phase
      = EnsureStagePodsDeleted :=
  ⟨by decide,
    ((migration_failed_rollback sampleConsts {} quietOps sampleFailedTask (by decide)).1
      (by decide)).2,
    (((migration_failed_rollback sampleConsts rollbackSettings quietOps sampleFailedTask
      (by decide)).2 (by decide)).2.2 (by decide)).trans (by decide)⟩

/-! ## Backup observation -/

/-- C19: `hasBackupCompleted` dereferences `backup.Status.Progress` in the case
`InProgress` without a nil check.  On a backup in phase `InProgress` whose
progress is nil, and only on such a backup, it panics and reports nothing,
where the claim has `completed = false`: so on the backup
`velero/migration-x7k2p` just started, and the tick at `InitialBackupCreated`
that observes it ends in the panic.  Whenever it returns, it reports
`completed = true` exactly for the phases `Completed`, `Failed`,
`PartiallyFailed` and `FailedValidation` (so `false` for `New` and
`InProgress`); its reasons are non-empty exactly for `Failed`,
`PartiallyFailed` and `FailedValidation`; for `Failed` they are the single
message `Backup: <namespace>/<name> failed.` and for `PartiallyFailed` the
single message `Backup: <namespace>/<name> partially failed.`. -/
theorem hasBackupCompleted_nil_progress (ops : Ops) (t : Task) (backup : Backup) :
    sampleStartedBackup.Status.Phase = "InProgress" ∧
    sampleBackupWaitTask.hasBackupCompleted quietOps sampleStartedBackup = none ∧
    (sampleBackupWaitTask.init sampleConsts).Phase = InitialBackupCreated ∧
    (sampleBackupWaitTask.Run sampleConsts {} startedBackupOps).2 = some Task.nilDereference ∧
    (t.hasBackupCompleted ops backup = none ↔
      backup.Status.Phase = "InProgress" ∧ backup.Status.Progress = none) ∧
    (∀ r, t.hasBackupCompleted ops backup = some r →
      (r.2.1 = true ↔
        backup.Status.Phase ∈ ["Completed", "Failed", "PartiallyFailed", "FailedValidation"]) ∧
      (backup.Status.Phase ∈ ["New", "InProgress"] → r.2.1 = false) ∧
      (r.2.2 ≠ [] ↔
        backup.Status.Phase ∈ ["Failed", "PartiallyFailed", "FailedValidation"]) ∧
      (backup.Status.Phase = "Failed" →
        r.2.2 = ["Backup: " ++ backup.Namespace ++ "/" ++ backup.Name ++ " failed."]) ∧
      (backup.Status.Phase = "PartiallyFailed" →
        r.2.2 =
          ["Backup: " ++ backup.Namespace ++ "/" ++ backup.Name ++ " partially failed."])) := by
  refine ⟨by decide, by decide, by decide, by decide, ?_, ?_⟩
  · simp only [Task.hasBackupCompleted, BackupPhaseNew, BackupPhaseInProgress,
      BackupPhaseCompleted, BackupPhaseFailed, BackupPhasePartiallyFailed,
      BackupPhaseFailedValidation, beq_iff_eq]
    cases hpr : backup.Status.Progress <;> split_ifs with h1 h2 h3 h4 h5 h6 <;> simp_all
  · intro r hr
    simp only [Task.hasBackupCompleted, BackupPhaseNew, BackupPhaseInProgress,
      BackupPhaseCompleted, BackupPhaseFailed, BackupPhasePartiallyFailed,
      BackupPhaseFailedValidation, beq_iff_eq] at hr
    cases hpr : backup.Status.Progress <;> rw [hpr] at hr <;>
      split_ifs at hr with h1 h2 h3 h4 h5 h6 <;> simp_all <;> subst hr <;> simp_all

/-- Instance of C19: on the backup `velero/migration-x7k2p` in phase
`PartiallyFailed`, `hasBackupCompleted` returns, completed with one reason. -/
theorem hasBackupCompleted_nil_progress_witness :
    (sampleBackupWaitTask.hasBackupCompleted quietOps samplePartialBackup).map (fun r => r.2)
      = some (true, ["Backup: velero/migration-x7k2p partially failed."]) := by
  cases h : sampleBackupWaitTask.hasBackupCompleted quietOps samplePartialBackup with
  | none => exact absurd h (by decide)
  | some r =>
    have hr :=
      (hasBackupCompleted_nil_progress quietOps sampleBackupWaitTask samplePartialBackup).2.2.2.2.2
        r h
    have h1 : r.2.1 = true := hr.1.mpr (by decide)
    have h2 := (hr.2.2.2.2 (by decide)).trans
      (show _ = ["Backup: velero/migration-x7k2p partially failed."] by decide)
    simp only [Option.map_some', Option.some.injEq]
    exact Prod.ext h1 h2

/-! ## Reaching `Completed` -/

theorem currentIndex_lt_length (steps : List Step) (phase : String) (i : Nat)
    (h : Task.currentIndex steps phase = some i) : i < steps.length := by
  obtain ⟨s, hs, -⟩ := currentIndex_some_spec steps phase i h
  exact (List.getElem?_eq_some.mp hs).1

theorem currentIndex_of_nodup (steps : List Step) (hnd : (steps.map Step.phase).Nodup)
    (j : Nat) (s : Step) (hj : steps[j]? = some s) :
    Task.currentIndex steps s.phase = some j := by
  induction steps generalizing j with
  | nil => simp at hj
  | cons x rest ih =>
    simp only [List.map_cons, List.nodup_cons] at hnd
    cases j with
    | zero =>
      simp only [List.getElem?_cons_zero, Option.some.injEq] at hj
      simp [Task.currentIndex, hj]
    | succ n =>
      simp only [List.getElem?_cons_succ] at hj
      have hmem : s.phase ∈ rest.map Step.phase :=
        List.mem_map.mpr ⟨s, List.getElem?_mem hj, rfl⟩
      have hx : x.phase ≠ s.phase := fun h => hnd.1 (h ▸ hmem)
      simp [Task.currentIndex, hx, ih hnd.2 n hj]

theorem next_index_step (t : Task) (hnd : (t.Itinerary.Steps.map Step.phase).Nodup) (i : Nat)
    (hcur : Task.currentIndex t.Itinerary.Steps t.Phase = some i) :
    t.next.Phase = Completed ∨
      ∃ j, i < j ∧ Task.currentIndex t.Itinerary.Steps t.next.Phase = some j := by
  unfold Task.next
  rw [hcur]
  simp only
  split
  · rename_i s' hfe
    obtain ⟨hmem, -⟩ := firstEligible_some_spec _ _ _ hfe
    obtain ⟨m, hm⟩ := List.getElem?_of_mem hmem
    rw [List.getElem?_drop] at hm
    exact Or.inr ⟨i + 1 + m, by omega, currentIndex_of_nodup _ hnd _ _ hm⟩
  · exact Or.inl rfl

theorem completed_stays :
    ∀ I ∈ itineraries, ∀ q ∈ I.Steps.map Step.phase, appearsAfter I.Steps Completed q = false := by
  decide

theorem next_completed {t : Task} (hmem : t.Itinerary ∈ itineraries) (hp : t.Phase = Completed) :
    t.next.Phase = Completed := by
  rcases next_phase_cases t with h | h
  · exact h
  · rw [hp] at h
    have := completed_stays _ hmem _ (appearsAfter_mem _ _ _ h).2
    rw [this] at h
    exact absurd h (by simp)

theorem advance_index (t : Task) (hmem : t.Itinerary ∈ itineraries) (n : Nat) :
    (t.advance n).Phase = Completed ∨
      (∃ i, Task.currentIndex t.Itinerary.Steps (t.advance n).Phase = some i ∧ n ≤ i) ∨
      (n = 0 ∧ Task.currentIndex t.Itinerary.Steps (t.advance n).Phase = none) := by
  induction n with
  | zero =>
    cases h : Task.currentIndex t.Itinerary.Steps (t.advance 0).Phase with
    | none => exact Or.inr (Or.inr ⟨rfl, rfl⟩)
    | some i => exact Or.inr (Or.inl ⟨i, rfl, Nat.zero_le i⟩)
  | succ n ih =>
    have hIt : (t.advance n).Itinerary = t.Itinerary := (advance_frame t n).2.2
    have hadv : t.advance (n + 1) = (t.advance n).next := rfl
    rw [hadv]
    rcases ih with h | ⟨i, hi, hle⟩ | ⟨-, hnone⟩
    · exact Or.inl (next_completed (by rw [hIt]; exact hmem) h)
    · rw [← hIt] at hi
      rcases next_index_step (t.advance n)
          (by rw [hIt]; exact itineraries_nodup _ hmem) i hi with h | ⟨j, hj, hcur⟩
      · exact Or.inl h
      · rw [hIt] at hcur
        exact Or.inr (Or.inl ⟨j, hcur, by omega⟩)
    · rw [← hIt] at hnone
      exact Or.inl (by simp [Task.next, hnone])

theorem last_is_completed :
    ∀ I ∈ itineraries, (I.Steps.map Step.phase)[I.Steps.length - 1]? = some Completed ∧
      0 < I.Steps.length - 1 := by
  decide

theorem advance_reaches_completed (t : Task) (hmem : t.Itinerary ∈ itineraries) (n : Nat)
    (hn : t.Itinerary.Steps.length - 1 ≤ n) : (t.advance n).Phase = Completed := by
  obtain ⟨hlast, hpos⟩ := last_is_completed _ hmem
  rcases advance_index t hmem n with h | ⟨i, hi, hle⟩ | ⟨h0, -⟩
  · exact h
  · have hlt := currentIndex_lt_length _ _ _ hi
    have hieq : i = t.Itinerary.Steps.length - 1 := by omega
    obtain ⟨s, hs, hph⟩ := currentIndex_some_spec _ _ _ hi
    rw [hieq] at hs
    rw [List.getElem?_map, hs] at hlast
    simp only [Option.map_some', Option.some.injEq] at hlast
    rw [← hph, hlast]
  · omega

/-! ## Backup failure -/

theorem fail_errors (k : Consts) (t : Task) (nextPhase : String) (reasons : List String) :
    (t.fail k nextPhase reasons).Errors = t.Errors ++ reasons := by
  simp [Task.fail, Task.setCondition, addErrors_errors t reasons]

theorem fail_owner_errors (k : Consts) (t : Task) (nextPhase : String) (reasons : List String) :
    (t.fail k nextPhase reasons).Owner.Status.Errors
      = t.Owner.Status.Errors ++ (t.Errors ++ reasons) := by
  simp [Task.fail, Task.setCondition, addErrors_errors t reasons, (addErrors_frame t reasons).1,
    MigMigrationStatus.SetCondition, MigMigration.AddErrors]
  split_ifs <;> rfl

theorem setCondition_unique (r : MigMigrationStatus) (c x : Condition)
    (hx : x ∈ (r.SetCondition c).Conditions) (ht : x.Type_ = c.Type_) : x = c := by
  unfold MigMigrationStatus.SetCondition at hx
  split_ifs at hx with h
  · simp only [List.mem_map] at hx
    obtain ⟨y, -, hy⟩ := hx
    split_ifs at hy with hy'
    · exact hy.symm
    · rw [← hy] at ht
      exact absurd (by simpa using ht) hy'
  · simp only [List.mem_append, List.mem_singleton] at hx
    rcases hx with hx | hx
    · have : (r.Conditions.any fun c' => c'.Type_ == c.Type_) = true :=
        List.any_eq_true.mpr ⟨x, hx, by simpa using ht⟩
      exact absurd this h
    · exact hx

theorem fail_conditions (k : Consts) (t : Task) (nextPhase : String) (reasons : List String) :
    (t.fail k nextPhase reasons).Owner.Status.Conditions =
      ((t.Owner.AddErrors (t.Errors ++ reasons)).Status.SetCondition
        { Type_ := Failed, Status := True_, Reason := t.Phase, Category := Advisory,
          Message := k.FailedMessage, Durable := true }).Conditions := by
  simp [Task.fail, Task.setCondition, addErrors_errors t reasons, (addErrors_frame t reasons).1,
    (addErrors_frame t reasons).2.1]

theorem init_errors (k : Consts) (t : Task) : (t.init k).Errors = t.Errors := by
  unfold Task.init
  simp only [Task.setCondition]
  split_ifs <;> rfl

theorem dispatch_initialBackupCreated (k : Consts) (settings : Settings) (ops : Ops) (t : Task)
    (h : t.Phase = InitialBackupCreated) :
    Task.dispatch k settings ops t =
      t.stepBackupCreated k ops ops.getInitialBackup InitialBackupFailed := by
  unfold Task.dispatch
  rw [h]
  simp [InitialBackupCreated, Created, Started, Prepare, EnsureCloudSecretPropagated,
    PreBackupHooks, EnsureInitialBackup]

theorem stepBackupCreated_failed (k : Consts) (ops : Ops) (t : Task)
    (getBackup : Op (Option Backup)) (failedPhase : String) (o : MigMigration) (backup : Backup)
    (hget : getBackup t = (o, .ok (some backup)))
    (hfail : backup.Status.Phase = BackupPhaseFailed) :
    ∃ u : Task, ({ t with Owner := o } : Task).hasBackupCompleted ops backup
        = some (u, true, ["Backup: " ++ backup.Namespace ++ "/" ++ backup.Name ++ " failed."]) ∧
      t.stepBackupCreated k ops getBackup failedPhase =
        (u.fail k failedPhase
          ["Backup: " ++ backup.Namespace ++ "/" ++ backup.Name ++ " failed."], none) := by
  unfold Task.stepBackupCreated
  simp only [Task.call, hget]
  simp [Task.hasBackupCompleted, hfail, BackupPhaseFailed, BackupPhaseNew,
    BackupPhaseInProgress, BackupPhaseCompleted]

/-! ## Stage pods -/

theorem volumesContained_iff (p pod : StagePod) :
    p.volumesContained pod = true ↔
      p.Pod.Namespace = pod.Pod.Namespace ∧
      ∀ v ∈ p.Pod.Spec.Volumes, ∃ w ∈ pod.Pod.Spec.Volumes, v.VolumeSource = w.VolumeSource := by
  unfold StagePod.volumesContained
  by_cases h : p.Pod.Namespace = pod.Pod.Namespace
  · simp [h, List.all_eq_true, List.any_eq_true]
  · simp [h]

theorem contains_iff (l : StagePodList) (p : StagePod) :
    StagePodList.contains l p = true ↔
      ∃ q ∈ l, q.Pod.Namespace = p.Pod.Namespace ∧
        ∀ v ∈ p.Pod.Spec.Volumes, ∃ w ∈ q.Pod.Spec.Volumes, v.VolumeSource = w.VolumeSource := by
  unfold StagePodList.contains
  simp only [List.any_eq_true, volumesContained_iff]
  constructor
  · rintro ⟨q, hq, hns, hv⟩
    exact ⟨q, hq, hns.symm, hv⟩
  · rintro ⟨q, hq, hns, hv⟩
    exact ⟨q, hq, hns.symm, hv⟩

theorem merge_one (l : StagePodList) (p : StagePod) :
    StagePodList.merge l [p] = if StagePodList.contains l p then l else l ++ [p] := by
  simp only [StagePodList.merge, List.foldl_cons, List.foldl_nil]
  cases StagePodList.contains l p <;> simp

/-- C15 as stated fails: merging the stage pod that holds the volume `data`
into a list whose only pod, in the same namespace, holds `data` and `logs`
leaves the list unchanged, although no pod of the list has the same set of
volume sources. -/
theorem merge_same_set_counterexample :
    StagePodList.merge [sampleTwoVolumeStagePod] [sampleOneVolumeStagePod]
      = [sampleTwoVolumeStagePod] ∧
    ¬ ∃ q ∈ [sampleTwoVolumeStagePod],
        q.Pod.Namespace = sampleOneVolumeStagePod.Pod.Namespace ∧
        (∀ v ∈ sampleOneVolumeStagePod.Pod.Spec.Volumes, ∃ w ∈ q.Pod.Spec.Volumes,
          v.VolumeSource = w.VolumeSource) ∧
        (∀ w ∈ q.Pod.Spec.Volumes, ∃ v ∈ sampleOneVolumeStagePod.Pod.Spec.Volumes,
          v.VolumeSource = w.VolumeSource) := by
  decide

/-- C15, amended: the stage-pod merge is keyed on namespace and containment of
volume sources: for every stage-pod list `l` and stage pod `p`,
`StagePodList.merge(p)` leaves `l` unchanged if and only if `l` already holds a
pod with the same namespace whose volume sources include every volume source
of `p`, and otherwise appends `p` at the end. -/
theorem merge_keyed_on_containment (l : StagePodList) (p : StagePod) :
    (StagePodList.merge l [p] = l ↔
      ∃ q ∈ l, q.Pod.Namespace = p.Pod.Namespace ∧
        ∀ v ∈ p.Pod.Spec.Volumes, ∃ w ∈ q.Pod.Spec.Volumes,
          v.VolumeSource = w.VolumeSource) ∧
    (StagePodList.merge l [p] ≠ l → StagePodList.merge l [p] = l ++ [p]) := by
  rw [merge_one, ← contains_iff]
  cases h : StagePodList.contains l p <;> simp

/-- Instance of C15 (amended): the list holding `data` and `logs` is left
unchanged by the pod holding `data`; the list holding `data` gets the pod
holding `data` and `logs` appended. -/
theorem merge_keyed_on_containment_witness :
    StagePodList.merge [sampleTwoVolumeStagePod] [sampleOneVolumeStagePod]
      = [sampleTwoVolumeStagePod] ∧
    StagePodList.merge [sampleOneVolumeStagePod] [sampleTwoVolumeStagePod]
      = [sampleOneVolumeStagePod] ++ [sampleTwoVolumeStagePod] :=
  ⟨(merge_keyed_on_containment [sampleTwoVolumeStagePod] sampleOneVolumeStagePod).1.mpr
      (by decide),
    (merge_keyed_on_containment [sampleOneVolumeStagePod] sampleTwoVolumeStagePod).2
      (by decide)⟩

theorem merge_cons (l : StagePodList) (x : StagePod) (xs : List StagePod) :
    StagePodList.merge l (x :: xs) = StagePodList.merge (StagePodList.merge l [x]) xs := by
  simp [StagePodList.merge]

theorem buildStagePods_from (labels : List (String × String)) (pvcMapping : PvcMapping)
    (list : List Pod) (image : String) (limits : ResourceLimitMapping) (acc : StagePodList) :
    list.foldl (fun stagePods pod =>
      let volumes := stageVolumes pvcMapping pod
      if volumes.length == 0 then stagePods
      else
        let podKey : ObjectKey := { Name := pod.Name, Namespace := pod.Namespace }
        StagePodList.merge stagePods
          [buildStagePodFromPod podKey labels pod volumes image limits]) acc
      = StagePodList.merge acc (stageCandidates labels pvcMapping list image limits) := by
  induction list generalizing acc with
  | nil => simp [stageCandidates, StagePodList.merge]
  | cons pod rest ih =>
    simp only [List.foldl_cons]
    rw [ih]
    by_cases h : ((stageVolumes pvcMapping pod).length == 0) = true
    · simp only [stageCandidates, List.filterMap_cons, h, if_true]
    · simp only [stageCandidates, List.filterMap_cons, h]
      rw [merge_cons]
      rfl

theorem buildStagePods_eq_merge (labels : List (String × String)) (pvcMapping : PvcMapping)
    (list : List Pod) (image : String) (limits : ResourceLimitMapping) :
    BuildStagePods labels pvcMapping list image limits
      = StagePodList.merge [] (stageCandidates labels pvcMapping list image limits) :=
  buildStagePods_from labels pvcMapping list image limits []

theorem merge_pairwise (acc : StagePodList) (xs : List StagePod)
    (h : acc.Pairwise (fun a b => b.volumesContained a = false)) :
    (StagePodList.merge acc xs).Pairwise (fun a b => b.volumesContained a = false) := by
  induction xs generalizing acc with
  | nil => simpa [StagePodList.merge] using h
  | cons x rest ih =>
    rw [merge_cons]
    apply ih
    rw [merge_one]
    cases hc : StagePodList.contains acc x with
    | true => simpa using h
    | false =>
      simp only [Bool.false_eq_true, if_false]
      rw [List.pairwise_append]
      refine ⟨h, by simp, ?_⟩
      intro a ha b hb
      simp only [List.mem_singleton] at hb
      subst hb
      simp only [StagePodList.contains, List.any_eq_false] at hc
      simpa using hc a ha

theorem merge_extends (acc : StagePodList) (xs : List StagePod) :
    ∃ ys, StagePodList.merge acc xs = acc ++ ys ∧ (∀ y ∈ ys, y ∈ xs) ∧
      StagePodList.merge acc ys = acc ++ ys := by
  induction xs generalizing acc with
  | nil => exact ⟨[], by simp [StagePodList.merge], by simp, by simp [StagePodList.merge]⟩
  | cons x rest ih =>
    rw [merge_cons, merge_one]
    cases hc : StagePodList.contains acc x with
    | true =>
      obtain ⟨ys, h1, h2, h3⟩ := ih acc
      exact ⟨ys, by simpa using h1, fun y hy => List.mem_cons_of_mem _ (h2 y hy), h3⟩
    | false =>
      obtain ⟨ys, h1, h2, h3⟩ := ih (acc ++ [x])
      refine ⟨x :: ys, by simpa using h1, ?_, ?_⟩
      · intro y hy
        rcases List.mem_cons.mp hy with h | h
        · simp [h]
        · exact List.mem_cons_of_mem _ (h2 y h)
      · rw [merge_cons, merge_one, hc]
        simpa using h3

theorem contains_append (l l' : StagePodList) (p : StagePod)
    (h : StagePodList.contains l p = true) : StagePodList.contains (l ++ l') p = true := by
  simp only [StagePodList.contains, List.any_append, Bool.or_eq_true] at h ⊢
  exact Or.inl h

theorem volumesContained_self (p : StagePod) : p.volumesContained p = true := by
  rw [volumesContained_iff]
  exact ⟨rfl, fun v hv => ⟨v, hv, rfl⟩⟩

theorem merge_covers (acc : StagePodList) (xs : List StagePod) :
    (∀ x, StagePodList.contains acc x = true →
      StagePodList.contains (StagePodList.merge acc xs) x = true) ∧
    (∀ x ∈ xs, StagePodList.contains (StagePodList.merge acc xs) x = true) := by
  have hmono : ∀ (acc : StagePodList) (xs : List StagePod) (x : StagePod),
      StagePodList.contains acc x = true →
      StagePodList.contains (StagePodList.merge acc xs) x = true := by
    intro acc xs x h
    obtain ⟨ys, h1, -, -⟩ := merge_extends acc xs
    rw [h1]
    exact contains_append _ _ _ h
  refine ⟨hmono acc xs, ?_⟩
  induction xs generalizing acc with
  | nil => simp
  | cons x rest ih =>
    intro y hy
    rw [merge_cons]
    rcases List.mem_cons.mp hy with h | h
    · subst h
      apply hmono
      rw [merge_one]
      cases hc : StagePodList.contains acc y with
      | true => simpa using hc
      | false =>
        simp only [Bool.false_eq_true, if_false, StagePodList.contains, List.any_append,
          List.any_cons, List.any_nil, Bool.or_false, Bool.or_eq_true]
        exact Or.inr (volumesContained_self y)
    · exact ih _ y h

theorem build_namespace_volumes (ref : ObjectKey) (labels : List (String × String)) (pod : Pod)
    (vols : List Volume) (image : String) (limits : ResourceLimitMapping) :
    (buildStagePodFromPod ref labels pod vols image limits).Pod.Namespace = ref.Namespace ∧
    (buildStagePodFromPod ref labels pod vols image limits).Pod.Spec.Volumes = vols ∧
    (buildStagePodFromPod ref labels pod vols image limits).Pod.Name = "" :=
  ⟨rfl, rfl, rfl⟩

theorem mem_stageCandidates (labels : List (String × String)) (pvcMapping : PvcMapping)
    (list : List Pod) (image : String) (limits : ResourceLimitMapping) (s : StagePod) :
    s ∈ stageCandidates labels pvcMapping list image limits ↔
      ∃ pod ∈ list, stageVolumes pvcMapping pod ≠ [] ∧
        s = buildStagePodFromPod { Name := pod.Name, Namespace := pod.Namespace } labels pod
          (stageVolumes pvcMapping pod) image limits := by
  simp only [stageCandidates, List.mem_filterMap]
  constructor
  · rintro ⟨pod, hpod, h⟩
    split_ifs at h with hl
    exact ⟨pod, hpod, by simpa using hl, (Option.some.inj h).symm⟩
  · rintro ⟨pod, hpod, hne, rfl⟩
    refine ⟨pod, hpod, ?_⟩
    rw [if_neg (by simpa using hne)]

/-- C14: stage pods are told apart by namespace and volume sources, never by
pod name: the result of `BuildStagePods` never holds, at two places, two stage
pods with the same namespace and the same set of volume sources; every source
pod that has migrated filesystem-copy claim volumes is stood for by a stage
pod of the result, in its namespace, that holds all its volume sources; so
two source pods in the same namespace whose such volumes have the same set of
volume sources get one common stage pod, whatever their names. -/
theorem stage_pods_coalesce (labels : List (String × String)) (pvcMapping : PvcMapping)
    (list : List Pod) (image : String) (limits : ResourceLimitMapping) :
    (∀ (i j : Nat) (a b : StagePod), i ≠ j →
      (BuildStagePods labels pvcMapping list image limits)[i]? = some a →
      (BuildStagePods labels pvcMapping list image limits)[j]? = some b →
      ¬ (a.Pod.Namespace = b.Pod.Namespace ∧
          sourcesIncluded a.Pod.Spec.Volumes b.Pod.Spec.Volumes ∧
          sourcesIncluded b.Pod.Spec.Volumes a.Pod.Spec.Volumes)) ∧
    (∀ pod ∈ list, stageVolumes pvcMapping pod ≠ [] →
      ∃ s ∈ BuildStagePods labels pvcMapping list image limits,
        s.Pod.Namespace = pod.Namespace ∧
        sourcesIncluded (stageVolumes pvcMapping pod) s.Pod.Spec.Volumes) ∧
    (∀ p1 ∈ list, ∀ p2 ∈ list, p1.Namespace = p2.Namespace →
      stageVolumes pvcMapping p1 ≠ [] →
      sourcesIncluded (stageVolumes pvcMapping p1) (stageVolumes pvcMapping p2) →
      sourcesIncluded (stageVolumes pvcMapping p2) (stageVolumes pvcMapping p1) →
      ∃ s ∈ BuildStagePods labels pvcMapping list image limits,
        s.Pod.Namespace = p1.Namespace ∧ s.Pod.Namespace = p2.Namespace ∧
        sourcesIncluded (stageVolumes pvcMapping p1) s.Pod.Spec.Volumes ∧
        sourcesIncluded (stageVolumes pvcMapping p2) s.Pod.Spec.Volumes) := by
  have hpw := merge_pairwise [] (stageCandidates labels pvcMapping list image limits)
    List.Pairwise.nil
  rw [← buildStagePods_eq_merge] at hpw
  rw [List.pairwise_iff_getElem] at hpw
  have hlt : ∀ (i j : Nat) (a b : StagePod), i < j →
      (BuildStagePods labels pvcMapping list image limits)[i]? = some a →
      (BuildStagePods labels pvcMapping list image limits)[j]? = some b →
      b.volumesContained a = false := by
    intro i j a b hij ha hb
    obtain ⟨hi, hai⟩ := List.getElem?_eq_some.mp ha
    obtain ⟨hj, hbj⟩ := List.getElem?_eq_some.mp hb
    have := hpw i j hi hj hij
    rw [hai, hbj] at this
    exact this
  have hcover : ∀ pod ∈ list, stageVolumes pvcMapping pod ≠ [] →
      ∃ s ∈ BuildStagePods labels pvcMapping list image limits,
        s.Pod.Namespace = pod.Namespace ∧
        sourcesIncluded (stageVolumes pvcMapping pod) s.Pod.Spec.Volumes := by
    intro pod hpod hne
    have hmem := (mem_stageCandidates labels pvcMapping list image limits _).mpr
      ⟨pod, hpod, hne, rfl⟩
    have hc := (merge_covers [] (stageCandidates labels pvcMapping list image limits)).2 _ hmem
    rw [← buildStagePods_eq_merge, contains_iff] at hc
    obtain ⟨q, hq, hns, hv⟩ := hc
    exact ⟨q, hq, hns, hv⟩
  refine ⟨?_, hcover, ?_⟩
  · intro i j a b hij ha hb ⟨hns, hab, hba⟩
    rcases Nat.lt_or_gt_of_ne hij with h | h
    · have := hlt i j a b h ha hb
      rw [(volumesContained_iff b a).mpr ⟨hns.symm, hba⟩] at this
      exact Bool.noConfusion this
    · have := hlt j i b a h hb ha
      rw [(volumesContained_iff a b).mpr ⟨hns, hab⟩] at this
      exact Bool.noConfusion this
  · intro p1 hp1 p2 hp2 hns hne h12 h21
    obtain ⟨s, hs, hsn, hsv⟩ := hcover p1 hp1 hne
    refine ⟨s, hs, hsn, hsn.trans hns, hsv, ?_⟩
    intro v hv
    obtain ⟨w, hw, hvw⟩ := h21 v hv
    obtain ⟨u, hu, hwu⟩ := hsv w hw
    exact ⟨u, hu, hvw.trans hwu⟩

/-- Instance of C14: the pods `app/db` and `app/web-7f9c` mount the same claim
`data`; `BuildStagePods` yields one stage pod for the two. -/
theorem stage_pods_coalesce_witness :
    (BuildStagePods sampleLabels samplePvcMapping [sampleDbPod, sampleWebPod] "stage:latest"
      sampleNoLimits).length = 1 ∧
    ∃ s ∈ BuildStagePods sampleLabels samplePvcMapping [sampleDbPod, sampleWebPod]
        "stage:latest" sampleNoLimits,
      s.Pod.Namespace = sampleDbPod.Namespace ∧ s.Pod.Namespace = sampleWebPod.Namespace ∧
      sourcesIncluded (stageVolumes samplePvcMapping sampleDbPod) s.Pod.Spec.Volumes ∧
      sourcesIncluded (stageVolumes samplePvcMapping sampleWebPod) s.Pod.Spec.Volumes :=
  ⟨by decide,
    (stage_pods_coalesce sampleLabels samplePvcMapping [sampleDbPod, sampleWebPod]
      "stage:latest" sampleNoLimits).2.2 sampleDbPod (by decide) sampleWebPod (by decide)
      (by decide) (by decide)
      (fun v hv => ⟨v, hv, rfl⟩) (fun v hv => ⟨v, hv, rfl⟩)⟩

theorem stageContainers_idem (vols : List Volume) (image : String) (m c : Quantity) (i : Nat)
    (cs : List Container) :
    stageContainers vols image m c i (stageContainers vols image m c i cs)
      = stageContainers vols image m c i cs := by
  induction cs generalizing i with
  | nil => rfl
  | cons x rest ih =>
    simp only [stageContainers, List.filter_filter, Bool.and_self, ih]

theorem stageVolumes_build (labels : List (String × String)) (pvcMapping : PvcMapping)
    (pod : Pod) (image : String) (limits : ResourceLimitMapping) :
    stageVolumes pvcMapping
        (buildStagePodFromPod { Name := pod.Name, Namespace := pod.Namespace } labels pod
          (stageVolumes pvcMapping pod) image limits).Pod
      = stageVolumes pvcMapping pod := by
  simp only [stageVolumes, buildStagePodFromPod, List.filter_filter, Bool.and_self]

theorem truncateName_stage : truncateName ("stage-" ++ "") ++ goBytes "-" = goBytes "stage-" := by
  decide

theorem build_restaged (labels : List (String × String)) (pvcMapping : PvcMapping)
    (pod : Pod) (image : String) (limits : ResourceLimitMapping) :
    buildStagePodFromPod
        { Name := (buildStagePodFromPod { Name := pod.Name, Namespace := pod.Namespace } labels
                    pod (stageVolumes pvcMapping pod) image limits).Pod.Name,
          Namespace := (buildStagePodFromPod { Name := pod.Name, Namespace := pod.Namespace }
                    labels pod (stageVolumes pvcMapping pod) image limits).Pod.Namespace }
        labels
        (buildStagePodFromPod { Name := pod.Name, Namespace := pod.Namespace } labels pod
          (stageVolumes pvcMapping pod) image limits).Pod
        (stageVolumes pvcMapping
          (buildStagePodFromPod { Name := pod.Name, Namespace := pod.Namespace } labels pod
            (stageVolumes pvcMapping pod) image limits).Pod)
        image limits
      = restaged (buildStagePodFromPod { Name := pod.Name, Namespace := pod.Namespace } labels
          pod (stageVolumes pvcMapping pod) image limits) := by
  rw [stageVolumes_build]
  simp only [buildStagePodFromPod, restaged, stageContainers_idem, truncateName_stage]

theorem stageCandidates_restaged (labels : List (String × String)) (pvcMapping : PvcMapping)
    (image : String) (limits : ResourceLimitMapping) (R : List StagePod)
    (hR : ∀ s ∈ R, ∃ pod : Pod, stageVolumes pvcMapping pod ≠ [] ∧
      s = buildStagePodFromPod { Name := pod.Name, Namespace := pod.Namespace } labels pod
        (stageVolumes pvcMapping pod) image limits) :
    stageCandidates labels pvcMapping (R.map (fun sp => sp.Pod)) image limits
      = R.map restaged := by
  induction R with
  | nil => rfl
  | cons s rest ih =>
    obtain ⟨pod, hne, rfl⟩ := hR _ (List.mem_cons_self _ _)
    have ih' := ih (fun s hs => hR s (List.mem_cons_of_mem _ hs))
    simp only [stageCandidates, List.map_cons, List.filterMap_cons] at ih' ⊢
    have hlen : ((stageVolumes pvcMapping
        (buildStagePodFromPod { Name := pod.Name, Namespace := pod.Namespace } labels pod
          (stageVolumes pvcMapping pod) image limits).Pod).length == 0) = false := by
      rw [stageVolumes_build]
      cases h : stageVolumes pvcMapping pod with
      | nil => exact absurd h hne
      | cons a l => rfl
    rw [hlen]
    simp only [Bool.false_eq_true, if_false]
    rw [build_restaged, ih']

theorem volumesContained_restaged (a b : StagePod) :
    (restaged b).volumesContained (restaged a) = b.volumesContained a := rfl

theorem merge_map_restaged (acc xs : List StagePod) :
    StagePodList.merge (acc.map restaged) (xs.map restaged)
      = (StagePodList.merge acc xs).map restaged := by
  induction xs generalizing acc with
  | nil => simp [StagePodList.merge]
  | cons x rest ih =>
    rw [List.map_cons, merge_cons (acc.map restaged) (restaged x) (rest.map restaged),
      merge_cons acc x rest, merge_one, merge_one]
    have hc : StagePodList.contains (acc.map restaged) (restaged x)
        = StagePodList.contains acc x := by
      simp only [StagePodList.contains, List.any_map]
      rfl
    rw [hc]
    cases StagePodList.contains acc x with
    | true => simpa using ih acc
    | false => simpa using ih (acc ++ [x])

theorem buildStagePods_mem (labels : List (String × String)) (pvcMapping : PvcMapping)
    (list : List Pod) (image : String) (limits : ResourceLimitMapping) :
    ∀ s ∈ BuildStagePods labels pvcMapping list image limits,
      ∃ pod : Pod, stageVolumes pvcMapping pod ≠ [] ∧
        s = buildStagePodFromPod { Name := pod.Name, Namespace := pod.Namespace } labels pod
          (stageVolumes pvcMapping pod) image limits := by
  intro s hs
  rw [buildStagePods_eq_merge] at hs
  obtain ⟨ys, h1, h2, -⟩ := merge_extends [] (stageCandidates labels pvcMapping list image limits)
  rw [h1, List.nil_append] at hs
  obtain ⟨pod, -, hne, heq⟩ := (mem_stageCandidates _ _ _ _ _ _).mp (h2 s hs)
  exact ⟨pod, hne, heq⟩

/-- C13 as stated fails: from the pod `app/db`, `BuildStagePods` builds one
stage pod with generated-name prefix `stage-db-`; applied to that stage pod it
builds one with prefix `stage-`, so the second list is not equal to the
first. -/
theorem build_stage_pods_idempotent_counterexample :
    BuildStagePods sampleLabels samplePvcMapping
        ((BuildStagePods sampleLabels samplePvcMapping [sampleDbPod] "stage:latest"
          sampleNoLimits).map (fun sp => sp.Pod)) "stage:latest" sampleNoLimits
      ≠ BuildStagePods sampleLabels samplePvcMapping [sampleDbPod] "stage:latest"
          sampleNoLimits ∧
    (BuildStagePods sampleLabels samplePvcMapping [sampleDbPod] "stage:latest"
        sampleNoLimits).map (fun sp => sp.Pod.GenerateName) = [goBytes "stage-db-"] ∧
    (BuildStagePods sampleLabels samplePvcMapping
        ((BuildStagePods sampleLabels samplePvcMapping [sampleDbPod] "stage:latest"
          sampleNoLimits).map (fun sp => sp.Pod)) "stage:latest" sampleNoLimits).map
        (fun sp => sp.Pod.GenerateName) = [goBytes "stage-"] := by
  have h1 : (BuildStagePods sampleLabels samplePvcMapping [sampleDbPod] "stage:latest"
      sampleNoLimits).map (fun sp => sp.Pod.GenerateName) = [goBytes "stage-db-"] := by decide
  have h2 : (BuildStagePods sampleLabels samplePvcMapping
      ((BuildStagePods sampleLabels samplePvcMapping [sampleDbPod] "stage:latest"
        sampleNoLimits).map (fun sp => sp.Pod)) "stage:latest" sampleNoLimits).map
      (fun sp => sp.Pod.GenerateName) = [goBytes "stage-"] := by decide
  refine ⟨?_, h1, h2⟩
  intro h
  rw [h, h1] at h2
  exact absurd h2 (by decide)

/-- C13, amended: for every label set, PVC mapping, image, resource-limit
mapping and pod list `p`, applying `BuildStagePods` to the pods of
`BuildStagePods(p)` returns the stage pods of `BuildStagePods(p)`, as many and
in the same order, each equal to the one of the first pass in namespace,
labels, volumes, containers and every other field except the generated-name
prefix, which is `stage-` (the stage pod has no name to derive it from). -/
theorem build_stage_pods_idempotent_up_to_name (labels : List (String × String))
    (pvcMapping : PvcMapping) (list : List Pod) (image : String)
    (limits : ResourceLimitMapping) :
    BuildStagePods labels pvcMapping
        ((BuildStagePods labels pvcMapping list image limits).map (fun sp => sp.Pod)) image
        limits
      = (BuildStagePods labels pvcMapping list image limits).map
          (fun sp => { Pod := { sp.Pod with GenerateName := goBytes "stage-" } }) := by
  have hR := buildStagePods_mem labels pvcMapping list image limits
  rw [buildStagePods_eq_merge labels pvcMapping
    ((BuildStagePods labels pvcMapping list image limits).map (fun sp => sp.Pod)),
    stageCandidates_restaged labels pvcMapping image limits _ hR]
  have hmap := merge_map_restaged [] (BuildStagePods labels pvcMapping list image limits)
  simp only [List.map_nil] at hmap
  rw [hmap]
  obtain ⟨ys, h1, -, h3⟩ :=
    merge_extends [] (stageCandidates labels pvcMapping list image limits)
  rw [List.nil_append] at h1 h3
  rw [buildStagePods_eq_merge labels pvcMapping list, h1, h3]
  rfl

/-! ## Resource limits of stage pods -/

theorem foldl_max_spec (d : Quantity) (ms : List Quantity) :
    d ≤ ms.foldl max d ∧ (∀ x ∈ ms, x ≤ ms.foldl max d) ∧
    (ms.foldl max d = d ∨ ms.foldl max d ∈ ms) := by
  induction ms generalizing d with
  | nil => simp
  | cons m rest ih =>
    obtain ⟨h1, h2, h3⟩ := ih (max d m)
    simp only [List.foldl_cons, List.mem_cons]
    refine ⟨le_trans (le_max_left d m) h1, ?_, ?_⟩
    · intro x hx
      rcases hx with hx | hx
      · rw [hx]; exact le_trans (le_max_right d m) h1
      · exact h2 x hx
    · rcases h3 with h3 | h3
      · rw [h3]
        rcases max_choice d m with h | h
        · exact Or.inl h
        · exact Or.inr (Or.inl h)
      · exact Or.inr (Or.inr h3)

theorem ite_gt_eq_max (a b : Quantity) : (if b > a then b else a) = max a b := by
  rw [max_def]
  split_ifs with h1 h2 h2
  · rfl
  · exact absurd (le_of_lt h1) h2
  · exact le_antisymm h2 (not_lt.mp h1)
  · rfl

theorem liftByLimit_foldl (limits : List LimitRangeItem) (vals : Quantity × Quantity) :
    limits.foldl liftByLimit vals =
      ((limits.filterMap (fun limit =>
          if limit.Type_ = LimitTypeContainer ∨ limit.Type_ = LimitTypePod then
            limit.Min.lookup ResourceMemory else none)).foldl max vals.1,
       (limits.filterMap (fun limit =>
          if limit.Type_ = LimitTypeContainer ∨ limit.Type_ = LimitTypePod then
            limit.Min.lookup ResourceCPU else none)).foldl max vals.2) := by
  induction limits generalizing vals with
  | nil => rfl
  | cons limit rest ih =>
    simp only [List.foldl_cons, List.filterMap_cons]
    rw [ih]
    by_cases hty : limit.Type_ = LimitTypeContainer ∨ limit.Type_ = LimitTypePod
    · have hb : (limit.Type_ == LimitTypeContainer || limit.Type_ == LimitTypePod) = true := by
        simpa using hty
      simp only [liftByLimit, hb, if_true, hty]
      cases hm : limit.Min.lookup ResourceMemory <;> cases hc : limit.Min.lookup ResourceCPU <;>
        simp only [ite_gt_eq_max, List.foldl_cons]
    · have hb : (limit.Type_ == LimitTypeContainer || limit.Type_ == LimitTypePod) = false := by
        simpa using hty
      simp [liftByLimit, hb, hty]

theorem limitRanges_foldl (limitRanges : List LimitRange) (vals : Quantity × Quantity) :
    limitRanges.foldl (fun vals limitRange => limitRange.Spec.Limits.foldl liftByLimit vals) vals
      = ((applicableMins ResourceMemory limitRanges).foldl max vals.1,
         (applicableMins ResourceCPU limitRanges).foldl max vals.2) := by
  induction limitRanges generalizing vals with
  | nil => rfl
  | cons lr rest ih =>
    simp only [List.foldl_cons]
    rw [ih, liftByLimit_foldl]
    simp only [applicableMins, List.flatMap_cons, List.filterMap_append, List.foldl_append]

theorem buildResourceLimitMappingFrom_spec (list : String → Except String (List LimitRange))
    (namespaces : List String) (m0 m : ResourceLimitMapping)
    (h : buildResourceLimitMappingFrom list namespaces m0 = .ok m) :
    (∀ ns ∈ namespaces, ∃ lrs, list ns = .ok lrs ∧
      m ns = some (fun key =>
        if key = cpu then some ((applicableMins ResourceCPU lrs).foldl max defaultCPUQuantity)
        else if key = memory then
          some ((applicableMins ResourceMemory lrs).foldl max defaultMemoryQuantity)
        else none)) ∧
    (∀ ns, ns ∉ namespaces → m ns = m0 ns) := by
  induction namespaces generalizing m0 with
  | nil =>
    simp only [buildResourceLimitMappingFrom, Except.ok.injEq] at h
    subst h
    simp
  | cons n rest ih =>
    unfold buildResourceLimitMappingFrom at h
    split at h
    · exact absurd h (by simp)
    · rename_i lrs hl
      obtain ⟨h1, h2⟩ := ih _ h
      constructor
      · intro ns hns
        by_cases hr : ns ∈ rest
        · exact h1 ns hr
        · have hn : ns = n := by
            rcases List.mem_cons.mp hns with h' | h'
            · exact h'
            · exact absurd h' hr
          subst hn
          refine ⟨lrs, hl, ?_⟩
          rw [h2 ns hr, limitRanges_foldl]
          simp
      · intro ns hns
        simp only [List.mem_cons, not_or] at hns
        rw [h2 ns hns.2]
        simp [hns.1]

/-- C16: for every list of namespaces and every listing of LimitRanges, when
`buildResourceLimitMapping` succeeds, the memory and CPU values that it
records for a namespace, and that `parseResourceLimitMapping` returns for it,
are the defaults 128Mi and 100m lifted to the namespace's minimum: each is at
least the default, at least every `Min` value of its resource among the limits
of type `Container` or `Pod` (limits of other types are not looked at), and is
the default or one of these `Min` values; and `parseResourceLimitMapping`
returns the defaults for a namespace absent from the mapping. -/
theorem resource_limits_lifted_to_minimum (namespaces : List String)
    (list : String → Except String (List LimitRange)) (m : ResourceLimitMapping)
    (h : buildResourceLimitMapping namespaces list = .ok m) :
    (∀ ns ∈ namespaces, ∃ lrs, list ns = .ok lrs ∧
      (parseResourceLimitMapping ns m).1
        = (applicableMins ResourceMemory lrs).foldl max defaultMemoryQuantity ∧
      (parseResourceLimitMapping ns m).2
        = (applicableMins ResourceCPU lrs).foldl max defaultCPUQuantity ∧
      defaultMemoryQuantity ≤ (parseResourceLimitMapping ns m).1 ∧
      (∀ x ∈ applicableMins ResourceMemory lrs, x ≤ (parseResourceLimitMapping ns m).1) ∧
      ((parseResourceLimitMapping ns m).1 = defaultMemoryQuantity ∨
        (parseResourceLimitMapping ns m).1 ∈ applicableMins ResourceMemory lrs) ∧
      defaultCPUQuantity ≤ (parseResourceLimitMapping ns m).2 ∧
      (∀ x ∈ applicableMins ResourceCPU lrs, x ≤ (parseResourceLimitMapping ns m).2) ∧
      ((parseResourceLimitMapping ns m).2 = defaultCPUQuantity ∨
        (parseResourceLimitMapping ns m).2 ∈ applicableMins ResourceCPU lrs)) ∧
    (∀ (ns : String) (m' : ResourceLimitMapping), m' ns = none →
      parseResourceLimitMapping ns m' = (defaultMemoryQuantity, defaultCPUQuantity)) ∧
    defaultMemoryQuantity = 134217728 ∧ defaultCPUQuantity = 1 / 10 := by
  refine ⟨?_, ?_, by norm_num [defaultMemoryQuantity], by norm_num [defaultCPUQuantity]⟩
  · intro ns hns
    obtain ⟨lrs, hl, hm⟩ := (buildResourceLimitMappingFrom_spec list namespaces _ m h).1 ns hns
    have hmem : (parseResourceLimitMapping ns m).1
        = (applicableMins ResourceMemory lrs).foldl max defaultMemoryQuantity := by
      simp [parseResourceLimitMapping, hm, memory, cpu]
    have hcpu : (parseResourceLimitMapping ns m).2
        = (applicableMins ResourceCPU lrs).foldl max defaultCPUQuantity := by
      simp [parseResourceLimitMapping, hm, cpu]
    obtain ⟨a1, a2, a3⟩ := foldl_max_spec defaultMemoryQuantity (applicableMins ResourceMemory lrs)
    obtain ⟨b1, b2, b3⟩ := foldl_max_spec defaultCPUQuantity (applicableMins ResourceCPU lrs)
    refine ⟨lrs, hl, hmem, hcpu, ?_, ?_, ?_, ?_, ?_, ?_⟩
    · rw [hmem]; exact a1
    · rw [hmem]; exact a2
    · rw [hmem]; exact a3
    · rw [hcpu]; exact b1
    · rw [hcpu]; exact b2
    · rw [hcpu]; exact b3
  · intro ns m' hnone
    simp [parseResourceLimitMapping, hnone]

/-- Instance of C16: in namespace `app`, whose container minimum is 256Mi of
memory and 50m of CPU, the memory is lifted to 256Mi and the CPU stays at the
default 100m. -/
theorem resource_limits_lifted_to_minimum_witness :
    ∃ m, buildResourceLimitMapping ["app"] sampleLimitListing = .ok m ∧
      (parseResourceLimitMapping "app" m).1 = 256 * 1024 * 1024 ∧
      (parseResourceLimitMapping "app" m).2 = 1 / 10 ∧
      defaultMemoryQuantity ≤ (parseResourceLimitMapping "app" m).1 :=
  ⟨_, rfl, by
    simp [parseResourceLimitMapping, memory, cpu, limitRanges_foldl, applicableMins,
      sampleLimitListing, sampleLimitRanges, LimitTypeContainer, LimitTypePod, ResourceMemory,
      ResourceCPU, defaultMemoryQuantity, List.lookup, liftByLimit]
    norm_num, by
    simp [parseResourceLimitMapping, memory, cpu, limitRanges_foldl, applicableMins,
      sampleLimitListing, sampleLimitRanges, LimitTypeContainer, LimitTypePod, ResourceMemory,
      ResourceCPU, defaultCPUQuantity, List.lookup, liftByLimit]
    norm_num, by
    obtain ⟨lrs, -, -, -, h, -⟩ :=
      (resource_limits_lifted_to_minimum ["app"] sampleLimitListing _ rfl).1 "app" (by simp)
    exact h⟩

/-! ## Compat client -/

theorem supportedVersion_table (c : Client) (obj : Object) :
    c.supportedVersion obj =
      match fallbackEntry obj.Kind with
      | some (_, cutoff, fallback) => if c.Minor < cutoff then emptyObject fallback else obj
      | none => obj := by
  unfold Client.supportedVersion fallbackEntry fallbackTable
  cases hk : obj.Kind <;> by_cases h16 : c.Minor < 16 <;> by_cases h8 : c.Minor < 8 <;>
    simp [appsFallback, batchFallback, h16, h8]

theorem fallbackEntry_of_mem : ∀ e ∈ fallbackTable, fallbackEntry e.1 = some e := by
  decide

theorem fallback_ne_of_mem : ∀ e ∈ fallbackTable, e.2.2 ≠ e.1 := by
  decide

theorem fallbackEntry_some (kind : ObjectType) (e : ObjectType × Int × ObjectType)
    (h : fallbackEntry kind = some e) : e ∈ fallbackTable ∧ e.1 = kind := by
  unfold fallbackEntry at h
  refine ⟨List.mem_of_find?_eq_some h, ?_⟩
  have := List.find?_some h
  simpa using this

theorem fallbackEntry_none (kind : ObjectType)
    (h : ∀ cutoff fallback, (kind, cutoff, fallback) ∉ fallbackTable) :
    fallbackEntry kind = none := by
  cases hfe : fallbackEntry kind with
  | none => rfl
  | some e =>
    obtain ⟨hmem, hk⟩ := fallbackEntry_some kind e hfe
    obtain ⟨k, cutoff, fallback⟩ := e
    simp only at hk
    subst hk
    exact absurd hmem (h cutoff fallback)

theorem supportedVersion_below (c : Client) (obj : Object) (cutoff : Int)
    (fallback : ObjectType) (hmem : (obj.Kind, cutoff, fallback) ∈ fallbackTable)
    (hlt : c.Minor < cutoff) : c.supportedVersion obj = emptyObject fallback := by
  rw [supportedVersion_table, fallbackEntry_of_mem _ hmem]
  simp [hlt]

theorem supportedVersion_at_least (c : Client) (obj : Object) (cutoff : Int)
    (fallback : ObjectType) (hmem : (obj.Kind, cutoff, fallback) ∈ fallbackTable)
    (hge : ¬ c.Minor < cutoff) : c.supportedVersion obj = obj := by
  rw [supportedVersion_table, fallbackEntry_of_mem _ hmem]
  simp [hge]

theorem supportedVersion_no_entry (c : Client) (obj : Object)
    (h : ∀ cutoff fallback, (obj.Kind, cutoff, fallback) ∉ fallbackTable) :
    c.supportedVersion obj = obj := by
  rw [supportedVersion_table, fallbackEntry_none _ h]

theorem emptyObject_ne (obj : Object) (cutoff : Int) (fallback : ObjectType)
    (hmem : (obj.Kind, cutoff, fallback) ∈ fallbackTable) : emptyObject fallback ≠ obj := by
  intro h
  have := fallback_ne_of_mem _ hmem
  rw [← h] at this
  exact this rfl

theorem downConvert_same (c : Client) (convert : Object → Object → Except String Object)
    (obj : Object) (h : c.supportedVersion obj = obj) :
    c.downConvert convert obj = .ok obj := by
  simp [Client.downConvert, h]

theorem downConvert_other (c : Client) (convert : Object → Object → Except String Object)
    (obj : Object) (h : c.supportedVersion obj ≠ obj) :
    c.downConvert convert obj = convert obj (c.supportedVersion obj) := by
  simp only [Client.downConvert, beq_iff_eq, h, if_false]
  cases convert obj (c.supportedVersion obj) <;> rfl

/-- C18: `supportedVersion` follows the fallback table.  For an object whose
type has an entry `(type, cutoff, fallback)` in the table (the apps/v1
workload controllers and their lists with cutoff 16, the batch/v1beta1 CronJob
and its list with cutoff 8), the result is a fresh object of the fallback type,
which is not the object given, when the minor version of the cluster is below
the cutoff, and `downConvert` is then the conversion of the object into it;
at or above the cutoff, and for a type without entry at any version, the very
same object is returned and `downConvert` returns it for whatever the
conversion would do.  The version is compared by its minor number: the major
number does not change the result. -/
theorem supportedVersion_follows_fallback_table (c : Client) (obj : Object)
    (convert : Object → Object → Except String Object) :
    (∀ cutoff fallback, (obj.Kind, cutoff, fallback) ∈ fallbackTable →
      emptyObject fallback ≠ obj ∧
      (c.Minor < cutoff →
        c.supportedVersion obj = emptyObject fallback ∧
        c.downConvert convert obj = convert obj (emptyObject fallback)) ∧
      (¬ c.Minor < cutoff →
        c.supportedVersion obj = obj ∧ c.downConvert convert obj = .ok obj)) ∧
    ((∀ cutoff fallback, (obj.Kind, cutoff, fallback) ∉ fallbackTable) →
      c.supportedVersion obj = obj ∧ c.downConvert convert obj = .ok obj) ∧
    (∀ major : Int,
      Client.supportedVersion { Major := major, Minor := c.Minor } obj =
        c.supportedVersion obj) := by
  refine ⟨fun cutoff fallback hmem => ⟨emptyObject_ne obj cutoff fallback hmem, ?_, ?_⟩,
    fun h => ?_, fun major => rfl⟩
  · intro hlt
    have hs := supportedVersion_below c obj cutoff fallback hmem hlt
    refine ⟨hs, ?_⟩
    rw [downConvert_other c convert obj (by rw [hs]; exact emptyObject_ne obj cutoff fallback hmem),
      hs]
  · intro hge
    have hs := supportedVersion_at_least c obj cutoff fallback hmem hge
    exact ⟨hs, downConvert_same c convert obj hs⟩
  · have hs := supportedVersion_no_entry c obj h
    exact ⟨hs, downConvert_same c convert obj hs⟩

/-- C18, at concrete inputs: a Deployment is replaced by a fresh apps/v1beta1
Deployment and down-converted at minor 15, and passed through at minor 18. -/
theorem supportedVersion_follows_fallback_table_witness :
    (sampleDeployment.Kind, 16, ObjectType.appsv1beta1Deployment) ∈ fallbackTable ∧
    Client.supportedVersion { Major := 1, Minor := 15 } sampleDeployment =
      emptyObject .appsv1beta1Deployment ∧
    Client.downConvert { Major := 1, Minor := 15 } convertFieldwise sampleDeployment =
      convertFieldwise sampleDeployment (emptyObject .appsv1beta1Deployment) ∧
    Client.supportedVersion { Major := 1, Minor := 18 } sampleDeployment = sampleDeployment ∧
    Client.downConvert { Major := 1, Minor := 18 } convertFieldwise sampleDeployment =
      .ok sampleDeployment :=
  have hmem : (sampleDeployment.Kind, 16, ObjectType.appsv1beta1Deployment) ∈ fallbackTable := by
    decide
  have h15 := ((supportedVersion_follows_fallback_table { Major := 1, Minor := 15 }
    sampleDeployment convertFieldwise).1 16 .appsv1beta1Deployment hmem).2.1 (by decide)
  have h18 := ((supportedVersion_follows_fallback_table { Major := 1, Minor := 18 }
    sampleDeployment convertFieldwise).1 16 .appsv1beta1Deployment hmem).2.2 (by decide)
  ⟨hmem, h15.1, h15.2, h18.1, h18.2⟩

theorem convertFieldwise_down (x : Object) (cutoff : Int) (fallback : ObjectType)
    (hmem : (x.Kind, cutoff, fallback) ∈ fallbackTable) :
    convertFieldwise x (emptyObject fallback) = .ok { Kind := fallback, Fields := x.Fields } := by
  have hany : fallbackTable.any (fun e =>
      (e.1 == x.Kind && e.2.2 == (emptyObject fallback).Kind) ||
        (e.1 == (emptyObject fallback).Kind && e.2.2 == x.Kind)) = true :=
    List.any_eq_true.mpr ⟨_, hmem, by simp [emptyObject]⟩
  simp only [convertFieldwise, hany, if_true]
  rfl

theorem convertFieldwise_up (x dst : Object) (cutoff : Int) (fallback : ObjectType)
    (hmem : (x.Kind, cutoff, fallback) ∈ fallbackTable) (hdst : dst.Kind = x.Kind) :
    convertFieldwise { Kind := fallback, Fields := x.Fields } dst = .ok x := by
  have hany : fallbackTable.any (fun e =>
      (e.1 == (Object.mk fallback x.Fields).Kind && e.2.2 == dst.Kind) ||
        (e.1 == dst.Kind && e.2.2 == (Object.mk fallback x.Fields).Kind)) = true :=
    List.any_eq_true.mpr ⟨_, hmem, by simp [hdst]⟩
  simp only [convertFieldwise, hany, if_true]
  obtain ⟨k, f⟩ := x
  obtain ⟨dk, df⟩ := dst
  simp only at hdst
  subst hdst
  rfl

theorem roundTrip_converted (c : Client) (x dst : Object) (cutoff : Int)
    (fallback : ObjectType) (hmem : (x.Kind, cutoff, fallback) ∈ fallbackTable)
    (hlt : c.Minor < cutoff) (hdst : dst.Kind = x.Kind) :
    c.roundTrip convertFieldwise x dst = .ok x := by
  have hx := supportedVersion_below c x cutoff fallback hmem hlt
  have hne := emptyObject_ne x cutoff fallback hmem
  have hd : c.downConvert convertFieldwise x
      = .ok { Kind := fallback, Fields := x.Fields } := by
    rw [downConvert_other c convertFieldwise x (by rw [hx]; exact hne), hx,
      convertFieldwise_down x cutoff fallback hmem]
  have hmem' : (dst.Kind, cutoff, fallback) ∈ fallbackTable := by rw [hdst]; exact hmem
  have hs := supportedVersion_below c dst cutoff fallback hmem' hlt
  have hne' := emptyObject_ne dst cutoff fallback hmem'
  simp only [Client.roundTrip, hd, Client.upConvert, hs, beq_iff_eq, hne', if_false]
  exact convertFieldwise_up x dst cutoff fallback hmem hdst

theorem roundTrip_same (c : Client) (convert : Object → Object → Except String Object)
    (x : Object) (h : c.supportedVersion x = x) : c.roundTrip convert x x = .ok x := by
  simp [Client.roundTrip, downConvert_same c convert x h, Client.upConvert, h]

/-- C17: the compat round trip.  With the registered field-wise converters,
for every cluster version and every object `x`, down-converting `x` and
up-converting the result into the caller's object gives an object equal to
`x`; when the type of `x` has an entry in the fallback table and the cluster
is below its cutoff, the object sent to the cluster has the fallback type and
the fields of `x`, and up-converting it into any object of the type of `x`
gives `x`, so every field of `x`, such as the names of the containers of a
Deployment, is preserved. -/
theorem compat_round_trip (c : Client) (x : Object) :
    c.roundTrip convertFieldwise x x = .ok x ∧
    (∀ cutoff fallback, (x.Kind, cutoff, fallback) ∈ fallbackTable → c.Minor < cutoff →
      c.downConvert convertFieldwise x = .ok { Kind := fallback, Fields := x.Fields } ∧
      ∀ dst : Object, dst.Kind = x.Kind →
        c.roundTrip convertFieldwise x dst = .ok x ∧
        ∀ y, c.roundTrip convertFieldwise x dst = .ok y →
          ∀ path, y.Fields.lookup path = x.Fields.lookup path) := by
  constructor
  · cases hfe : fallbackEntry x.Kind with
    | none =>
      refine roundTrip_same c convertFieldwise x ?_
      rw [supportedVersion_table, hfe]
    | some e =>
      obtain ⟨hmem, hk⟩ := fallbackEntry_some x.Kind e hfe
      obtain ⟨k, cutoff, fallback⟩ := e
      simp only at hk
      subst hk
      by_cases hlt : c.Minor < cutoff
      · exact roundTrip_converted c x x cutoff fallback hmem hlt rfl
      · exact roundTrip_same c convertFieldwise x
          (supportedVersion_at_least c x cutoff fallback hmem hlt)
  · intro cutoff fallback hmem hlt
    have hx := supportedVersion_below c x cutoff fallback hmem hlt
    have hne := emptyObject_ne x cutoff fallback hmem
    refine ⟨?_, fun dst hdst => ?_⟩
    · rw [downConvert_other c convertFieldwise x (by rw [hx]; exact hne), hx,
        convertFieldwise_down x cutoff fallback hmem]
    · have hr := roundTrip_converted c x dst cutoff fallback hmem hlt hdst
      refine ⟨hr, fun y hy path => ?_⟩
      rw [hr] at hy
      cases hy
      rfl

/-- C17, at concrete inputs: at minor 15 a Deployment is sent as an
apps/v1beta1 Deployment with the same fields, and comes back from the round
trip into a fresh apps/v1 Deployment as itself, its container still named
`web`. -/
theorem compat_round_trip_witness :
    (sampleDeployment.Kind, 16, ObjectType.appsv1beta1Deployment) ∈ fallbackTable ∧
    Client.roundTrip { Major := 1, Minor := 15 } convertFieldwise sampleDeployment
      sampleDeployment = .ok sampleDeployment ∧
    Client.downConvert { Major := 1, Minor := 15 } convertFieldwise sampleDeployment =
      .ok { Kind := .appsv1beta1Deployment, Fields := sampleDeployment.Fields } ∧
    Client.roundTrip { Major := 1, Minor := 15 } convertFieldwise sampleDeployment
      (emptyObject .appsv1Deployment) = .ok sampleDeployment ∧
    sampleDeployment.Fields.lookup "spec.template.spec.containers[0].name" = some "web" :=
  have hmem : (sampleDeployment.Kind, 16, ObjectType.appsv1beta1Deployment) ∈ fallbackTable := by
    decide
  have h := compat_round_trip { Major := 1, Minor := 15 } sampleDeployment
  have h15 := h.2 16 .appsv1beta1Deployment hmem (by decide)
  ⟨hmem, h.1, h15.1, (h15.2 (emptyObject .appsv1Deployment) rfl).1, by decide⟩

/-! ## Termination of the itineraries -/

theorem advance_stays_completed (t : Task) (hmem : t.Itinerary ∈ itineraries) (m : Nat)
    (hm : (t.advance m).Phase = Completed) :
    ∀ n, m ≤ n → (t.advance n).Phase = Completed := by
  intro n hn
  induction n with
  | zero =>
    have : m = 0 := by omega
    subst this
    exact hm
  | succ n ih =>
    by_cases hmn : m = n + 1
    · subst hmn
      exact hm
    · have hprev := ih (by omega)
      show (t.advance n).next.Phase = Completed
      refine next_completed ?_ hprev
      rw [(advance_frame t n).2.2]
      exact hmem

/-- C29: for each of the five itineraries, every flag state and every starting
phase, repeated `Task.next` reaches the phase `Completed` after at most
`len(Steps)` applications (after `len(Steps) - 1` already), and once the phase
is `Completed` it stays so under further applications; no itinerary holds a
phase name twice and `Completed` is the last step of each. -/
theorem next_reaches_completed (t : Task) (hmem : t.Itinerary ∈ itineraries) :
    (∃ m, m ≤ t.Itinerary.Steps.length ∧ (t.advance m).Phase = Completed) ∧
    (∀ n, t.Itinerary.Steps.length ≤ n → (t.advance n).Phase = Completed) ∧
    (∀ m, (t.advance m).Phase = Completed → ∀ n, m ≤ n → (t.advance n).Phase = Completed) ∧
    (t.Itinerary.Steps.map Step.phase).Nodup ∧
    (t.Itinerary.Steps.map Step.phase)[t.Itinerary.Steps.length - 1]? = some Completed := by
  refine ⟨⟨t.Itinerary.Steps.length - 1, by omega,
      advance_reaches_completed t hmem _ (le_refl _)⟩,
    fun n hn => advance_reaches_completed t hmem n (by omega),
    fun m hm => advance_stays_completed t hmem m hm,
    itineraries_nodup _ hmem, (last_is_completed _ hmem).1⟩

/-- C29, at a concrete input: the stage migration placed at the first step of
the Stage itinerary is at `Completed` after 23 applications of `next`, the
number of steps of the itinerary. -/
theorem next_reaches_completed_witness :
    (sampleStageTask.start StageItinerary).Itinerary ∈ itineraries ∧
    StageItinerary.Steps.length = 23 ∧
    ((sampleStageTask.start StageItinerary).advance 23).Phase = Completed :=
  ⟨by decide, by decide,
    (next_reaches_completed (sampleStageTask.start StageItinerary) (by decide)).2.1 23
      (by decide)⟩

/-! ## The terminal phase -/

theorem dispatch_completed (k : Consts) (settings : Settings) (ops : Ops) (t : Task)
    (h : t.Phase = Completed) : Task.dispatch k settings ops t = (t, none) := by
  unfold Task.dispatch
  rw [h]
  simp [Completed, MigrationFailed, Created, Started, Prepare, EnsureCloudSecretPropagated,
    PreBackupHooks,
    EnsureInitialBackup, InitialBackupCreated, AnnotateResources, EnsureStagePodsFromRunning,
    EnsureStagePodsFromTemplates, EnsureStagePodsFromOrphanedPVCs, StagePodsCreated,
    RestartRestic, ResticRestarted, QuiesceApplications, EnsureQuiesced, UnQuiesceApplications,
    EnsureStageBackup, StageBackupCreated, EnsureStageBackupReplicated, PostBackupHooks,
    PreRestoreHooks, EnsureStageRestore, StageRestoreCreated, EnsureStagePodsDeleted,
    EnsureStagePodsTerminated, EnsureAnnotationsDeleted, EnsureLabelsDeleted,
    EnsureInitialBackupReplicated, EnsureFinalRestore, FinalRestoreCreated, PostRestoreHooks,
    Verification, EnsureMigratedDeleted, DeleteMigrated, DeleteBackups, DeleteRestores,
    Canceling, Canceled, InitialBackupFailed, FinalRestoreFailed, StageBackupFailed,
    StageRestoreFailed]

theorem run_requeue_of_completed (k : Consts) (settings : Settings) (ops : Ops) (t : Task)
    (herr : (t.Run k settings ops).2 = none)
    (hph : (t.Run k settings ops).1.Phase = Completed) :
    (t.Run k settings ops).1.Requeue = NoReQ := by
  have hrun : t.Run k settings ops =
      (match Task.dispatch k settings ops (t.init k) with
        | (t', some err) => (t', some err)
        | (t', none) =>
          if t'.Phase == Completed then ({ t' with Requeue := NoReQ }, none) else (t', none)) :=
    rfl
  rw [hrun] at herr hph ⊢
  clear hrun
  generalize Task.dispatch k settings ops (t.init k) = r at herr hph ⊢
  obtain ⟨t', e⟩ := r
  cases e with
  | some err => simp at herr
  | none =>
    simp only at hph ⊢
    by_cases hc : t'.Phase = Completed
    · simp [hc]
    · simp [hc] at hph

/-- C28: `Completed` is terminal.  For every task whose phase is `Completed`
and whose recorded itinerary name equals the name of the itinerary that `init`
selects, for every behaviour of the cluster helpers, `Task.Run` returns no
error, leaves the phase `Completed` and the itinerary, owner and errors as
`init` left them, and sets the requeue to `NoReQ` (0); and whenever `Run`
returns no error with phase `Completed`, the requeue is 0. -/
theorem completed_is_terminal (k : Consts) (settings : Settings) (ops : Ops) (t : Task)
    (hp : t.Phase = Completed) (hname : t.Owner.Status.Itenerary = (t.init k).Itinerary.Name) :
    t.Run k settings ops = ({ t.init k with Requeue := NoReQ }, none) ∧
    (t.Run k settings ops).2 = none ∧
    (t.Run k settings ops).1.Phase = Completed ∧
    (t.Run k settings ops).1.Requeue = 0 ∧
    (∀ (u : Task), (u.Run k settings ops).2 = none →
      (u.Run k settings ops).1.Phase = Completed → (u.Run k settings ops).1.Requeue = 0) := by
  have hph : (t.init k).Phase = Completed := by
    rw [init_phase_eq, hname]
    simp [hp]
  have hrun : t.Run k settings ops = ({ t.init k with Requeue := NoReQ }, none) := by
    have hdef : t.Run k settings ops =
        (match Task.dispatch k settings ops (t.init k) with
          | (t', some err) => (t', some err)
          | (t', none) =>
            if t'.Phase == Completed then ({ t' with Requeue := NoReQ }, none) else (t', none)) :=
      rfl
    rw [hdef, dispatch_completed k settings ops _ hph]
    simp [hph]
  refine ⟨hrun, by rw [hrun], by rw [hrun]; exact hph, by rw [hrun]; rfl, ?_⟩
  intro u herr hc
  exact run_requeue_of_completed k settings ops u herr hc

/-- C28, at a concrete input: the final migration recorded at `Completed` in
the itinerary `Final` stays at `Completed` with requeue 0. -/
theorem completed_is_terminal_witness :
    sampleCompletedTask.Phase = Completed ∧
    sampleCompletedTask.Owner.Status.Itenerary
      = (sampleCompletedTask.init sampleConsts).Itinerary.Name ∧
    (sampleCompletedTask.Run sampleConsts {} quietOps).2 = none ∧
    (sampleCompletedTask.Run sampleConsts {} quietOps).1.Phase = Completed ∧
    (sampleCompletedTask.Run sampleConsts {} quietOps).1.Requeue = 0 :=
  have h := completed_is_terminal sampleConsts {} quietOps sampleCompletedTask rfl (by decide)
  ⟨rfl, by decide, h.2.1, h.2.2.1, h.2.2.2.1⟩

/-! ## Stage pod names -/

theorem byte_toNat (x m h : UInt8) :
    (x &&& m ||| h).toNat = (x.toNat &&& m.toNat) ||| h.toNat := rfl

set_option maxRecDepth 1000000 in
theorem continuation_bits_ne : ∀ a < 256,
    (a &&& 0x1f ||| 0xc0) ≠ 45 ∧ (a &&& 0x3f ||| 0x80) ≠ 45 ∧
    (a &&& 0x0f ||| 0xe0) ≠ 45 ∧ (a &&& 0x07 ||| 0xf0) ≠ 45 := by
  decide

theorem multibyte_ne_hyphen (x : UInt8) :
    (x &&& 0x1f ||| 0xc0).toNat ≠ 45 ∧ (x &&& 0x3f ||| 0x80).toNat ≠ 45 ∧
    (x &&& 0x0f ||| 0xe0).toNat ≠ 45 ∧ (x &&& 0x07 ||| 0xf0).toNat ≠ 45 := by
  have hx : x.toNat < 256 := x.toBitVec.isLt
  simp only [byte_toNat]
  exact continuation_bits_ne x.toNat hx

theorem utf8_hyphen (c : Char) : ∀ b ∈ String.utf8EncodeChar c, b.toNat = 45 → c = '-' := by
  intro b hb h45
  unfold String.utf8EncodeChar at hb
  simp only at hb
  split_ifs at hb with h1 h2 h3
  · simp only [List.mem_singleton] at hb
    subst hb
    apply Char.ext
    have h1' : c.val.toNat ≤ 127 := h1
    have hmod : c.val.toUInt8.toNat = c.val.toNat % 256 := rfl
    rw [hmod] at h45
    have h2 : c.val.toNat = 45 := by omega
    exact UInt32.ext h2
  · simp only [List.mem_cons, List.mem_singleton, List.mem_nil_iff, or_false] at hb
    rcases hb with rfl | rfl
    · exact absurd h45 (multibyte_ne_hyphen _).1
    · exact absurd h45 (multibyte_ne_hyphen _).2.1
  · simp only [List.mem_cons, List.mem_singleton, List.mem_nil_iff, or_false] at hb
    rcases hb with rfl | rfl | rfl
    · exact absurd h45 (multibyte_ne_hyphen _).2.2.1
    · exact absurd h45 (multibyte_ne_hyphen _).2.1
    · exact absurd h45 (multibyte_ne_hyphen _).2.1
  · simp only [List.mem_cons, List.mem_singleton, List.mem_nil_iff, or_false] at hb
    rcases hb with rfl | rfl | rfl | rfl
    · exact absurd h45 (multibyte_ne_hyphen _).2.2.2
    · exact absurd h45 (multibyte_ne_hyphen _).2.1
    · exact absurd h45 (multibyte_ne_hyphen _).2.1
    · exact absurd h45 (multibyte_ne_hyphen _).2.1

theorem utf8_ne_nil (c : Char) : String.utf8EncodeChar c ≠ [] := by
  unfold String.utf8EncodeChar
  simp only
  split_ifs <;> simp

theorem collapseHyphens_chain (l : List Char) :
    List.Chain' (fun a b : Char => ¬ (a = '-' ∧ b = '-')) (collapseHyphens l) := by
  induction l with
  | nil => simp [collapseHyphens]
  | cons c rest ih =>
    by_cases hc : c = '-'
    · simp only [collapseHyphens, hc, if_true]
      split
      · rename_i r heq
        rw [heq] at ih
        exact ih
      · rename_i r hne
        rw [List.chain'_cons']
        refine ⟨?_, ih⟩
        intro b hb
        rintro ⟨-, rfl⟩
        cases hr : collapseHyphens rest with
        | nil => rw [hr] at hb; simp at hb
        | cons x xs =>
          rw [hr] at hb
          simp only [List.head?_cons, Option.mem_def, Option.some.injEq] at hb
          subst hb
          exact hne xs hr
    · simp only [collapseHyphens, hc, if_false]
      rw [List.chain'_cons']
      exact ⟨fun b _ h => hc h.1, ih⟩

theorem trimRightHyphens_initial (l : List Char) : trimRightHyphens l <+: l := by
  unfold trimRightHyphens
  rw [← List.reverse_suffix, List.reverse_reverse]
  exact List.dropWhile_suffix _

theorem chain_append_of_ne (l1 l2 : List Nat) (h1 : ∀ x ∈ l1, x ≠ 45)
    (h2 : List.Chain' (fun a b : Nat => ¬ (a = 45 ∧ b = 45)) l2) :
    List.Chain' (fun a b : Nat => ¬ (a = 45 ∧ b = 45)) (l1 ++ l2) := by
  induction l1 with
  | nil => exact h2
  | cons x xs ih =>
    rw [List.cons_append, List.chain'_cons']
    exact ⟨fun b _ h => h1 x (List.mem_cons_self _ _) h.1,
      ih (fun y hy => h1 y (List.mem_cons_of_mem _ hy))⟩

theorem utf8_chain (l : List Char)
    (h : List.Chain' (fun a b : Char => ¬ (a = '-' ∧ b = '-')) l) :
    List.Chain' (fun a b : Nat => ¬ (a = 45 ∧ b = 45))
        (l.flatMap (fun c => (String.utf8EncodeChar c).map UInt8.toNat)) ∧
    (∀ b ∈ (l.flatMap (fun c => (String.utf8EncodeChar c).map UInt8.toNat)).head?,
      b = 45 → l.head? = some '-') := by
  induction l with
  | nil => simp
  | cons c rest ih =>
    rw [List.chain'_cons'] at h
    obtain ⟨ih1, ih2⟩ := ih h.2
    rw [List.flatMap_cons]
    constructor
    · by_cases hc : c = '-'
      · subst hc
        have henc : (String.utf8EncodeChar '-').map UInt8.toNat = [45] := by decide
        rw [henc, List.singleton_append, List.chain'_cons']
        refine ⟨?_, ih1⟩
        intro b hb
        rintro ⟨-, hb45⟩
        have := ih2 b hb hb45
        exact h.1 '-' (by rw [this]; rfl) ⟨rfl, rfl⟩
      · refine chain_append_of_ne _ _ ?_ ih1
        intro x hx hx45
        obtain ⟨b, hb, rfl⟩ := List.mem_map.mp hx
        exact hc (utf8_hyphen c b hb hx45)
    · intro b hb hb45
      cases henc : String.utf8EncodeChar c with
      | nil => exact absurd henc (utf8_ne_nil c)
      | cons y ys =>
        rw [henc] at hb
        simp only [List.map_cons, List.cons_append, List.head?_cons, Option.mem_def,
          Option.some.injEq] at hb
        subst hb
        have := utf8_hyphen c y (by rw [henc]; exact List.mem_cons_self _ _) hb45
        rw [this]
        rfl

theorem truncateName_chain (name : String) :
    List.Chain' (fun a b : Nat => ¬ (a = 45 ∧ b = 45)) (truncateName name) := by
  have hchars := List.Chain'.prefix (collapseHyphens_chain name.data)
    (trimRightHyphens_initial (collapseHyphens name.data))
  have hbytes := (utf8_chain _ hchars).1
  unfold truncateName goBytes
  simp only
  split_ifs
  · exact hbytes.take 57
  · exact hbytes

theorem truncateName_length (name : String) : (truncateName name).length ≤ 57 := by
  unfold truncateName
  simp only
  split_ifs with h
  · rw [List.length_take]
    exact Nat.min_le_left _ _
  · omega

/-- C30: for every name, `truncateName(name)` is at most 57 bytes long and
contains no two adjacent hyphens, so the generated-name prefix of a stage pod,
`truncateName("stage-" + name)` followed by `-`, as `buildStagePodFromPod` and
`buildStagePod` set it, is at most 58 bytes long and at most 63 with a suffix
of five; but `truncateName` can end in a hyphen: for the name of 50 letters
`a` followed by `-b` the result of `truncateName("stage-" + name)` ends in `-`
and the generated-name prefix ends in `--`. -/
theorem truncateName_bounds (name : String) :
    (truncateName name).length ≤ 57 ∧
    ¬ ([hyphenByte, hyphenByte] <:+: truncateName name) ∧
    (truncateName ("stage-" ++ name) ++ goBytes "-").length ≤ 58 ∧
    (truncateName ("stage-" ++ name) ++ goBytes "-").length + 5 ≤ 63 ∧
    (∀ (ns : String) (labels : List (String × String)) (pod : Pod) (pvcVolumes : List Volume)
        (image : String) (limits : ResourceLimitMapping),
      (buildStagePodFromPod { Name := name, Namespace := ns } labels pod pvcVolumes image
          limits).Pod.GenerateName = truncateName ("stage-" ++ name) ++ goBytes "-" ∧
      (buildStagePod { Name := name, Namespace := ns } labels image limits).Pod.GenerateName
        = truncateName ("stage-" ++ name) ++ goBytes "-") ∧
    (truncateName ("stage-" ++ sampleLongName)).length = 57 ∧
    [hyphenByte] <:+ truncateName ("stage-" ++ sampleLongName) ∧
    [hyphenByte, hyphenByte] <:+ truncateName ("stage-" ++ sampleLongName) ++ goBytes "-" := by
  have hlen : (truncateName ("stage-" ++ name) ++ goBytes "-").length ≤ 58 := by
    rw [List.length_append]
    have := truncateName_length ("stage-" ++ name)
    have hh : (goBytes "-").length = 1 := by decide
    omega
  refine ⟨truncateName_length name, ?_, hlen, by omega, fun _ _ _ _ _ _ => ⟨rfl, rfl⟩,
    by decide, by decide, by decide⟩
  intro hinf
  have := List.Chain'.infix (truncateName_chain name) hinf
  simp [hyphenByte] at this

/-! ## Byte counts in SI units -/

theorem wrapInt64_id (x : Int) (h0 : 0 ≤ x) (h1 : x < 2 ^ 63) : wrapInt64 x = x := by
  unfold wrapInt64
  norm_num at h1 ⊢
  omega

theorem siLoopFrom_spec (j : Nat) : ∀ (bound : Nat) (n d : Int) (e : Nat), n.toNat ≤ bound →
    0 < d → d * 1000 ^ j < 2 ^ 63 → 1000 ^ j ≤ n → n < 1000 ^ (j + 1) →
    siLoopFrom bound n d e = (d * 1000 ^ j, e + j) := by
  induction j with
  | zero =>
    intro bound n d e _ _ _ h1 h2
    norm_num at h2
    cases bound with
    | zero => simp [siLoopFrom]
    | succ bound =>
      rw [siLoopFrom, if_neg (by simp only [baseUnit]; omega)]
      simp
  | succ j ih =>
    intro bound n d e hb hd hlt h1 h2
    have hP : (0 : Int) < 1000 ^ j := by positivity
    rw [pow_succ] at hlt h1
    rw [pow_succ, pow_succ] at h2
    have hn : (1000 : Int) ≤ n := by nlinarith
    have hd1 : d * 1000 < 2 ^ 63 := by nlinarith
    have h0 : 0 ≤ n := by omega
    cases bound with
    | zero => omega
    | succ bound =>
      rw [siLoopFrom, if_pos (by simpa [baseUnit] using hn)]
      simp only [baseUnit]
      rw [wrapInt64_id (d * 1000) (by omega) hd1]
      rw [Int.tdiv_eq_ediv h0 (by omega)]
      rw [ih bound (n / 1000) (d * 1000) (e + 1) (by omega) (by omega)
        (by rw [pow_succ] at *; nlinarith) (by omega) (by rw [pow_succ]; omega)]
      rw [pow_succ]
      refine Prod.ext ?_ ?_
      · simp only
        ring
      · simp only
        omega

theorem siLoop_spec (j : Nat) (n d : Int) (e : Nat) (hd : 0 < d) (hlt : d * 1000 ^ j < 2 ^ 63)
    (h1 : 1000 ^ j ≤ n) (h2 : n < 1000 ^ (j + 1)) : siLoop n d e = (d * 1000 ^ j, e + j) :=
  siLoopFrom_spec j n.toNat n d e (le_refl _) hd hlt h1 h2

theorem siLoopFrom_bound (bound : Nat) : ∀ (bound2 : Nat) (n d : Int) (e : Nat),
    n.toNat ≤ bound → n.toNat ≤ bound2 → siLoopFrom bound n d e = siLoopFrom bound2 n d e := by
  induction bound with
  | zero =>
    intro bound2 n d e h1 _
    cases bound2 with
    | zero => rfl
    | succ b2 =>
      rw [siLoopFrom, siLoopFrom, if_neg (by simp only [baseUnit]; omega)]
  | succ bound ih =>
    intro bound2 n d e h1 h2
    cases bound2 with
    | zero =>
      rw [siLoopFrom, siLoopFrom, if_neg (by simp only [baseUnit]; omega)]
    | succ b2 =>
      rw [siLoopFrom, siLoopFrom]
      by_cases hn : baseUnit ≤ n
      · rw [if_pos hn, if_pos hn]
        simp only [baseUnit] at hn ⊢
        have h0 : 0 ≤ n := by omega
        have hq : n.tdiv 1000 = n / 1000 := Int.tdiv_eq_ediv h0 (by omega)
        exact ih b2 _ _ _ (by rw [hq]; omega) (by rw [hq]; omega)
      · rw [if_neg hn, if_neg hn]

/-- The loop of `bytesToSI` as the source writes it: one more iteration while
`n >= baseUnit`. -/
theorem siLoop_unfold (n d : Int) (e : Nat) :
    siLoop n d e =
      if baseUnit ≤ n then siLoop (n.tdiv baseUnit) (wrapInt64 (d * baseUnit)) (e + 1)
      else (d, e) := by
  unfold siLoop
  cases hb : n.toNat with
  | zero =>
    rw [siLoopFrom, if_neg (by simp only [baseUnit]; omega)]
  | succ b =>
    rw [siLoopFrom]
    by_cases hn : baseUnit ≤ n
    · rw [if_pos hn, if_pos hn]
      simp only [baseUnit] at hn ⊢
      have h0 : 0 ≤ n := by omega
      have hq : n.tdiv 1000 = n / 1000 := Int.tdiv_eq_ediv h0 (by omega)
      exact siLoopFrom_bound b _ _ _ _ (by rw [hq]; omega) (le_refl _)
    · rw [if_neg hn, if_neg hn]

theorem roundHalfEven_bounds (num den A B : Nat) (hden : 0 < den) (hA : A * den ≤ num)
    (hB : num ≤ B * den) : A ≤ roundHalfEven num den ∧ roundHalfEven num den ≤ B := by
  have hq1 : A ≤ num / den := (Nat.le_div_iff_mul_le hden).2 hA
  have hdm := Nat.div_add_mod num den
  have hq3 : 0 < num % den → num / den < B := by
    intro hr
    by_contra hge
    have hge' : B ≤ num / den := by omega
    have := Nat.mul_le_mul_left den hge'
    have hc : den * B = B * den := Nat.mul_comm _ _
    omega
  have hq2 : num / den ≤ B := by
    rw [Nat.mul_comm] at hB
    exact Nat.div_le_of_le_mul hB
  unfold roundHalfEven
  simp only
  split_ifs <;> constructor <;> omega

theorem log2Fuel_spec (fuel : Nat) : ∀ n, 1 ≤ n → n ≤ fuel →
    2 ^ log2Fuel fuel n ≤ n ∧ n < 2 ^ (log2Fuel fuel n + 1) := by
  induction fuel with
  | zero => intro n h1 h2; omega
  | succ fuel ih =>
    intro n h1 h2
    unfold log2Fuel
    by_cases h : n < 2
    · simp only [h, if_true]
      have : n = 1 := by omega
      subst this
      simp
    · simp only [h, if_false]
      obtain ⟨ha, hb⟩ := ih (n / 2) (by omega) (by omega)
      rw [pow_succ] at hb ⊢
      rw [pow_succ]
      constructor <;> omega

theorem floorLog2_spec (n : Nat) (h : 1 ≤ n) :
    2 ^ floorLog2 n ≤ n ∧ n < 2 ^ (floorLog2 n + 1) :=
  log2Fuel_spec n n h (le_refl n)

theorem floorLog2_lt (n k : Nat) (h : 1 ≤ n) (hk : n < 2 ^ k) : floorLog2 n < k := by
  have h1 := (floorLog2_spec n h).1
  exact (Nat.pow_lt_pow_iff_right (by omega : 1 < 2)).mp (lt_of_le_of_lt h1 hk)

theorem ulpExp_le (num den : Nat) :
    ulpExp num den ≤ (floorLog2 num : Int) - (floorLog2 den : Int) - 52 := by
  unfold ulpExp
  simp only
  split_ifs <;> omega
theorem roundFloat64_bounds (neg : Bool) (num den A B : Nat) (hden : 0 < den)
    (hA : A * den ≤ num) (hB : num ≤ B * den)
    (hdiv : 0 ≤ ulpExp num den →
      2 ^ (ulpExp num den).toNat ∣ A ∧ 2 ^ (ulpExp num den).toNat ∣ B) :
    (roundFloat64 neg num den).neg = neg ∧ 0 < (roundFloat64 neg num den).den ∧
    A * (roundFloat64 neg num den).den ≤ (roundFloat64 neg num den).num ∧
    (roundFloat64 neg num den).num ≤ B * (roundFloat64 neg num den).den := by
  unfold roundFloat64
  by_cases h0 : num = 0
  · simp only [h0, if_true]
    subst h0
    have : A = 0 := by
      rcases Nat.eq_zero_or_pos A with h | h
      · exact h
      · have := Nat.mul_pos h hden
        omega
    subst this
    simp
  · simp only [h0, if_false]
    by_cases hs : 0 ≤ ulpExp num den
    · simp only [hs, if_true, scale]
      obtain ⟨⟨a, ha⟩, ⟨b, hb⟩⟩ := hdiv hs
      have hpos : 0 < den * 2 ^ (ulpExp num den).toNat := Nat.mul_pos hden (by positivity)
      have hb1 := roundHalfEven_bounds num (den * 2 ^ (ulpExp num den).toNat) a b hpos
        (by rw [ha] at hA; calc a * (den * 2 ^ (ulpExp num den).toNat)
              = 2 ^ (ulpExp num den).toNat * a * den := by ring
            _ ≤ num := hA)
        (by rw [hb] at hB; calc num ≤ 2 ^ (ulpExp num den).toNat * b * den := hB
            _ = b * (den * 2 ^ (ulpExp num den).toNat) := by ring)
      refine ⟨trivial, by omega, ?_, ?_⟩
      · rw [ha, Nat.mul_one, Nat.mul_comm]
        exact Nat.mul_le_mul_right _ hb1.1
      · rw [hb, Nat.mul_one, Nat.mul_comm (2 ^ _) b]
        exact Nat.mul_le_mul_right _ hb1.2
    · simp only [hs, if_false, scale]
      have hb1 := roundHalfEven_bounds (num * 2 ^ (-ulpExp num den).toNat) den
        (A * 2 ^ (-ulpExp num den).toNat) (B * 2 ^ (-ulpExp num den).toNat) hden
        (by calc A * 2 ^ (-ulpExp num den).toNat * den
              = A * den * 2 ^ (-ulpExp num den).toNat := by ring
            _ ≤ num * 2 ^ (-ulpExp num den).toNat := Nat.mul_le_mul_right _ hA)
        (by calc num * 2 ^ (-ulpExp num den).toNat
              ≤ B * den * 2 ^ (-ulpExp num den).toNat := Nat.mul_le_mul_right _ hB
            _ = B * 2 ^ (-ulpExp num den).toNat * den := by ring)
      exact ⟨trivial, by positivity, hb1.1, hb1.2⟩

theorem floorLog2_one : floorLog2 1 = 0 := by decide

/-- The conversion of an int64 between two bounds that are multiples of
`2 ^ 10`, or of any bounds when the value is below `2 ^ 53`, stays between
them. -/
theorem ofInt64_bounds (x : Int) (A B : Nat) (h0 : 0 ≤ x) (h63 : x < 2 ^ 63)
    (hA : (A : Int) ≤ x) (hB : x ≤ (B : Int))
    (hdiv : 2 ^ 53 ≤ x → 2 ^ 10 ∣ A ∧ 2 ^ 10 ∣ B) :
    (Float64.ofInt64 x).neg = false ∧ 0 < (Float64.ofInt64 x).den ∧
    A * (Float64.ofInt64 x).den ≤ (Float64.ofInt64 x).num ∧
    (Float64.ofInt64 x).num ≤ B * (Float64.ofInt64 x).den := by
  unfold Float64.ofInt64
  have hneg : decide (x < 0) = false := by simp; omega
  rw [hneg]
  have hxa : (x.natAbs : Int) = x := Int.natAbs_of_nonneg h0
  refine roundFloat64_bounds false x.natAbs 1 A B (by omega) (by omega) (by omega) ?_
  intro hs
  have hle := ulpExp_le x.natAbs 1
  rw [floorLog2_one] at hle
  by_cases hx1 : x.natAbs = 0
  · rw [hx1] at hle hs
    have : floorLog2 0 = 0 := by decide
    rw [this] at hle
    omega
  have hfl : floorLog2 x.natAbs < 63 := by
    refine floorLog2_lt _ _ (by omega) ?_
    have : ((x.natAbs : Nat) : Int) < 2 ^ 63 := by rw [hxa]; exact h63
    exact_mod_cast this
  have hs10 : (ulpExp x.natAbs 1).toNat ≤ 10 := by omega
  by_cases hbig : 2 ^ 53 ≤ x
  · obtain ⟨hdA, hdB⟩ := hdiv hbig
    exact ⟨(pow_dvd_pow 2 hs10).trans hdA, (pow_dvd_pow 2 hs10).trans hdB⟩
  · have hlt' : x.natAbs < 2 ^ 53 := by
      have : ((x.natAbs : Nat) : Int) < 2 ^ 53 := by rw [hxa]; omega
      exact_mod_cast this
    have := floorLog2_lt _ 53 (by omega) hlt'
    have hs0 : (ulpExp x.natAbs 1).toNat = 0 := by omega
    rw [hs0]
    simp
theorem div_bounds (a b : Float64) (D : Nat) (hD : 0 < D) (han : a.neg = false)
    (hbn : b.neg = false) (had : 0 < a.den) (ha1 : D * a.den ≤ a.num)
    (ha2 : a.num ≤ 1000 * D * a.den) (hbd : 0 < b.den) (hb : b.num = D * b.den) :
    (a.div b).neg = false ∧ 0 < (a.div b).den ∧ (a.div b).den ≤ (a.div b).num ∧
    (a.div b).num ≤ 1000 * (a.div b).den := by
  have hbnum : b.num ≠ 0 := by
    rw [hb]
    exact Nat.pos_iff_ne_zero.mp (Nat.mul_pos hD hbd)
  unfold Float64.div
  simp only [hbnum, if_false, han, hbn]
  have hden : 0 < a.den * b.num := Nat.mul_pos had (Nat.pos_of_ne_zero hbnum)
  have h1 : 1 * (a.den * b.num) ≤ a.num * b.den := by
    rw [hb]
    calc 1 * (a.den * (D * b.den)) = D * a.den * b.den := by ring
      _ ≤ a.num * b.den := Nat.mul_le_mul_right _ ha1
  have h2 : a.num * b.den ≤ 1000 * (a.den * b.num) := by
    rw [hb]
    calc a.num * b.den ≤ 1000 * D * a.den * b.den := Nat.mul_le_mul_right _ ha2
      _ = 1000 * (a.den * (D * b.den)) := by ring
  have hr := roundFloat64_bounds (false != false) (a.num * b.den) (a.den * b.num) 1 1000 hden
    h1 h2 ?_
  · obtain ⟨r1, r2, r3, r4⟩ := hr
    exact ⟨r1, r2, by omega, r4⟩
  · intro hs
    exfalso
    have hle := ulpExp_le (a.num * b.den) (a.den * b.num)
    have hnum1 : 1 ≤ a.num * b.den := by omega
    have hsp := (floorLog2_spec (a.den * b.num) hden).2
    have hlt : a.num * b.den < 2 ^ (floorLog2 (a.den * b.num) + 11) := by
      rw [pow_add]
      norm_num
      omega
    have := floorLog2_lt _ _ hnum1 hlt
    omega

/-- The branch of `bytesToSI` for a byte count whose unit has exponent `k`. -/
theorem bytesToSI_unit (bytes : Int) (k B : Nat) (unit : Char) (hk : 1 ≤ k)
    (hlo : ((1000 ^ k : Nat) : Int) ≤ bytes) (hhi : bytes < ((1000 ^ (k + 1) : Nat) : Int))
    (h63 : bytes < 2 ^ 63) (hu : siUnits.data[k - 1]? = some unit)
    (hB1 : bytes ≤ (B : Int)) (hB2 : B ≤ 1000 * 1000 ^ k)
    (hdiv : 2 ^ 53 ≤ bytes → 2 ^ 10 ∣ 1000 ^ k ∧ 2 ^ 10 ∣ B) :
    siLoop (bytes.tdiv baseUnit) baseUnit 0 = (((1000 ^ k : Nat) : Int), k - 1) ∧
    ((Float64.ofInt64 bytes).div (Float64.ofInt64 ((1000 ^ k : Nat) : Int))).neg = false ∧
    0 < ((Float64.ofInt64 bytes).div (Float64.ofInt64 ((1000 ^ k : Nat) : Int))).den ∧
    ((Float64.ofInt64 bytes).div (Float64.ofInt64 ((1000 ^ k : Nat) : Int))).den
      ≤ ((Float64.ofInt64 bytes).div (Float64.ofInt64 ((1000 ^ k : Nat) : Int))).num ∧
    ((Float64.ofInt64 bytes).div (Float64.ofInt64 ((1000 ^ k : Nat) : Int))).num
      ≤ 1000 * ((Float64.ofInt64 bytes).div (Float64.ofInt64 ((1000 ^ k : Nat) : Int))).den ∧
    bytesToSI bytes =
      some (formatFloat2 ((Float64.ofInt64 bytes).div (Float64.ofInt64 ((1000 ^ k : Nat) : Int)))
        ++ " " ++ String.singleton unit ++ "B") := by
  obtain ⟨j, rfl⟩ : ∃ j, k = j + 1 := ⟨k - 1, by omega⟩
  simp only [Nat.add_sub_cancel] at hu ⊢
  have hP : (0 : Int) < 1000 ^ j := by positivity
  have hPn : 0 < 1000 ^ j := by positivity
  push_cast at hlo hhi
  rw [pow_succ] at hlo
  rw [pow_succ, pow_succ] at hhi
  have hb0 : 0 ≤ bytes := by nlinarith
  have hbase : (1000 : Int) ≤ bytes := by nlinarith
  have hloop : siLoop (bytes.tdiv baseUnit) baseUnit 0 = (((1000 ^ (j + 1) : Nat) : Int), j) := by
    simp only [baseUnit]
    rw [Int.tdiv_eq_ediv hb0 (by omega)]
    rw [siLoop_spec j (bytes / 1000) 1000 0 (by norm_num) (by nlinarith) (by omega)
      (by rw [pow_succ]; omega)]
    push_cast
    rw [pow_succ]
    refine Prod.ext ?_ ?_
    · simp only
      ring
    · simp
  have hD : 0 < 1000 ^ (j + 1) := by positivity
  have hfd := ofInt64_bounds ((1000 ^ (j + 1) : Nat) : Int) (1000 ^ (j + 1)) (1000 ^ (j + 1))
    (by positivity) (by push_cast; rw [pow_succ]; omega) (le_refl _) (le_refl _)
    (fun h => by
      have := hdiv (by push_cast at h; rw [pow_succ] at h; omega)
      exact ⟨this.1, this.1⟩)
  have hfb := ofInt64_bounds bytes (1000 ^ (j + 1)) B hb0 h63
    (by push_cast; rw [pow_succ]; omega) hB1 hdiv
  have hq := div_bounds (Float64.ofInt64 bytes) (Float64.ofInt64 ((1000 ^ (j + 1) : Nat) : Int))
    (1000 ^ (j + 1)) hD hfb.1 hfd.1 hfb.2.1 hfb.2.2.1
    (le_trans hfb.2.2.2 (Nat.mul_le_mul_right _ hB2)) hfd.2.1
    (le_antisymm hfd.2.2.2 hfd.2.2.1)
  refine ⟨hloop, hq.1, hq.2.1, hq.2.2.1, hq.2.2.2, ?_⟩
  unfold bytesToSI
  rw [if_neg (by simp only [baseUnit]; omega)]
  simp only [hloop, hu]
theorem bytesToSI_case (bytes : Int) (k B : Nat) (unit : Char) (hk : 1 ≤ k) (hk6 : k ≤ 6)
    (hlo : ((1000 ^ k : Nat) : Int) ≤ bytes) (hhi : bytes < ((1000 ^ (k + 1) : Nat) : Int))
    (h63 : bytes < 2 ^ 63) (hu : siUnits.data[k - 1]? = some unit)
    (hB1 : bytes ≤ (B : Int)) (hB2 : B ≤ 1000 * 1000 ^ k)
    (hdiv : 2 ^ 53 ≤ bytes → 2 ^ 10 ∣ 1000 ^ k ∧ 2 ^ 10 ∣ B) :
    ∃ (k : Nat) (unit : Char), 1 ≤ k ∧ k ≤ 6 ∧
      ((1000 ^ k : Nat) : Int) ≤ bytes ∧ bytes < ((1000 ^ (k + 1) : Nat) : Int) ∧
      siLoop (bytes.tdiv baseUnit) baseUnit 0 = (((1000 ^ k : Nat) : Int), k - 1) ∧
      k - 1 < siUnits.length ∧ siUnits.data[k - 1]? = some unit ∧
      100 ≤ ((Float64.ofInt64 bytes).div
        (Float64.ofInt64 ((1000 ^ k : Nat) : Int))).hundredths ∧
      ((Float64.ofInt64 bytes).div
        (Float64.ofInt64 ((1000 ^ k : Nat) : Int))).hundredths ≤ 100000 ∧
      bytesToSI bytes =
        some (toString (((Float64.ofInt64 bytes).div
            (Float64.ofInt64 ((1000 ^ k : Nat) : Int))).hundredths / 100) ++ "." ++
          toString (((Float64.ofInt64 bytes).div
            (Float64.ofInt64 ((1000 ^ k : Nat) : Int))).hundredths % 100 / 10) ++
          toString (((Float64.ofInt64 bytes).div
            (Float64.ofInt64 ((1000 ^ k : Nat) : Int))).hundredths % 10) ++
          " " ++ String.singleton unit ++ "B") := by
  obtain ⟨h1, h2, h3, h4, h5, h6⟩ := bytesToSI_unit bytes k B unit hk hlo hhi h63 hu hB1 hB2 hdiv
  have hh := roundHalfEven_bounds
    (100 * ((Float64.ofInt64 bytes).div (Float64.ofInt64 ((1000 ^ k : Nat) : Int))).num)
    ((Float64.ofInt64 bytes).div (Float64.ofInt64 ((1000 ^ k : Nat) : Int))).den 100 100000 h3
    (by omega) (by omega)
  refine ⟨k, unit, hk, hk6, hlo, hhi, h1, ?_, hu, hh.1, hh.2, ?_⟩
  · have : siUnits.length = 6 := by decide
    omega
  · rw [h6]
    unfold formatFloat2
    rw [if_neg (by omega), h2]
    simp

theorem siLoop_999999 : siLoop ((999999 : Int).tdiv baseUnit) baseUnit 0 = (1000, 0) := by
  decide

set_option maxRecDepth 100000 in
theorem hundredths_999999 :
    ((Float64.ofInt64 999999).div (Float64.ofInt64 1000)).hundredths = 100000 := by
  decide

set_option maxRecDepth 100000 in
theorem bytesToSI_999999 : bytesToSI 999999 = some "1000.00 kB" := by
  unfold bytesToSI
  rw [if_neg (by decide)]
  simp only [siLoop_999999]
  decide

/-- C27 as stated fails: 999999 bytes are in the range of the unit `k`
(`1000 ≤ 999999 < 1000 ^ 2`), the divisor is 1000, and the quotient 999.999
is printed with two decimals as `1000.00`: the printed mantissa does not lie
in `[1, 1000)`. -/
theorem bytesToSI_mantissa_counterexample :
    InInt64 999999 ∧ (1000 : Int) ^ 1 ≤ 999999 ∧ (999999 : Int) < 1000 ^ 2 ∧
    siLoop ((999999 : Int).tdiv baseUnit) baseUnit 0 = (1000, 0) ∧
    ((Float64.ofInt64 999999).div (Float64.ofInt64 1000)).hundredths = 100000 ∧
    bytesToSI 999999 = some "1000.00 kB" :=
  ⟨by decide, by decide, by decide, siLoop_999999, hundredths_999999, bytesToSI_999999⟩

theorem bytesToSI_range (bytes : Int) (h63 : bytes < 2 ^ 63) (hge : 1000 ≤ bytes) :
    ∃ (k : Nat) (unit : Char), 1 ≤ k ∧ k ≤ 6 ∧
      ((1000 ^ k : Nat) : Int) ≤ bytes ∧ bytes < ((1000 ^ (k + 1) : Nat) : Int) ∧
      siLoop (bytes.tdiv baseUnit) baseUnit 0 = (((1000 ^ k : Nat) : Int), k - 1) ∧
      k - 1 < siUnits.length ∧ siUnits.data[k - 1]? = some unit ∧
      100 ≤ ((Float64.ofInt64 bytes).div
        (Float64.ofInt64 ((1000 ^ k : Nat) : Int))).hundredths ∧
      ((Float64.ofInt64 bytes).div
        (Float64.ofInt64 ((1000 ^ k : Nat) : Int))).hundredths ≤ 100000 ∧
      bytesToSI bytes =
        some (toString (((Float64.ofInt64 bytes).div
            (Float64.ofInt64 ((1000 ^ k : Nat) : Int))).hundredths / 100) ++ "." ++
          toString (((Float64.ofInt64 bytes).div
            (Float64.ofInt64 ((1000 ^ k : Nat) : Int))).hundredths % 100 / 10) ++
          toString (((Float64.ofInt64 bytes).div
            (Float64.ofInt64 ((1000 ^ k : Nat) : Int))).hundredths % 10) ++
          " " ++ String.singleton unit ++ "B") := by
  norm_num at h63
  by_cases c1 : bytes < 1000000
  · exact bytesToSI_case bytes 1 1000000 'k' (by decide) (by decide) (by norm_num; omega)
      (by norm_num; omega) (by norm_num; omega) (by decide) (by norm_num; omega)
      (by norm_num) (fun hb => by norm_num at hb; omega)
  by_cases c2 : bytes < 1000000000
  · exact bytesToSI_case bytes 2 1000000000 'M' (by decide) (by decide) (by norm_num; omega)
      (by norm_num; omega) (by norm_num; omega) (by decide) (by norm_num; omega)
      (by norm_num) (fun hb => by norm_num at hb; omega)
  by_cases c3 : bytes < 1000000000000
  · exact bytesToSI_case bytes 3 1000000000000 'G' (by decide) (by decide)
      (by norm_num; omega) (by norm_num; omega) (by norm_num; omega) (by decide)
      (by norm_num; omega) (by norm_num) (fun hb => by norm_num at hb; omega)
  by_cases c4 : bytes < 1000000000000000
  · exact bytesToSI_case bytes 4 1000000000000000 'T' (by decide) (by decide)
      (by norm_num; omega) (by norm_num; omega) (by norm_num; omega) (by decide)
      (by norm_num; omega) (by norm_num) (fun hb => by norm_num at hb; omega)
  by_cases c5 : bytes < 1000000000000000000
  · exact bytesToSI_case bytes 5 1000000000000000000 'P' (by decide) (by decide)
      (by norm_num; omega) (by norm_num; omega) (by norm_num; omega) (by decide)
      (by norm_num; omega) (by norm_num) (fun _ => ⟨by norm_num, by norm_num⟩)
  · exact bytesToSI_case bytes 6 (2 ^ 63) 'E' (by decide) (by decide)
      (by norm_num; omega) (by norm_num; omega) (by norm_num; omega) (by decide)
      (by norm_num; omega) (by norm_num) (fun _ => ⟨by norm_num, by norm_num⟩)

theorem bytesToSI_isSome (bytes : Int) (h : InInt64 bytes) : ∃ s, bytesToSI bytes = some s := by
  by_cases hlt : bytes < 1000
  · refine ⟨toString bytes ++ " bytes", ?_⟩
    unfold bytesToSI
    rw [if_pos (by simpa [baseUnit] using hlt)]
  · obtain ⟨k, unit, -, -, -, -, -, -, -, -, -, hs⟩ := bytesToSI_range bytes h.2 (by omega)
    exact ⟨_, hs⟩

/-- C27, amended: for every 64-bit signed byte count, `bytesToSI` never
indexes the unit table `kMGTPE` out of range and its divisor never overflows:
for bytes < 1000 it returns `<bytes> bytes`, and for bytes ≥ 1000 it selects
the unit with exponent `k` in 1..6 such that `1000^k ≤ bytes < 1000^(k+1)` (the
character at index `k - 1`) and divides by exactly `1000^k`, so the exact
quotient lies in `[1, 1000)`; the mantissa that is printed is the float64
quotient rounded to two decimals, between `1.00` and `1000.00`. -/
theorem bytesToSI_units (bytes : Int) (h : InInt64 bytes) :
    (bytes < 1000 → bytesToSI bytes = some (toString bytes ++ " bytes")) ∧
    (1000 ≤ bytes → ∃ (k : Nat) (unit : Char), 1 ≤ k ∧ k ≤ 6 ∧
      ((1000 ^ k : Nat) : Int) ≤ bytes ∧ bytes < ((1000 ^ (k + 1) : Nat) : Int) ∧
      siLoop (bytes.tdiv baseUnit) baseUnit 0 = (((1000 ^ k : Nat) : Int), k - 1) ∧
      k - 1 < siUnits.length ∧ siUnits.data[k - 1]? = some unit ∧
      100 ≤ ((Float64.ofInt64 bytes).div
        (Float64.ofInt64 ((1000 ^ k : Nat) : Int))).hundredths ∧
      ((Float64.ofInt64 bytes).div
        (Float64.ofInt64 ((1000 ^ k : Nat) : Int))).hundredths ≤ 100000 ∧
      bytesToSI bytes =
        some (toString (((Float64.ofInt64 bytes).div
            (Float64.ofInt64 ((1000 ^ k : Nat) : Int))).hundredths / 100) ++ "." ++
          toString (((Float64.ofInt64 bytes).div
            (Float64.ofInt64 ((1000 ^ k : Nat) : Int))).hundredths % 100 / 10) ++
          toString (((Float64.ofInt64 bytes).div
            (Float64.ofInt64 ((1000 ^ k : Nat) : Int))).hundredths % 10) ++
          " " ++ String.singleton unit ++ "B")) := by
  constructor
  · intro hlt
    unfold bytesToSI
    rw [if_pos (by simpa [baseUnit] using hlt)]
  · intro hge
    exact bytesToSI_range bytes h.2 hge

/-- C27, at concrete inputs: -5 bytes print as `-5 bytes`; 1500 bytes get a
unit whose index is in the table. -/
theorem bytesToSI_units_witness :
    InInt64 (-5) ∧ bytesToSI (-5) = some (toString (-5 : Int) ++ " bytes") ∧
    InInt64 1500 ∧ (∃ (k : Nat) (unit : Char), 1 ≤ k ∧ k ≤ 6 ∧
      siLoop ((1500 : Int).tdiv baseUnit) baseUnit 0 = (((1000 ^ k : Nat) : Int), k - 1) ∧
      siUnits.data[k - 1]? = some unit) :=
  ⟨by decide, (bytesToSI_units (-5) (by decide)).1 (by decide), by decide,
    by
      obtain ⟨k, unit, h1, h2, -, -, h5, -, h7, -⟩ :=
        (bytesToSI_units 1500 (by decide)).2 (by decide)
      exact ⟨k, unit, h1, h2, h5, h7⟩⟩

/-! ## Progress of the per-volume backups -/

theorem bytesLE_total : ∀ a b : List Nat, bytesLE a b = true ∨ bytesLE b a = true
  | [], _ => Or.inl rfl
  | _ :: _, [] => Or.inr rfl
  | a :: as, b :: bs => by
    simp only [bytesLE, Bool.or_eq_true, decide_eq_true_eq, Bool.and_eq_true, beq_iff_eq]
    rcases Nat.lt_trichotomy a b with h | h | h
    · exact Or.inl (Or.inl h)
    · subst h
      rcases bytesLE_total as bs with h | h
      · exact Or.inl (Or.inr ⟨rfl, h⟩)
      · exact Or.inr (Or.inr ⟨rfl, h⟩)
    · exact Or.inr (Or.inl h)

theorem bytesLE_trans : ∀ a b c : List Nat, bytesLE a b = true → bytesLE b c = true →
    bytesLE a c = true
  | [], _, _ => fun _ _ => by simp [bytesLE]
  | _ :: _, [], _ => fun h _ => by simp [bytesLE] at h
  | _ :: _, _ :: _, [] => fun _ h => by simp [bytesLE] at h
  | a :: as, b :: bs, c :: cs => by
    simp only [bytesLE, Bool.or_eq_true, decide_eq_true_eq, Bool.and_eq_true, beq_iff_eq]
    rintro (h1 | ⟨rfl, h1⟩) (h2 | ⟨rfl, h2⟩)
    · exact Or.inl (by omega)
    · exact Or.inl h1
    · exact Or.inl h2
    · exact Or.inr ⟨rfl, bytesLE_trans as bs cs h1 h2⟩

theorem bytesLE_antisymm : ∀ a b : List Nat, bytesLE a b = true → bytesLE b a = true → a = b
  | [], [] => fun _ _ => rfl
  | [], _ :: _ => fun _ h => by simp [bytesLE] at h
  | _ :: _, [] => fun h _ => by simp [bytesLE] at h
  | a :: as, b :: bs => by
    simp only [bytesLE, Bool.or_eq_true, decide_eq_true_eq, Bool.and_eq_true, beq_iff_eq]
    rintro (h1 | ⟨rfl, h1⟩) (h2 | ⟨h2, h3⟩)
    · omega
    · omega
    · omega
    · rw [bytesLE_antisymm as bs h1 h3]

theorem sorted_perm_unique {α : Type} (r : α → α → Prop) :
    ∀ (l1 l2 : List α), l1.Perm l2 → l1.Sorted r → l2.Sorted r →
      (∀ a ∈ l1, ∀ b ∈ l1, r a b → r b a → a = b) → l1 = l2
  | [], l2, hp, _, _, _ => by
    rw [List.nil_perm] at hp
    exact hp.symm
  | a :: t1, [], hp, _, _, _ => by
    have := hp.length_eq
    simp at this
  | a :: t1, b :: t2, hp, h1, h2, anti => by
    have hab : a = b := by
      have ha : a ∈ b :: t2 := hp.subset (List.mem_cons_self _ _)
      have hb : b ∈ a :: t1 := hp.symm.subset (List.mem_cons_self _ _)
      rcases List.mem_cons.mp ha with h | h
      · exact h
      · rcases List.mem_cons.mp hb with h' | h'
        · exact h'.symm
        · exact anti a (List.mem_cons_self _ _) b hb
            (List.rel_of_sorted_cons h1 b h') (List.rel_of_sorted_cons h2 a h)
    subst hab
    rw [sorted_perm_unique r t1 t2 (List.Perm.cons_inv hp) h1.of_cons h2.of_cons
      (fun x hx y hy => anti x (List.mem_cons_of_mem _ hx) y (List.mem_cons_of_mem _ hy))]

theorem lookup_of_nodup : ∀ (l : List (String × String)), (l.map Prod.fst).Nodup →
    ∀ k v, (k, v) ∈ l → l.lookup k = some v
  | [], _, _, _, h => by simp at h
  | (k', v') :: t, hnd, k, v, hmem => by
    simp only [List.map_cons, List.nodup_cons] at hnd
    rcases List.mem_cons.mp hmem with heq | htail
    · cases heq
      simp [List.lookup]
    · have hne : k ≠ k' := by
        rintro rfl
        exact hnd.1 (List.mem_map.mpr ⟨(k, v), htail, rfl⟩)
      have hbeq : (k == k') = false := by simpa using hne
      simp only [List.lookup, hbeq]
      exact lookup_of_nodup t hnd.2 k v htail

theorem collectMessages_none (clock : Clock) : ∀ (items : List PodVolumeBackup)
    (state : List (String × String) × List String),
    (∃ p ∈ items, pvbMessage clock p = none) → collectMessages clock items state = none
  | [], _, h => by simp at h
  | pvb :: rest, (m, keys), h => by
    unfold collectMessages
    cases hm : pvbMessage clock pvb with
    | none => rfl
    | some msg =>
      simp only
      apply collectMessages_none clock rest
      obtain ⟨p, hp, hnone⟩ := h
      rcases List.mem_cons.mp hp with rfl | hp'
      · rw [hm] at hnone
        cases hnone
      · exact ⟨p, hp', hnone⟩

theorem collectMessages_some (clock : Clock) : ∀ (items : List PodVolumeBackup)
    (m : List (String × String)) (keys : List String),
    (∀ p ∈ items, ∃ msg, pvbMessage clock p = some msg) →
    collectMessages clock items (m, keys) =
      some ((items.map (fun p => (pvbKey p, (pvbMessage clock p).getD ""))).reverse ++ m,
        keys ++ items.map pvbKey)
  | [], m, keys, _ => by simp [collectMessages]
  | pvb :: rest, m, keys, h => by
    obtain ⟨msg, hmsg⟩ := h pvb (List.mem_cons_self _ _)
    unfold collectMessages
    simp only [hmsg]
    rw [collectMessages_some clock rest _ _ (fun p hp => h p (List.mem_cons_of_mem _ hp))]
    simp [hmsg]
theorem pvbMessage_isSome (clock : Clock) (p : PodVolumeBackup)
    (h1 : InInt64 p.Status.Progress.BytesDone) (h2 : InInt64 p.Status.Progress.TotalBytes) :
    ∃ msg, pvbMessage clock p = some msg := by
  obtain ⟨a, ha⟩ := bytesToSI_isSome _ h1
  obtain ⟨b, hb⟩ := bytesToSI_isSome _ h2
  unfold pvbMessage
  rw [ha, hb]
  split_ifs <;> exact ⟨_, rfl⟩

theorem keyLE_sorted (items : List PodVolumeBackup) : (items.insertionSort keyLE).Sorted keyLE := by
  haveI : IsTotal PodVolumeBackup keyLE := ⟨fun a b => bytesLE_total _ _⟩
  haveI : IsTrans PodVolumeBackup keyLE := ⟨fun a b c => bytesLE_trans _ _ _⟩
  exact List.sorted_insertionSort keyLE items

theorem keyLE_sort_perm (items items2 : List PodVolumeBackup) (hp : items2.Perm items)
    (hnd : (items.map (fun p => goBytes (pvbKey p))).Nodup) :
    items2.insertionSort keyLE = items.insertionSort keyLE := by
  refine sorted_perm_unique keyLE _ _ ?_ (keyLE_sorted items2) (keyLE_sorted items) ?_
  · exact (List.perm_insertionSort keyLE items2).trans
      (hp.trans (List.perm_insertionSort keyLE items).symm)
  · intro a ha b hb hab hba
    have ha' : a ∈ items := hp.subset ((List.perm_insertionSort keyLE items2).subset ha)
    have hb' : b ∈ items := hp.subset ((List.perm_insertionSort keyLE items2).subset hb)
    exact List.inj_on_of_nodup_map hnd ha' hb' (bytesLE_antisymm _ _ hab hba)

theorem progress_of_some (clock : Clock) (items : List PodVolumeBackup)
    (hnd : (items.map (fun p => goBytes (pvbKey p))).Nodup)
    (hsome : ∀ p ∈ items, ∃ msg, pvbMessage clock p = some msg) :
    ∃ out, getPodVolumeBackupsProgress clock items = some out ∧
      out.map some = (items.insertionSort keyLE).map (pvbMessage clock) := by
  have hkeys : (items.map pvbKey).Nodup := by
    have : (items.map (fun p => goBytes (pvbKey p))) = (items.map pvbKey).map goBytes := by
      rw [List.map_map]
      rfl
    rw [this] at hnd
    exact hnd.of_map goBytes
  have hsort : sortStrings (items.map pvbKey) = (items.insertionSort keyLE).map pvbKey :=
    (List.map_insertionSort (r := keyLE) (s := stringLE) pvbKey items
      (fun a _ b _ => Iff.rfl)).symm
  have hg : getPodVolumeBackupsProgress clock items =
      some (((items.insertionSort keyLE).map pvbKey).map (fun k =>
        (((items.map (fun p => (pvbKey p, (pvbMessage clock p).getD ""))).reverse).lookup
          k).getD "")) := by
    unfold getPodVolumeBackupsProgress
    rw [collectMessages_some clock items [] [] hsome]
    simp only [List.append_nil, List.nil_append, hsort]
  refine ⟨_, hg, ?_⟩
  simp only [List.map_map]
  apply List.map_congr_left
  intro p hp
  have hp' : p ∈ items := (List.perm_insertionSort keyLE items).subset hp
  obtain ⟨msg, hmsg⟩ := hsome p hp'
  have hl := lookup_of_nodup
    (items.map (fun p => (pvbKey p, (pvbMessage clock p).getD ""))).reverse
    (by
      rw [List.map_reverse, List.map_map, List.nodup_reverse]
      exact hkeys)
    (pvbKey p) ((pvbMessage clock p).getD "")
    (List.mem_reverse.mpr (List.mem_map.mpr ⟨p, hp', rfl⟩))
  simp only [Function.comp, hl, hmsg, Option.getD_some]

theorem progress_perm (clock : Clock) (items items2 : List PodVolumeBackup)
    (hp : items2.Perm items) (hnd : (items.map (fun p => goBytes (pvbKey p))).Nodup) :
    getPodVolumeBackupsProgress clock items2 = getPodVolumeBackupsProgress clock items := by
  by_cases hall : ∀ p ∈ items, ∃ msg, pvbMessage clock p = some msg
  · have hall2 : ∀ p ∈ items2, ∃ msg, pvbMessage clock p = some msg :=
      fun p h => hall p (hp.subset h)
    have hnd2 : (items2.map (fun p => goBytes (pvbKey p))).Nodup :=
      (hp.map _).nodup_iff.mpr hnd
    obtain ⟨o1, h1, e1⟩ := progress_of_some clock items hnd hall
    obtain ⟨o2, h2, e2⟩ := progress_of_some clock items2 hnd2 hall2
    rw [keyLE_sort_perm items items2 hp hnd, ← e1] at e2
    rw [h1, h2, List.map_injective_iff.mpr (Option.some_injective _) e2]
  · have hex : ∃ p ∈ items, pvbMessage clock p = none := by
      by_contra hne
      apply hall
      intro p hpm
      cases hm : pvbMessage clock p with
      | none => exact absurd ⟨p, hpm, hm⟩ hne
      | some msg => exact ⟨msg, rfl⟩
    have hex2 : ∃ p ∈ items2, pvbMessage clock p = none := by
      obtain ⟨p, hpm, hm⟩ := hex
      exact ⟨p, hp.symm.subset hpm, hm⟩
    unfold getPodVolumeBackupsProgress
    rw [collectMessages_none clock items _ hex, collectMessages_none clock items2 _ hex2]

/-- C21: for every list of per-volume backup children whose keys
`namespace/name` are distinct, the progress lines of
`getPodVolumeBackupsProgress` are exactly one line per child, the message of
the child, ordered by ascending key (the children in the order of their keys,
compared as Go compares strings), so the output is the same for every
permutation of the input list; and the lines are produced whenever the byte
counts are int64 values. -/
theorem progress_lines_sorted (clock : Clock) (items : List PodVolumeBackup)
    (hnd : (items.map (fun p => goBytes (pvbKey p))).Nodup) :
    (∀ items2 : List PodVolumeBackup, items2.Perm items →
      getPodVolumeBackupsProgress clock items2 = getPodVolumeBackupsProgress clock items) ∧
    (∀ out, getPodVolumeBackupsProgress clock items = some out →
      out.length = items.length ∧
      out.map some = (items.insertionSort keyLE).map (pvbMessage clock) ∧
      (items.insertionSort keyLE).Perm items ∧
      (items.insertionSort keyLE).Sorted keyLE) ∧
    ((∀ p ∈ items, InInt64 p.Status.Progress.BytesDone ∧
        InInt64 p.Status.Progress.TotalBytes) →
      ∃ out, getPodVolumeBackupsProgress clock items = some out) := by
  refine ⟨fun items2 hp => progress_perm clock items items2 hp hnd, ?_, ?_⟩
  · intro out hout
    have hall : ∀ p ∈ items, ∃ msg, pvbMessage clock p = some msg := by
      by_contra hne
      have hex : ∃ p ∈ items, pvbMessage clock p = none := by
        by_contra hne2
        apply hne
        intro p hpm
        cases hm : pvbMessage clock p with
        | none => exact absurd ⟨p, hpm, hm⟩ hne2
        | some msg => exact ⟨msg, rfl⟩
      unfold getPodVolumeBackupsProgress at hout
      rw [collectMessages_none clock items _ hex] at hout
      cases hout
    obtain ⟨o, ho, he⟩ := progress_of_some clock items hnd hall
    rw [ho] at hout
    cases hout
    refine ⟨?_, he, List.perm_insertionSort keyLE items, keyLE_sorted items⟩
    have := congrArg List.length he
    simpa using this
  · intro hint
    obtain ⟨o, ho, -⟩ := progress_of_some clock items hnd
      (fun p hp => pvbMessage_isSome clock p (hint p hp).1 (hint p hp).2)
    exact ⟨o, ho⟩

set_option maxRecDepth 100000 in
theorem samplePvbs_lines :
    getPodVolumeBackupsProgress sampleClock samplePvbs = some
      ["PodVolumeBackup velero/pvb-a: Completed, 999 bytes out of 999 bytes backed up (30s)",
       "PodVolumeBackup velero/pvb-b: Waiting for ongoing volume backup(s) to complete",
       "PodVolumeBackup velero/pvb-c: 512 bytes out of 2.05 kB backed up (90s)"] := by
  decide

set_option maxRecDepth 100000 in
theorem samplePvbs_nodup : (samplePvbs.map (fun p => goBytes (pvbKey p))).Nodup := by
  decide

/-- C21, at a concrete input: three children listed as `pvb-c`, `pvb-a`,
`pvb-b` give the lines of `pvb-a`, `pvb-b`, `pvb-c`, and so does the list in
reverse. -/
theorem progress_lines_sorted_witness :
    (samplePvbs.map (fun p => goBytes (pvbKey p))).Nodup ∧
    getPodVolumeBackupsProgress sampleClock samplePvbs = some
      ["PodVolumeBackup velero/pvb-a: Completed, 999 bytes out of 999 bytes backed up (30s)",
       "PodVolumeBackup velero/pvb-b: Waiting for ongoing volume backup(s) to complete",
       "PodVolumeBackup velero/pvb-c: 512 bytes out of 2.05 kB backed up (90s)"] ∧
    getPodVolumeBackupsProgress sampleClock samplePvbs.reverse
      = getPodVolumeBackupsProgress sampleClock samplePvbs :=
  ⟨samplePvbs_nodup, samplePvbs_lines,
    (progress_lines_sorted sampleClock samplePvbs samplePvbs_nodup).1 samplePvbs.reverse
      (List.reverse_perm _)⟩

/-! ## Direct volume migration: progress resources -/

theorem visited_append (a b : List (String × List String)) :
    DirectVolume.visited (a ++ b) = DirectVolume.visited a ++ DirectVolume.visited b := by
  simp [DirectVolume.visited, List.flatMap_append]

theorem addClaim_update : ∀ (nsMap : List (String × List String)) (pvc : ObjectKey)
    (vols : List String), (nsMap.map Prod.fst).Nodup →
    nsMap.lookup pvc.Namespace = some vols →
    (DirectVolume.visited
      (nsMap.map (fun e => if e.1 == pvc.Namespace then (e.1, vols ++ [pvc.Name]) else e))).Perm
      (DirectVolume.visited nsMap ++ [(pvc.Namespace, pvc.Name)]) ∧
    (nsMap.map (fun e => if e.1 == pvc.Namespace then (e.1, vols ++ [pvc.Name]) else e)).map
      Prod.fst = nsMap.map Prod.fst
  | [], _, _, _, h => by simp at h
  | (k, v) :: rest, pvc, vols, hnd, hl => by
    simp only [List.map_cons, List.nodup_cons] at hnd
    by_cases hk : pvc.Namespace = k
    · subst hk
      simp only [List.lookup, beq_self_eq_true, Option.some.injEq] at hl
      subst hl
      have hrest : rest.map (fun e => if e.1 == pvc.Namespace then (e.1, v ++ [pvc.Name]) else e)
          = rest := by
        conv_rhs => rw [← List.map_id rest]
        apply List.map_congr_left
        intro e he
        have : e.1 ≠ pvc.Namespace := by
          rintro heq
          exact hnd.1 (heq ▸ List.mem_map.mpr ⟨e, he, rfl⟩)
        simp [this]
      simp only [List.map_cons, beq_self_eq_true, if_true, hrest]
      refine ⟨?_, trivial⟩
      simp only [DirectVolume.visited, List.flatMap_cons, List.map_append, List.map_cons,
        List.map_nil, List.append_assoc]
      exact List.Perm.append_left _ List.perm_append_comm
    · have hbeq : (pvc.Namespace == k) = false := by simpa using hk
      have hbeq2 : (k == pvc.Namespace) = false := by simpa using fun h => hk h.symm
      simp only [List.lookup, hbeq] at hl
      obtain ⟨ih1, ih2⟩ := addClaim_update rest pvc vols hnd.2 hl
      simp only [List.map_cons, hbeq2, Bool.false_eq_true, if_false, ih2]
      refine ⟨?_, trivial⟩
      simp only [DirectVolume.visited, List.flatMap_cons, List.append_assoc] at ih1 ⊢
      exact List.Perm.append_left _ ih1

theorem lookup_none_not_mem : ∀ (nsMap : List (String × List String)) (k : String),
    nsMap.lookup k = none → k ∉ nsMap.map Prod.fst
  | [], _, _ => by simp
  | (k', v) :: rest, k, h => by
    by_cases hk : k = k'
    · subst hk
      simp [List.lookup] at h
    · have hbeq : (k == k') = false := by simpa using hk
      simp only [List.lookup, hbeq] at h
      simp only [List.map_cons, List.mem_cons, not_or]
      exact ⟨hk, lookup_none_not_mem rest k h⟩

theorem addClaim_spec (nsMap : List (String × List String)) (pvc : ObjectKey)
    (hnd : (nsMap.map Prod.fst).Nodup) :
    (DirectVolume.visited (addClaim nsMap pvc)).Perm
      (DirectVolume.visited nsMap ++ [(pvc.Namespace, pvc.Name)]) ∧
    ((addClaim nsMap pvc).map Prod.fst).Nodup := by
  unfold addClaim
  cases hl : nsMap.lookup pvc.Namespace with
  | some vols =>
    obtain ⟨h1, h2⟩ := addClaim_update nsMap pvc vols hnd hl
    simp only
    exact ⟨h1, by rw [h2]; exact hnd⟩
  | none =>
    simp only
    constructor
    · rw [visited_append]
      simp [DirectVolume.visited]
    · rw [List.map_append, List.nodup_append]
      refine ⟨hnd, by simp, ?_⟩
      intro a ha hb
      simp only [List.map_cons, List.map_nil, List.mem_singleton] at hb
      subst hb
      exact lookup_none_not_mem nsMap _ hl ha

theorem foldl_addClaim (pvcs : List ObjectKey) : ∀ (nsMap : List (String × List String)),
    (nsMap.map Prod.fst).Nodup →
    (DirectVolume.visited (pvcs.foldl addClaim nsMap)).Perm
      (DirectVolume.visited nsMap ++ pvcs.map (fun pvc => (pvc.Namespace, pvc.Name))) ∧
    ((pvcs.foldl addClaim nsMap).map Prod.fst).Nodup := by
  induction pvcs with
  | nil => intro nsMap hnd; simpa using hnd
  | cons pvc rest ih =>
    intro nsMap hnd
    obtain ⟨h1, h2⟩ := addClaim_spec nsMap pvc hnd
    obtain ⟨h3, h4⟩ := ih (addClaim nsMap pvc) h2
    refine ⟨?_, h4⟩
    simp only [List.foldl_cons, List.map_cons]
    refine h3.trans ?_
    rw [← List.singleton_append (l := List.map _ rest), ← List.append_assoc]
    exact List.Perm.append_right _ h1

theorem getPVCNamespaceMap_visited (t : DirectVolume.Task) :
    (DirectVolume.visited t.getPVCNamespaceMap).Perm (claimPairs t) ∧
    (t.getPVCNamespaceMap.map Prod.fst).Nodup := by
  have h := foldl_addClaim t.Owner.Spec.PersistentVolumeClaims [] (by simp)
  have hdef : t.getPVCNamespaceMap = t.Owner.Spec.PersistentVolumeClaims.foldl addClaim [] := rfl
  rw [hdef]
  simpa [DirectVolume.visited, claimPairs] using h

theorem visited_perm (t : DirectVolume.Task) (entries : List (String × List String))
    (h : entries.Perm t.getPVCNamespaceMap) :
    (DirectVolume.visited entries).Perm (claimPairs t) := by
  refine List.Perm.trans ?_ (getPVCNamespaceMap_visited t).1
  unfold DirectVolume.visited
  exact List.Perm.flatMap_right _ h
theorem collectPodsFrom_spec (ns0 : String) (c : DirectVolume.Cluster) :
    ∀ (pairs : List (String × String)) (t t2 : DirectVolume.Task),
    DirectVolume.collectPodsFrom ns0 c pairs t = (t2, none) →
    t2.Owner.Spec = t.Owner.Spec ∧
    t2.Owner.Status.RunningPods = t.Owner.Status.RunningPods ++
      (pairs.filter (fun x => phaseAt ns0 c x == DirectVolume.PodRunning)).map
        (podProgressAt ns0 c) ∧
    t2.Owner.Status.FailedPods = t.Owner.Status.FailedPods ++
      (pairs.filter (fun x => phaseAt ns0 c x == DirectVolume.PodFailed)).map
        (podProgressAt ns0 c) ∧
    t2.Owner.Status.SuccessfulPods = t.Owner.Status.SuccessfulPods ++
      (pairs.filter (fun x => phaseAt ns0 c x == DirectVolume.PodSucceeded)).map
        (podProgressAt ns0 c)
  | [], t, t2, h => by
    simp only [DirectVolume.collectPodsFrom, Prod.mk.injEq, and_true] at h
    subst h
    simp
  | (ns, vol) :: rest, t, t2, h => by
    unfold DirectVolume.collectPodsFrom at h
    cases hget : c.Get { Name := "directvolumemigration-rsync-transfer-" ++ vol,
                         Namespace := ns0 } with
    | error err =>
      rw [hget] at h
      simp at h
    | ok dvmp =>
      rw [hget] at h
      simp only at h
      have hph : phaseAt ns0 c (ns, vol) = dvmp.Status.PodPhase := by
        simp only [phaseAt, hget]
      have hpp : podProgressAt ns0 c (ns, vol) =
          { ObjectReference :=
              { Namespace := ns, Name := "directvolumemigration-rsync-transfer-" ++ vol }
            LastObservedProgressPercent := dvmp.Status.LastObservedProgressPercent
            LastObservedTransferRate := dvmp.Status.LastObservedTransferRate } := by
        simp only [podProgressAt, hget]
      simp only [List.filter_cons, hph, hpp]
      by_cases h1 : dvmp.Status.PodPhase = DirectVolume.PodRunning
      · have e1 : (DirectVolume.PodRunning == DirectVolume.PodFailed) = false := by decide
        have e2 : (DirectVolume.PodRunning == DirectVolume.PodSucceeded) = false := by decide
        simp only [h1, beq_self_eq_true, if_true] at h
        obtain ⟨i1, i2, i3, i4⟩ := collectPodsFrom_spec ns0 c rest _ t2 h
        simp only [h1, beq_self_eq_true, if_true, e1, e2, Bool.false_eq_true, if_false,
          List.map_cons, i1, i2, i3, i4, List.append_assoc, List.singleton_append, hpp,
          and_self]
      by_cases h2 : dvmp.Status.PodPhase = DirectVolume.PodFailed
      · have e1 : (DirectVolume.PodFailed == DirectVolume.PodRunning) = false := by decide
        have e2 : (DirectVolume.PodFailed == DirectVolume.PodSucceeded) = false := by decide
        simp only [h2, beq_self_eq_true, if_true, e1, Bool.false_eq_true, if_false] at h
        obtain ⟨i1, i2, i3, i4⟩ := collectPodsFrom_spec ns0 c rest _ t2 h
        simp only [h2, beq_self_eq_true, if_true, e1, e2, Bool.false_eq_true, if_false,
          List.map_cons, i1, i2, i3, i4, List.append_assoc, List.singleton_append, hpp,
          and_self]
      by_cases h3 : dvmp.Status.PodPhase = DirectVolume.PodSucceeded
      · have e1 : (DirectVolume.PodSucceeded == DirectVolume.PodRunning) = false := by decide
        have e2 : (DirectVolume.PodSucceeded == DirectVolume.PodFailed) = false := by decide
        simp only [h3, beq_self_eq_true, if_true, e1, e2, Bool.false_eq_true, if_false] at h
        obtain ⟨i1, i2, i3, i4⟩ := collectPodsFrom_spec ns0 c rest _ t2 h
        simp only [h3, beq_self_eq_true, if_true, e1, e2, Bool.false_eq_true, if_false,
          List.map_cons, i1, i2, i3, i4, List.append_assoc, List.singleton_append, hpp,
          and_self]
      · have e1 : (dvmp.Status.PodPhase == DirectVolume.PodRunning) = false := by simpa using h1
        have e2 : (dvmp.Status.PodPhase == DirectVolume.PodFailed) = false := by simpa using h2
        have e3 : (dvmp.Status.PodPhase == DirectVolume.PodSucceeded) = false := by
          simpa using h3
        simp only [e1, e2, e3, Bool.false_eq_true, if_false] at h
        obtain ⟨i1, i2, i3, i4⟩ := collectPodsFrom_spec ns0 c rest _ t2 h
        simp only [e1, e2, e3, Bool.false_eq_true, if_false, i1, i2, i3, i4]
        exact ⟨trivial, trivial, trivial, trivial⟩

theorem collectPodsFrom_ok (ns0 : String) (c : DirectVolume.Cluster) :
    ∀ (pairs : List (String × String)) (t : DirectVolume.Task),
    (∀ x ∈ pairs, ∃ d, c.Get { Name := "directvolumemigration-rsync-transfer-" ++ x.2,
                                Namespace := ns0 } = .ok d) →
    (DirectVolume.collectPodsFrom ns0 c pairs t).2 = none
  | [], _, _ => rfl
  | (ns, vol) :: rest, t, h => by
    obtain ⟨d, hd⟩ := h (ns, vol) (List.mem_cons_self _ _)
    unfold DirectVolume.collectPodsFrom
    simp only at hd
    rw [hd]
    exact collectPodsFrom_ok ns0 c rest _ (fun x hx => h x (List.mem_cons_of_mem _ hx))

theorem filter_three_le (l : List (String × String)) (f : String × String → String) :
    (l.filter (fun x => f x == DirectVolume.PodRunning)).length +
      (l.filter (fun x => f x == DirectVolume.PodFailed)).length +
      (l.filter (fun x => f x == DirectVolume.PodSucceeded)).length ≤ l.length := by
  induction l with
  | nil => simp
  | cons x xs ih =>
    simp only [List.filter_cons, List.length_cons]
    by_cases h1 : f x = DirectVolume.PodRunning
    · simp [h1, DirectVolume.PodRunning, DirectVolume.PodFailed, DirectVolume.PodSucceeded]
      simp only [DirectVolume.PodRunning, DirectVolume.PodFailed,
        DirectVolume.PodSucceeded] at ih
      omega
    by_cases h2 : f x = DirectVolume.PodFailed
    · simp [h2, DirectVolume.PodRunning, DirectVolume.PodFailed, DirectVolume.PodSucceeded]
      simp only [DirectVolume.PodRunning, DirectVolume.PodFailed,
        DirectVolume.PodSucceeded] at ih
      omega
    by_cases h3 : f x = DirectVolume.PodSucceeded
    · simp [h3, DirectVolume.PodRunning, DirectVolume.PodFailed, DirectVolume.PodSucceeded]
      simp only [DirectVolume.PodRunning, DirectVolume.PodFailed,
        DirectVolume.PodSucceeded] at ih
      omega
    · simp [h1, h2, h3]
      omega
theorem haveRsync_eq (ns0 : String) (t : DirectVolume.Task)
    (entries : List (String × List String)) (c : DirectVolume.Cluster) :
    t.haveRsyncClientPodsCompletedOrFailed ns0 entries c =
      (match DirectVolume.collectPodsFrom ns0 c (DirectVolume.visited entries)
          { t with Owner := { t.Owner with
              Status := { RunningPods := [], FailedPods := [], SuccessfulPods := [] } } } with
        | (t, some err) => (t, false, false, some err)
        | (t, none) =>
          (t, t.Owner.Status.SuccessfulPods.length + t.Owner.Status.FailedPods.length
              == t.Owner.Spec.PersistentVolumeClaims.length,
            decide (t.Owner.Status.FailedPods.length > 0), none)) := rfl

/-- C22: for every direct volume migration, every order in which the
namespace map is ranged over and every state of the progress resources, when
`haveRsyncClientPodsCompletedOrFailed` returns no error (as it does when every
progress resource can be read), it reports completed if and only if the number
of succeeded plus the number of failed client pods equals the number of PVCs
in the migration spec, and reports failure if and only if at least one client
pod failed; the running, failed and succeeded lists hold the visited PVCs
whose pod is in that phase, the visited PVCs are the PVCs of the spec, and so
each PVC is counted in at most one of the three. -/
theorem rsync_pods_completed_or_failed (ns0 : String) (t : DirectVolume.Task)
    (entries : List (String × List String)) (c : DirectVolume.Cluster)
    (hentries : entries.Perm t.getPVCNamespaceMap) :
    ((∀ pvc ∈ t.Owner.Spec.PersistentVolumeClaims,
        ∃ d, c.Get { Name := "directvolumemigration-rsync-transfer-" ++ pvc.Name,
                     Namespace := ns0 } = .ok d) →
      (t.haveRsyncClientPodsCompletedOrFailed ns0 entries c).2.2.2 = none) ∧
    ((t.haveRsyncClientPodsCompletedOrFailed ns0 entries c).2.2.2 = none →
      ((t.haveRsyncClientPodsCompletedOrFailed ns0 entries c).2.1 = true ↔
        (t.haveRsyncClientPodsCompletedOrFailed ns0 entries c).1.Owner.Status.SuccessfulPods.length
          + (t.haveRsyncClientPodsCompletedOrFailed ns0 entries c).1.Owner.Status.FailedPods.length
          = t.Owner.Spec.PersistentVolumeClaims.length) ∧
      ((t.haveRsyncClientPodsCompletedOrFailed ns0 entries c).2.2.1 = true ↔
        ∃ p, p ∈ (t.haveRsyncClientPodsCompletedOrFailed ns0 entries c).1.Owner.Status.FailedPods) ∧
      (t.haveRsyncClientPodsCompletedOrFailed ns0 entries c).1.Owner.Status.RunningPods =
        ((DirectVolume.visited entries).filter
          (fun x => phaseAt ns0 c x == DirectVolume.PodRunning)).map (podProgressAt ns0 c) ∧
      (t.haveRsyncClientPodsCompletedOrFailed ns0 entries c).1.Owner.Status.FailedPods =
        ((DirectVolume.visited entries).filter
          (fun x => phaseAt ns0 c x == DirectVolume.PodFailed)).map (podProgressAt ns0 c) ∧
      (t.haveRsyncClientPodsCompletedOrFailed ns0 entries c).1.Owner.Status.SuccessfulPods =
        ((DirectVolume.visited entries).filter
          (fun x => phaseAt ns0 c x == DirectVolume.PodSucceeded)).map (podProgressAt ns0 c) ∧
      (DirectVolume.visited entries).Perm (claimPairs t) ∧
      (t.haveRsyncClientPodsCompletedOrFailed ns0 entries c).1.Owner.Status.RunningPods.length
        + (t.haveRsyncClientPodsCompletedOrFailed ns0 entries c).1.Owner.Status.FailedPods.length
        + (t.haveRsyncClientPodsCompletedOrFailed ns0 entries c).1.Owner.Status.SuccessfulPods.length
        ≤ t.Owner.Spec.PersistentVolumeClaims.length) := by
  have hperm := visited_perm t entries hentries
  rw [haveRsync_eq]
  constructor
  · intro hall
    have hok := collectPodsFrom_ok ns0 c (DirectVolume.visited entries)
      { t with Owner := { t.Owner with
          Status := { RunningPods := [], FailedPods := [], SuccessfulPods := [] } } }
      (by
        intro x hx
        have hx' := hperm.subset hx
        obtain ⟨pvc, hpvc, rfl⟩ := List.mem_map.mp hx'
        exact hall pvc hpvc)
    generalize DirectVolume.collectPodsFrom ns0 c (DirectVolume.visited entries) _ = r at hok ⊢
    obtain ⟨t2, e⟩ := r
    simp only at hok
    subst hok
    rfl
  · generalize hr : DirectVolume.collectPodsFrom ns0 c (DirectVolume.visited entries) _ = r
    obtain ⟨t2, e⟩ := r
    cases e with
    | some err => intro h; simp at h
    | none =>
      intro _
      obtain ⟨i1, i2, i3, i4⟩ := collectPodsFrom_spec ns0 c _ _ t2 hr
      simp only [List.nil_append] at i1 i2 i3 i4
      have hlen : (DirectVolume.visited entries).length
          = t.Owner.Spec.PersistentVolumeClaims.length := by
        rw [hperm.length_eq, claimPairs, List.length_map]
      have h3 := filter_three_le (DirectVolume.visited entries) (phaseAt ns0 c)
      simp only [i1]
      refine ⟨by simp, ?_, i2, i3, i4, hperm, ?_⟩
      · simp only [decide_eq_true_eq]
        constructor
        · intro hpos
          exact List.exists_mem_of_length_pos hpos
        · rintro ⟨p, hp⟩
          exact List.length_pos_of_mem hp
      · rw [i2, i3, i4]
        simp only [List.length_map]
        omega

/-- C22, at a concrete input: with the pod of `data` succeeded and the pod of
`logs` failed, the migration of the two claims is reported completed and
failed. -/
theorem rsync_pods_completed_or_failed_witness :
    sampleTwoClaimTask.getPVCNamespaceMap.Perm sampleTwoClaimTask.getPVCNamespaceMap ∧
    (sampleTwoClaimTask.haveRsyncClientPodsCompletedOrFailed "openshift-migration"
      sampleTwoClaimTask.getPVCNamespaceMap sampleProgressCluster).2.2.2 = none ∧
    (sampleTwoClaimTask.haveRsyncClientPodsCompletedOrFailed "openshift-migration"
      sampleTwoClaimTask.getPVCNamespaceMap sampleProgressCluster).2.1 = true ∧
    (sampleTwoClaimTask.haveRsyncClientPodsCompletedOrFailed "openshift-migration"
      sampleTwoClaimTask.getPVCNamespaceMap sampleProgressCluster).2.2.1 = true ∧
    (sampleTwoClaimTask.haveRsyncClientPodsCompletedOrFailed "openshift-migration"
        sampleTwoClaimTask.getPVCNamespaceMap
        sampleProgressCluster).1.Owner.Status.RunningPods.length
      + (sampleTwoClaimTask.haveRsyncClientPodsCompletedOrFailed "openshift-migration"
        sampleTwoClaimTask.getPVCNamespaceMap
        sampleProgressCluster).1.Owner.Status.FailedPods.length
      + (sampleTwoClaimTask.haveRsyncClientPodsCompletedOrFailed "openshift-migration"
        sampleTwoClaimTask.getPVCNamespaceMap
        sampleProgressCluster).1.Owner.Status.SuccessfulPods.length
      ≤ sampleTwoClaimTask.Owner.Spec.PersistentVolumeClaims.length :=
  have h := rsync_pods_completed_or_failed "openshift-migration" sampleTwoClaimTask
    sampleTwoClaimTask.getPVCNamespaceMap sampleProgressCluster (List.Perm.refl _)
  ⟨List.Perm.refl _, by decide, by decide, by decide, (h.2 (by decide)).2.2.2.2.2.2⟩
theorem any_key_iff (c : DirectVolume.Cluster) (key : ObjectKey) :
    c.Progress.any (fun o => o.key == key) = true ↔ key ∈ progressKeys c := by
  rw [List.any_eq_true, progressKeys, List.mem_map]
  constructor
  · rintro ⟨o, ho, hk⟩
    exact ⟨o, ho, by simpa using hk⟩
  · rintro ⟨o, ho, hk⟩
    exact ⟨o, ho, by simpa using hk⟩

theorem create_spec (c : DirectVolume.Cluster) (obj : DirectVolume.DirectVolumeMigrationProgress)
    (hf : ∀ k, c.Fault k = none) :
    (obj.key ∈ progressKeys c → c.Create obj = .error .AlreadyExists) ∧
    (obj.key ∉ progressKeys c →
      c.Create obj = .ok { c with Progress := c.Progress ++ [obj] }) := by
  unfold DirectVolume.Cluster.Create
  simp only [hf]
  constructor
  · intro h
    rw [if_pos ((any_key_iff c _).mpr h)]
  · intro h
    rw [if_neg (fun h2 => h ((any_key_iff c _).mp h2))]

theorem createProgressFrom_cons (ns0 : String) (t : DirectVolume.Task) (ns vol : String)
    (rest : List (String × String)) (c : DirectVolume.Cluster) :
    DirectVolume.createProgressFrom ns0 t ((ns, vol) :: rest) c =
      (match c.Create (progressResource ns0 t ns vol) with
        | .error .AlreadyExists => DirectVolume.createProgressFrom ns0 t rest c
        | .error err => (c, some err)
        | .ok c => DirectVolume.createProgressFrom ns0 t rest c) := rfl

theorem createProgressFrom_spec (ns0 : String) (t : DirectVolume.Task) :
    ∀ (pairs : List (String × String)) (c : DirectVolume.Cluster), (∀ k, c.Fault k = none) →
    (DirectVolume.createProgressFrom ns0 t pairs c).2 = none ∧
    (∀ key, key ∈ progressKeys (DirectVolume.createProgressFrom ns0 t pairs c).1 ↔
      key ∈ progressKeys c ∨ ∃ x ∈ pairs, key = transferKey ns0 x.2) ∧
    ((progressKeys c).Nodup →
      (progressKeys (DirectVolume.createProgressFrom ns0 t pairs c).1).Nodup)
  | [], c, _ => by
    refine ⟨rfl, fun key => ?_, fun h => h⟩
    simp [DirectVolume.createProgressFrom]
  | (ns, vol) :: rest, c, hf => by
    rw [createProgressFrom_cons]
    have hkey : (progressResource ns0 t ns vol).key = transferKey ns0 vol := rfl
    obtain ⟨hc1, hc2⟩ := create_spec c (progressResource ns0 t ns vol) hf
    rw [hkey] at hc1 hc2
    by_cases hmem : transferKey ns0 vol ∈ progressKeys c
    · rw [hc1 hmem]
      simp only
      obtain ⟨i1, i2, i3⟩ := createProgressFrom_spec ns0 t rest c hf
      refine ⟨i1, ?_, i3⟩
      intro key
      rw [i2 key]
      constructor
      · rintro (h | ⟨x, hx, rfl⟩)
        · exact Or.inl h
        · exact Or.inr ⟨x, List.mem_cons_of_mem _ hx, rfl⟩
      · rintro (h | ⟨x, hx, rfl⟩)
        · exact Or.inl h
        · rcases List.mem_cons.mp hx with rfl | hx'
          · exact Or.inl hmem
          · exact Or.inr ⟨x, hx', rfl⟩
    · rw [hc2 hmem]
      simp only
      obtain ⟨i1, i2, i3⟩ := createProgressFrom_spec ns0 t rest
        { c with Progress := c.Progress ++ [progressResource ns0 t ns vol] } hf
      have hkeys : progressKeys
          { c with Progress := c.Progress ++ [progressResource ns0 t ns vol] }
          = progressKeys c ++ [transferKey ns0 vol] := by
        simp [progressKeys, hkey]
      rw [hkeys] at i2 i3
      refine ⟨i1, ?_, ?_⟩
      · intro key
        rw [i2 key, List.mem_append, List.mem_singleton]
        constructor
        · rintro ((h | rfl) | ⟨x, hx, rfl⟩)
          · exact Or.inl h
          · exact Or.inr ⟨(ns, vol), List.mem_cons_self _ _, rfl⟩
          · exact Or.inr ⟨x, List.mem_cons_of_mem _ hx, rfl⟩
        · rintro (h | ⟨x, hx, rfl⟩)
          · exact Or.inl (Or.inl h)
          · rcases List.mem_cons.mp hx with rfl | hx'
            · exact Or.inl (Or.inr rfl)
            · exact Or.inr ⟨x, hx', rfl⟩
      · intro hnd
        apply i3
        rw [List.nodup_append]
        refine ⟨hnd, List.nodup_singleton _, ?_⟩
        intro a ha hb
        rw [List.mem_singleton] at hb
        subst hb
        exact hmem ha

theorem transfer_name_inj (a b : String)
    (h : "directvolumemigration-rsync-transfer-" ++ a
      = "directvolumemigration-rsync-transfer-" ++ b) : a = b := by
  have := congrArg String.data h
  simp only [String.data_append, List.append_cancel_left_eq] at this
  exact String.ext this
/-- C23: `createPVProgressCR` issues one `Create` per PVC, with the pod of
that PVC as `PodRef`, but names the resource after the PVC name alone, in one
fixed namespace.  The claims `app1/data` and `app2/data` differ in namespace,
yet both get the key
`openshift-migration/directvolumemigration-rsync-transfer-data`: the second
`Create` finds the resource of the first and is passed over, no error is
returned, and the cluster holds one progress resource for two PVCs.  It refers
to the pod of whichever namespace the map yields first, no resource refers to
the other pod, and `haveRsyncClientPodsCompletedOrFailed` reads the one
resource for both pods: once it reports `Succeeded`, both pods are listed as
successful and the transfer counts as completed. -/
theorem progress_resource_shared_across_namespaces :
    sampleDvmTask.Owner.Spec.PersistentVolumeClaims.Nodup ∧
    sampleDvmTask.Owner.Spec.PersistentVolumeClaims.length = 2 ∧
    (sampleDvmTask.createPVProgressCR "openshift-migration"
      sampleDvmTask.getPVCNamespaceMap {}).2 = none ∧
    (sampleDvmTask.createPVProgressCR "openshift-migration"
        sampleDvmTask.getPVCNamespaceMap {}).1.Progress
      = [progressResource "openshift-migration" sampleDvmTask "app1" "data"] ∧
    progressKeys (sampleDvmTask.createPVProgressCR "openshift-migration"
        sampleDvmTask.getPVCNamespaceMap {}).1
      = [{ Namespace := "openshift-migration",
           Name := "directvolumemigration-rsync-transfer-data" }] ∧
    (progressKeys (sampleDvmTask.createPVProgressCR "openshift-migration"
        sampleDvmTask.getPVCNamespaceMap {}).1).dedup.length
      ≠ sampleDvmTask.Owner.Spec.PersistentVolumeClaims.dedup.length ∧
    (∀ o ∈ (sampleDvmTask.createPVProgressCR "openshift-migration"
        sampleDvmTask.getPVCNamespaceMap {}).1.Progress,
      o.Spec.PodRef ≠ some { Namespace := "app2",
                             Name := "directvolumemigration-rsync-transfer-data" }) ∧
    (sampleDvmTask.createPVProgressCR "openshift-migration"
        sampleDvmTask.getPVCNamespaceMap.reverse {}).1.Progress
      = [progressResource "openshift-migration" sampleDvmTask "app2" "data"] ∧
    (sampleDvmTask.haveRsyncClientPodsCompletedOrFailed "openshift-migration"
        sampleDvmTask.getPVCNamespaceMap
        (reportSucceeded (sampleDvmTask.createPVProgressCR "openshift-migration"
          sampleDvmTask.getPVCNamespaceMap {}).1)).1.Owner.Status.SuccessfulPods.map
        (fun p => p.ObjectReference)
      = [{ Namespace := "app1", Name := "directvolumemigration-rsync-transfer-data" },
         { Namespace := "app2", Name := "directvolumemigration-rsync-transfer-data" }] ∧
    (sampleDvmTask.haveRsyncClientPodsCompletedOrFailed "openshift-migration"
        sampleDvmTask.getPVCNamespaceMap
        (reportSucceeded (sampleDvmTask.createPVProgressCR "openshift-migration"
          sampleDvmTask.getPVCNamespaceMap {}).1)).2 = (true, false, none) := by
  decide

/-- The keys that `createPVProgressCR` gives the progress resources: for
every list of PVCs, every order in which the namespace map is ranged over and
a host cluster without progress resources on which no request fails, it
returns no error and leaves exactly the progress resources with the keys
`(OpenshiftMigrationNamespace, directvolumemigration-rsync-transfer-<name>)`
of the PVC names, each once; two PVCs get different keys if and only if they
differ in name. -/
theorem createPVProgressCR_keys (ns0 : String) (t : DirectVolume.Task)
    (entries : List (String × List String)) (c : DirectVolume.Cluster)
    (hentries : entries.Perm t.getPVCNamespaceMap) (hf : ∀ k, c.Fault k = none)
    (hempty : c.Progress = []) :
    (t.createPVProgressCR ns0 entries c).2 = none ∧
    (∀ key, key ∈ progressKeys (t.createPVProgressCR ns0 entries c).1 ↔
      ∃ pvc ∈ t.Owner.Spec.PersistentVolumeClaims, key = transferKey ns0 pvc.Name) ∧
    (progressKeys (t.createPVProgressCR ns0 entries c).1).Nodup ∧
    (progressKeys (t.createPVProgressCR ns0 entries c).1).length
      = (t.Owner.Spec.PersistentVolumeClaims.map (fun pvc => pvc.Name)).dedup.length ∧
    (∀ p q : ObjectKey, transferKey ns0 p.Name = transferKey ns0 q.Name ↔ p.Name = q.Name) := by
  have hperm := visited_perm t entries hentries
  obtain ⟨i1, i2, i3⟩ := createProgressFrom_spec ns0 t (DirectVolume.visited entries) c hf
  have hkeys0 : progressKeys c = [] := by simp [progressKeys, hempty]
  rw [hkeys0] at i2 i3
  have hmem : ∀ key, key ∈ progressKeys (t.createPVProgressCR ns0 entries c).1 ↔
      ∃ pvc ∈ t.Owner.Spec.PersistentVolumeClaims, key = transferKey ns0 pvc.Name := by
    intro key
    show key ∈ progressKeys (DirectVolume.createProgressFrom ns0 t _ c).1 ↔ _
    rw [i2 key]
    simp only [List.not_mem_nil, false_or]
    constructor
    · rintro ⟨x, hx, rfl⟩
      obtain ⟨pvc, hpvc, rfl⟩ := List.mem_map.mp (hperm.subset hx)
      exact ⟨pvc, hpvc, rfl⟩
    · rintro ⟨pvc, hpvc, rfl⟩
      exact ⟨(pvc.Namespace, pvc.Name),
        hperm.symm.subset (List.mem_map.mpr ⟨pvc, hpvc, rfl⟩), rfl⟩
  have hinj : ∀ a b : String, transferKey ns0 a = transferKey ns0 b → a = b := by
    intro a b h
    have := congrArg ObjectKey.Name h
    exact transfer_name_inj a b this
  have hnd : (progressKeys (t.createPVProgressCR ns0 entries c).1).Nodup := i3 List.nodup_nil
  refine ⟨i1, hmem, hnd, ?_, fun p q => ⟨hinj _ _, fun h => by rw [h]⟩⟩
  have hnd2 : ((t.Owner.Spec.PersistentVolumeClaims.map (fun pvc => pvc.Name)).dedup.map
      (transferKey ns0)).Nodup :=
    (List.nodup_dedup _).map (fun a b h => hinj a b h)
  have hp : (progressKeys (t.createPVProgressCR ns0 entries c).1).Perm
      ((t.Owner.Spec.PersistentVolumeClaims.map (fun pvc => pvc.Name)).dedup.map
        (transferKey ns0)) := by
    refine (List.perm_ext_iff_of_nodup hnd hnd2).mpr ?_
    intro key
    rw [hmem key]
    simp only [List.mem_map, List.mem_dedup]
    constructor
    · rintro ⟨pvc, hpvc, rfl⟩
      exact ⟨pvc.Name, ⟨pvc, hpvc, rfl⟩, rfl⟩
    · rintro ⟨name, ⟨pvc, hpvc, rfl⟩, rfl⟩
      exact ⟨pvc, hpvc, rfl⟩
  rw [hp.length_eq, List.length_map]

/-- The claims `app1/data` and `app1/logs`, which differ in name, get two
progress resources. -/
theorem createPVProgressCR_keys_instance :
    sampleTwoClaimTask.getPVCNamespaceMap.Perm sampleTwoClaimTask.getPVCNamespaceMap ∧
    (sampleTwoClaimTask.createPVProgressCR "openshift-migration"
      sampleTwoClaimTask.getPVCNamespaceMap {}).2 = none ∧
    (progressKeys (sampleTwoClaimTask.createPVProgressCR "openshift-migration"
      sampleTwoClaimTask.getPVCNamespaceMap {}).1).length = 2 :=
  have h := createPVProgressCR_keys "openshift-migration" sampleTwoClaimTask
    sampleTwoClaimTask.getPVCNamespaceMap {} (List.Perm.refl _) (fun _ => rfl) rfl
  ⟨List.Perm.refl _, h.1, h.2.2.2.1.trans (by decide)⟩

/-- C24: the progress resources are not deleted although the migration asks
for it.  `deleteRsyncResources` leaves the progress resources alone when the
migration does not ask for their deletion or an earlier step fails; but for
the migration of `app1/data` and `app2/data` that asks for it, with every
earlier step succeeding, it returns no error and the progress resource that
`createPVProgressCR` created under the namespace `openshift-migration` is
still there: `deleteProgressReportingCRs` addresses it under the namespaces
`app1` and `app2` of the claims. -/
theorem delete_progress_wrong_namespace :
    (∀ (t : DirectVolume.Task) (steps : DirectVolume.TeardownSteps)
        (entries : List (String × List String)) (c : DirectVolume.Cluster),
      (t.Owner.Spec.DeleteProgressReportingCRs = false ∨ steps.getSourceClient ≠ none ∨
        steps.getDestinationClient ≠ none ∨ steps.findAndDeleteResourcesSrc ≠ none ∨
        steps.findAndDeleteResourcesDest ≠ none ∨ steps.deleteRsyncPassword ≠ none) →
      (t.deleteRsyncResources steps entries c).1.Progress = c.Progress) ∧
    sampleDvmTask.Owner.Spec.DeleteProgressReportingCRs = true ∧
    progressKeys (sampleDvmTask.createPVProgressCR "openshift-migration"
        sampleDvmTask.getPVCNamespaceMap {}).1
      = [{ Namespace := "openshift-migration",
           Name := "directvolumemigration-rsync-transfer-data" }] ∧
    (sampleDvmTask.deleteRsyncResources {} sampleDvmTask.getPVCNamespaceMap
      (sampleDvmTask.createPVProgressCR "openshift-migration"
        sampleDvmTask.getPVCNamespaceMap {}).1).2 = none ∧
    progressKeys (sampleDvmTask.deleteRsyncResources {} sampleDvmTask.getPVCNamespaceMap
        (sampleDvmTask.createPVProgressCR "openshift-migration"
          sampleDvmTask.getPVCNamespaceMap {}).1).1
      = [{ Namespace := "openshift-migration",
           Name := "directvolumemigration-rsync-transfer-data" }] := by
  refine ⟨?_, by decide, by decide, by decide, by decide⟩
  intro t steps entries c h
  unfold DirectVolume.Task.deleteRsyncResources
  cases h1 : steps.getSourceClient with
  | some e => rfl
  | none =>
    cases h2 : steps.getDestinationClient with
    | some e => rfl
    | none =>
      cases h3 : steps.findAndDeleteResourcesSrc with
      | some e => rfl
      | none =>
        cases h4 : steps.findAndDeleteResourcesDest with
        | some e => rfl
        | none =>
          cases h5 : steps.deleteRsyncPassword with
          | some e => rfl
          | none =>
            have hflag : t.Owner.Spec.DeleteProgressReportingCRs = false := by
              rcases h with h | h | h | h | h | h
              · exact h
              · exact absurd h1 h
              · exact absurd h2 h
              · exact absurd h3 h
              · exact absurd h4 h
              · exact absurd h5 h
            simp [hflag]

/-! ## Progress controller -/

theorem dropWhile_indent (p : Char → Bool) : ∀ (ws rest : List Char), ws.all p = true →
    (∀ c ∈ rest.head?, p c = false) → (ws ++ rest).dropWhile p = rest
  | [], rest, _, h => by
    cases rest with
    | nil => rfl
    | cons c cs =>
      have := h c rfl
      simp [List.dropWhile, this]
  | w :: ws, rest, hw, h => by
    simp only [List.all_cons, Bool.and_eq_true] at hw
    simp only [List.cons_append, List.dropWhile, hw.1]
    exact dropWhile_indent p ws rest hw.2 h

theorem takeWhile_until (a : Char) : ∀ (l tail : List Char), a ∉ l →
    (l ++ a :: tail).takeWhile (fun c => c != a) = l ∧
    (l ++ a :: tail).dropWhile (fun c => c != a) = a :: tail
  | [], tail, _ => by simp [List.takeWhile, List.dropWhile]
  | x :: xs, tail, h => by
    simp only [List.mem_cons, not_or] at h
    have hx : (x != a) = true := by simpa using fun e => h.1 e.symm
    obtain ⟨i1, i2⟩ := takeWhile_until a xs tail h.2
    simp only [List.cons_append, List.takeWhile, List.dropWhile, hx, List.append_eq, i1, i2,
      and_self]

theorem progressRecord_wellFormed (l : LogLine) (h : l.wellFormed) :
    ProgressController.progressRecord l.text = some l.kept := by
  obtain ⟨h1, h2, h3, h4, -⟩ := h
  have hne : l.record ≠ [] := by
    intro he
    rw [he] at h2
    exact absurd h2 (by decide)
  have hdrop : l.text.dropWhile ProgressController.isSpace
      = l.record ++ ')' :: l.next1 :: l.next2 :: l.rest := by
    unfold LogLine.text
    rw [List.append_assoc]
    refine dropWhile_indent _ _ _ h1 ?_
    intro c hc
    cases hr : l.record with
    | nil => exact absurd hr hne
    | cons r rs =>
      rw [hr] at hc h3
      simp only [List.cons_append, List.head?_cons, Option.mem_def, Option.some.injEq] at hc
      subst hc
      exact h3 r rfl
  obtain ⟨i1, i2⟩ := takeWhile_until ')' l.record (l.next1 :: l.next2 :: l.rest) h4
  unfold ProgressController.progressRecord
  rw [hdrop, i1, i2]
  simp only [h2, if_true]
  rfl

theorem parseLogs_lines (lines : List (List Char)) (hne : lines ≠ [])
    (hnl : ∀ l ∈ lines, '\n' ∉ l) :
    ProgressController.parseLogs (.ok (joinLines lines))
      = .ok (joinLines (lines.filterMap ProgressController.progressRecord)) := by
  unfold ProgressController.parseLogs joinLines
  simp only
  rw [List.splitOn_intercalate _ '\n' hnl hne]

set_option maxRecDepth 100000 in
theorem testLog_records :
    (testLogLines.map String.data).filterMap ProgressController.progressRecord
      = testLogRecords.map String.data := by
  decide

set_option maxRecDepth 100000 in
theorem testLog_lines : ∀ l ∈ testLogLines.map String.data, '\n' ∉ l := by
  decide

/-- C25: for every rsync log whose lines each hold one progress record of the
form `<bytes> <pct>% <rate>/s <elapsed> (xfr#N, to-chk=R/T)` followed by
further text, `parseLogs` returns without error the records in log order, one
per line, joined by newlines, each stripped of the leading white space and cut
to the prefix up to the closing parenthesis plus the two characters that
follow it; an error of the read is returned; and the log of the test, an empty
line and twenty lines with a record, gives the twenty lines that the test
expects. -/
theorem parseLogs_records (lines : List LogLine) (hne : lines ≠ [])
    (hwf : ∀ l ∈ lines, l.wellFormed) :
    ProgressController.parseLogs (.ok (joinLines (lines.map LogLine.text)))
      = .ok (joinLines (lines.map LogLine.kept)) ∧
    (lines.map LogLine.kept).length = lines.length ∧
    (∀ l ∈ lines, l.kept = l.record ++ [')', l.next1, l.next2] ∧
      l.text.dropWhile ProgressController.isSpace = l.kept ++ l.rest) ∧
    (∀ err : String, ProgressController.parseLogs (.error err) = .error err) ∧
    testLogLines.length = 21 ∧ testLogRecords.length = 20 ∧
    ProgressController.parseLogs (.ok (joinLines (testLogLines.map String.data)))
      = .ok (joinLines (testLogRecords.map String.data)) := by
  have hrec : (lines.map LogLine.text).filterMap ProgressController.progressRecord
      = lines.map LogLine.kept := by
    rw [List.filterMap_map]
    rw [List.filterMap_congr (f := ProgressController.progressRecord ∘ LogLine.text)
      (g := fun l => some l.kept)
      (fun l hl => progressRecord_wellFormed l (hwf l hl))]
    clear hwf hne
    induction lines with
    | nil => rfl
    | cons x xs ih =>
      rw [List.filterMap_cons, List.map_cons]
      simp only
      rw [ih]
  refine ⟨?_, by simp, ?_, fun _ => rfl, by decide, by decide, ?_⟩
  · rw [parseLogs_lines _ (by simpa using hne) ?_, hrec]
    intro t ht
    obtain ⟨l, hl, rfl⟩ := List.mem_map.mp ht
    exact (hwf l hl).2.2.2.2
  · intro l hl
    refine ⟨rfl, ?_⟩
    obtain ⟨h1, h2, h3, -, -⟩ := hwf l hl
    have hne2 : l.record ≠ [] := by
      intro he
      rw [he] at h2
      exact absurd h2 (by decide)
    unfold LogLine.text LogLine.kept
    rw [List.append_assoc]
    rw [dropWhile_indent _ _ _ h1 ?_]
    · simp
    · intro c hc
      cases hr : l.record with
      | nil => exact absurd hr hne2
      | cons r rs =>
        rw [hr] at hc h3
        simp only [List.cons_append, List.head?_cons, Option.mem_def, Option.some.injEq] at hc
        subst hc
        exact h3 r rfl
  · rw [parseLogs_lines _ (by decide) testLog_lines, testLog_records]

set_option maxRecDepth 100000 in
theorem sampleLogLine_wellFormed : sampleLogLine.wellFormed := by
  decide

/-- C25, at a concrete input: a log of two lines of the test. -/
theorem parseLogs_records_witness :
    [sampleLogLine, sampleLogLine] ≠ [] ∧
    (∀ l ∈ [sampleLogLine, sampleLogLine], l.wellFormed) ∧
    ProgressController.parseLogs
        (.ok (joinLines ([sampleLogLine, sampleLogLine].map LogLine.text)))
      = .ok (joinLines ([sampleLogLine, sampleLogLine].map LogLine.kept)) ∧
    String.mk sampleLogLine.kept
      = "1.65G  94%   40.95MB/s    0:00:38 (xfr#139, to-chk=23/163)20" :=
  have hwf : ∀ l ∈ [sampleLogLine, sampleLogLine], l.wellFormed := by
    intro l hl
    simp only [List.mem_cons, List.mem_singleton, List.not_mem_nil, or_false, or_self] at hl
    rw [hl]
    exact sampleLogLine_wellFormed
  ⟨by simp, hwf,
    (parseLogs_records [sampleLogLine, sampleLogLine] (by simp) hwf).1, by decide⟩

/-! ## Backup failure: the following ticks -/

theorem dispatch_failedSteps (k : Consts) (settings : Settings) (ops : Ops) (t : Task) :
    (t.Phase = EnsureStagePodsDeleted →
      Task.dispatch k settings ops t = t.stepErr ops.ensureStagePodsDeleted none) ∧
    (t.Phase = EnsureAnnotationsDeleted →
      Task.dispatch k settings ops t =
        if !t.keepAnnotations then t.stepErr ops.deleteAnnotations none else (t.next, none)) ∧
    (t.Phase = DeleteMigrated →
      Task.dispatch k settings ops t = t.stepErr ops.deleteMigrated none) ∧
    (t.Phase = EnsureMigratedDeleted →
      Task.dispatch k settings ops t = t.stepBool ops.ensureMigratedResourcesDeleted PollReQ) ∧
    (t.Phase = UnQuiesceApplications →
      Task.dispatch k settings ops t = t.stepErr ops.unQuiesceApplications none) ∧
    (t.Phase = InitialBackupFailed →
      Task.dispatch k settings ops t = (({ t with Requeue := NoReQ } : Task).next, none)) := by
  refine ⟨?_, ?_, ?_, ?_, ?_, ?_⟩ <;> intro h <;> unfold Task.dispatch <;> rw [h] <;>
  simp [Completed, MigrationFailed, Created, Started, Prepare, EnsureCloudSecretPropagated,
    PreBackupHooks,
    EnsureInitialBackup, InitialBackupCreated, AnnotateResources, EnsureStagePodsFromRunning,
    EnsureStagePodsFromTemplates, EnsureStagePodsFromOrphanedPVCs, StagePodsCreated,
    RestartRestic, ResticRestarted, QuiesceApplications, EnsureQuiesced, UnQuiesceApplications,
    EnsureStageBackup, StageBackupCreated, EnsureStageBackupReplicated, PostBackupHooks,
    PreRestoreHooks, EnsureStageRestore, StageRestoreCreated, EnsureStagePodsDeleted,
    EnsureStagePodsTerminated, EnsureAnnotationsDeleted, EnsureLabelsDeleted,
    EnsureInitialBackupReplicated, EnsureFinalRestore, FinalRestoreCreated, PostRestoreHooks,
    Verification, EnsureMigratedDeleted, DeleteMigrated, DeleteBackups, DeleteRestores,
    Canceling, Canceled, InitialBackupFailed, FinalRestoreFailed, StageBackupFailed,
    StageRestoreFailed]

theorem stepErr_ok (t : Task) (op : Op Unit) (h : (op t).2 = .ok ()) :
    t.stepErr op none = (({ t with Owner := (op t).1 } : Task).next, none) := by
  unfold Task.stepErr
  simp only [Task.call, h]

theorem stepBool_ok (t : Task) (op : Op Bool) (requeue : Nat) (h : (op t).2 = .ok true) :
    t.stepBool op requeue = (({ t with Owner := (op t).1 } : Task).next, none) := by
  unfold Task.stepBool
  simp only [Task.call, h, if_true]

theorem run_of_dispatch (k : Consts) (settings : Settings) (ops : Ops) (t v : Task)
    (h : Task.dispatch k settings ops (t.init k) = (v, none)) :
    (t.Run k settings ops).2 = none ∧ (t.Run k settings ops).1.Phase = v.Phase ∧
    (t.Run k settings ops).1.Itinerary = v.Itinerary ∧
    (t.Run k settings ops).1.Owner = v.Owner := by
  have hrun : t.Run k settings ops =
      (match Task.dispatch k settings ops (t.init k) with
        | (t', some err) => (t', some err)
        | (t', none) =>
          if t'.Phase == Completed then ({ t' with Requeue := NoReQ }, none) else (t', none)) :=
    rfl
  rw [hrun, h]
  simp only
  split_ifs <;> exact ⟨rfl, rfl, rfl, rfl⟩

theorem init_owner_errors (k : Consts) (t : Task) :
    (t.init k).Owner.Status.Errors = t.Owner.Status.Errors := by
  unfold Task.init
  simp only [Task.setCondition, MigMigrationStatus.SetCondition]
  split_ifs <;> rfl

theorem failed_steps_phases (p : String) (i : Nat)
    (h : Task.currentIndex FailedItinerary.Steps p = some i) :
    p = MigrationFailed ∨ p = EnsureStagePodsDeleted ∨ p = EnsureAnnotationsDeleted ∨
      p = DeleteMigrated ∨ p = EnsureMigratedDeleted ∨ p = UnQuiesceApplications ∨
      p = Completed := by
  have hlt := currentIndex_lt_length _ _ _ h
  obtain ⟨s, hs, rfl⟩ := currentIndex_some_spec _ _ _ h
  have hlen : FailedItinerary.Steps.length = 7 := rfl
  rw [hlen] at hlt
  interval_cases i <;> simp [FailedItinerary] at hs <;> subst hs <;> simp

theorem failed_next (v : Task) (i : Nat) (hI : v.Itinerary = FailedItinerary)
    (hcur : Task.currentIndex FailedItinerary.Steps v.Phase = some i) :
    v.next.Itinerary = FailedItinerary ∧ v.next.Owner = v.Owner ∧
    (v.next.Phase = Completed ∨
      ∃ j, i < j ∧ Task.currentIndex FailedItinerary.Steps v.next.Phase = some j) := by
  obtain ⟨h1, -, -, h4, -⟩ := next_frame v
  refine ⟨h4.trans hI, h1, ?_⟩
  have := next_index_step v (by rw [hI]; decide) i (by rw [hI]; exact hcur)
  rw [hI] at this
  exact this

theorem failed_dispatch (k : Consts) (settings : Settings) (ops : Ops) (w : Task) (i : Nat)
    (hI : w.Itinerary = FailedItinerary)
    (hcur : Task.currentIndex FailedItinerary.Steps w.Phase = some i)
    (hops : ops.rollbackSucceeds ∨ w.Phase = MigrationFailed ∨ w.Phase = Completed) :
    ∃ v : Task, Task.dispatch k settings ops w = (v, none) ∧
      v.Itinerary = FailedItinerary ∧
      v.Owner.Status.Errors = w.Owner.Status.Errors ∧
      (v.Phase = Completed ∨
        ∃ j, i < j ∧ Task.currentIndex FailedItinerary.Steps v.Phase = some j) ∧
      (settings.Migration.FailureRollback = false → w.Phase = MigrationFailed →
        v.Phase = Completed) ∧
      (w.Phase = Completed → v.Phase = Completed) := by
  have hstep : ∀ v : Task, v.Itinerary = FailedItinerary → v.Phase = w.Phase →
      v.Owner.Status.Errors = w.Owner.Status.Errors →
      settings.Migration.FailureRollback = true ∨ w.Phase ≠ MigrationFailed →
      w.Phase ≠ Completed →
      v.next.Itinerary = FailedItinerary ∧
      v.next.Owner.Status.Errors = w.Owner.Status.Errors ∧
      (v.next.Phase = Completed ∨
        ∃ j, i < j ∧ Task.currentIndex FailedItinerary.Steps v.next.Phase = some j) ∧
      (settings.Migration.FailureRollback = false → w.Phase = MigrationFailed →
        v.next.Phase = Completed) ∧
      (w.Phase = Completed → v.next.Phase = Completed) := by
    intro v hvI hvP hvE hroll hnc
    obtain ⟨h1, h2, h3⟩ := failed_next v i hvI (by rw [hvP]; exact hcur)
    refine ⟨h1, by rw [h2]; exact hvE, h3, ?_, fun h => absurd h hnc⟩
    intro hoff hmf
    rcases hroll with h | h
    · rw [hoff] at h; exact absurd h (by decide)
    · exact absurd hmf h
  have hsucc : ∀ p : String, w.Phase = p → p ≠ MigrationFailed → p ≠ Completed →
      ops.rollbackSucceeds := by
    intro p hp h1 h2
    rcases hops with h | h | h
    · exact h
    · exact absurd (hp.symm.trans h) h1
    · exact absurd (hp.symm.trans h) h2
  obtain ⟨d1, d2, d3, d4, d5, -⟩ := dispatch_failedSteps k settings ops w
  rcases failed_steps_phases _ _ hcur with h | h | h | h | h | h | h
  · rcases Bool.eq_false_or_eq_true settings.Migration.FailureRollback with hr | hr
    · exact ⟨w.next, by rw [dispatch_migrationFailed k settings ops w h, if_pos hr],
        hstep w hI rfl rfl (Or.inl hr) (by rw [h]; decide)⟩
    · exact ⟨{ w with Phase := Completed },
        by rw [dispatch_migrationFailed k settings ops w h, hr]; simp,
        hI, rfl, Or.inl rfl, fun _ _ => rfl, fun _ => rfl⟩
  · obtain ⟨⟨o1, o2⟩, -⟩ := hsucc _ h (by decide) (by decide) w
    rw [d1 h, stepErr_ok w _ o1]
    exact ⟨_, rfl, hstep _ hI rfl o2 (Or.inr (by rw [h]; decide)) (by rw [h]; decide)⟩
  · obtain ⟨-, ⟨o1, o2⟩, -⟩ := hsucc _ h (by decide) (by decide) w
    rw [d2 h]
    cases hk : w.keepAnnotations
    · simp only [Bool.not_false, if_true]
      rw [stepErr_ok w _ o1]
      exact ⟨_, rfl, hstep _ hI rfl o2 (Or.inr (by rw [h]; decide)) (by rw [h]; decide)⟩
    · simp only [Bool.not_true, Bool.false_eq_true, if_false]
      exact ⟨_, rfl, hstep w hI rfl rfl (Or.inr (by rw [h]; decide)) (by rw [h]; decide)⟩
  · obtain ⟨-, -, ⟨o1, o2⟩, -⟩ := hsucc _ h (by decide) (by decide) w
    rw [d3 h, stepErr_ok w _ o1]
    exact ⟨_, rfl, hstep _ hI rfl o2 (Or.inr (by rw [h]; decide)) (by rw [h]; decide)⟩
  · obtain ⟨-, -, -, ⟨o1, o2⟩, -⟩ := hsucc _ h (by decide) (by decide) w
    rw [d4 h, stepBool_ok w _ _ o1]
    exact ⟨_, rfl, hstep _ hI rfl o2 (Or.inr (by rw [h]; decide)) (by rw [h]; decide)⟩
  · obtain ⟨-, -, -, -, o1, o2⟩ := hsucc _ h (by decide) (by decide) w
    rw [d5 h, stepErr_ok w _ o1]
    exact ⟨_, rfl, hstep _ hI rfl o2 (Or.inr (by rw [h]; decide)) (by rw [h]; decide)⟩
  · rw [dispatch_completed k settings ops w h]
    exact ⟨w, rfl, hI, rfl, Or.inl h, fun _ _ => h, fun _ => h⟩

theorem failed_tick (k : Consts) (settings : Settings) (ops : Ops) (u : Task) (i : Nat)
    (hI : (u.init k).Itinerary = FailedItinerary)
    (hcur : Task.currentIndex FailedItinerary.Steps (u.init k).Phase = some i)
    (hops : ops.rollbackSucceeds ∨ (u.init k).Phase = MigrationFailed ∨
      (u.init k).Phase = Completed) :
    (u.Run k settings ops).2 = none ∧
    (u.Run k settings ops).1.Itinerary = FailedItinerary ∧
    (u.Run k settings ops).1.Owner.Status.Errors = u.Owner.Status.Errors ∧
    ((u.Run k settings ops).1.Phase = Completed ∨
      ∃ j, i < j ∧
        Task.currentIndex FailedItinerary.Steps (u.Run k settings ops).1.Phase = some j) ∧
    (settings.Migration.FailureRollback = false → (u.init k).Phase = MigrationFailed →
      (u.Run k settings ops).1.Phase = Completed) ∧
    ((u.init k).Phase = Completed → (u.Run k settings ops).1.Phase = Completed) := by
  obtain ⟨v, hd, h1, h2, h3, h4, h5⟩ := failed_dispatch k settings ops (u.init k) i hI hcur hops
  obtain ⟨r1, r2, r3, r4⟩ := run_of_dispatch k settings ops u v hd
  rw [r2]
  exact ⟨r1, r3.trans h1, by rw [r4, h2, init_owner_errors], h3, h4, h5⟩

theorem failed_of_errors (u : Task) (h : u.Owner.Status.Errors ≠ []) : u.failed = true := by
  simp only [Task.failed, MigMigration.HasErrors, Bool.or_eq_true, Bool.not_eq_true',
    List.isEmpty_eq_false]
  cases h' : u.Owner.Status.Errors with
  | nil => exact absurd h' h
  | cons a l => simp

theorem first_failed_tick (k : Consts) (settings : Settings) (ops : Ops) (u : Task)
    (herr : u.Owner.Status.Errors ≠ []) (hp : u.Phase = InitialBackupFailed) :
    (u.Run k settings ops).2 = none ∧
    (u.Run k settings ops).1.Itinerary = FailedItinerary ∧
    (u.Run k settings ops).1.Owner.Status.Errors = u.Owner.Status.Errors ∧
    ((u.Run k settings ops).1.Phase = Completed ∨
      ∃ j, 0 < j ∧
        Task.currentIndex FailedItinerary.Steps (u.Run k settings ops).1.Phase = some j) ∧
    (settings.Migration.FailureRollback = false →
      (u.Run k settings ops).1.Phase = Completed) := by
  have hI := init_failed_itinerary k u (failed_of_errors u herr)
  have hph := init_phase_eq k u
  rw [hI] at hph
  by_cases hrec : u.Owner.Status.Itenerary = "Failed"
  · have hph2 : (u.init k).Phase = InitialBackupFailed := by
      rw [hph]
      simp [FailedItinerary, hrec, hp]
    have hd := (dispatch_failedSteps k settings ops (u.init k)).2.2.2.2.2 hph2
    obtain ⟨r1, r2, r3, r4⟩ := run_of_dispatch k settings ops u _ hd
    have hnext : (({ u.init k with Requeue := NoReQ } : Task).next).Phase = Completed := by
      have hcur : Task.currentIndex
          ({ u.init k with Requeue := NoReQ } : Task).Itinerary.Steps
          ({ u.init k with Requeue := NoReQ } : Task).Phase = none := by
        show Task.currentIndex (u.init k).Itinerary.Steps (u.init k).Phase = none
        rw [hI, hph2]
        decide
      simp [Task.next, hcur]
    obtain ⟨n1, -, -, n4, -⟩ := next_frame ({ u.init k with Requeue := NoReQ } : Task)
    refine ⟨r1, ?_, ?_, Or.inl (r2.trans hnext), fun _ => r2.trans hnext⟩
    · rw [r3, n4]; exact hI
    · rw [r4, n1]; exact init_owner_errors k u
  · have hph2 : (u.init k).Phase = MigrationFailed := by
      rw [hph]
      simp only [FailedItinerary, bne_iff_ne, ne_eq, hrec, not_false_eq_true, if_true]
      rfl
    have hcur : Task.currentIndex FailedItinerary.Steps (u.init k).Phase = some 0 := by
      rw [hph2]; decide
    obtain ⟨h1, h2, h3, h4, h5, -⟩ :=
      failed_tick k settings ops u 0 hI hcur (Or.inr (Or.inl hph2))
    exact ⟨h1, h2, h3, h4, fun hoff => h5 hoff hph2⟩

theorem later_failed_tick (k : Consts) (settings : Settings) (ops : Ops) (u : Task) (n : Nat)
    (herr : u.Owner.Status.Errors ≠ []) (hrec : u.Owner.Status.Itenerary = "Failed")
    (hidx : u.Phase = Completed ∨
      ∃ j, n ≤ j ∧ Task.currentIndex FailedItinerary.Steps u.Phase = some j)
    (hops : ops.rollbackSucceeds ∨ u.Phase = Completed) :
    (u.Run k settings ops).2 = none ∧
    (u.Run k settings ops).1.Itinerary = FailedItinerary ∧
    (u.Run k settings ops).1.Owner.Status.Errors = u.Owner.Status.Errors ∧
    ((u.Run k settings ops).1.Phase = Completed ∨
      ∃ j, n + 1 ≤ j ∧
        Task.currentIndex FailedItinerary.Steps (u.Run k settings ops).1.Phase = some j) ∧
    (u.Phase = Completed → (u.Run k settings ops).1.Phase = Completed) := by
  have hI := init_failed_itinerary k u (failed_of_errors u herr)
  have hph : (u.init k).Phase = u.Phase := by
    rw [init_phase_eq, hI]
    simp [FailedItinerary, hrec]
  have hops2 : ops.rollbackSucceeds ∨ (u.init k).Phase = MigrationFailed ∨
      (u.init k).Phase = Completed := by
    rcases hops with h | h
    · exact Or.inl h
    · exact Or.inr (Or.inr (hph.trans h))
  have hex : ∃ j, (u.Phase = Completed ∨ n ≤ j) ∧
      Task.currentIndex FailedItinerary.Steps (u.init k).Phase = some j := by
    rcases hidx with h | ⟨j, hj, hc⟩
    · exact ⟨6, Or.inl h, by rw [hph, h]; decide⟩
    · exact ⟨j, Or.inr hj, by rw [hph]; exact hc⟩
  obtain ⟨j, hj, hcur⟩ := hex
  obtain ⟨h1, h2, h3, h4, -, h6⟩ := failed_tick k settings ops u j hI hcur hops2
  refine ⟨h1, h2, h3, ?_, fun h => h6 (hph.trans h)⟩
  rcases hj with hc | hj
  · exact Or.inl (h6 (hph.trans hc))
  · rcases h4 with h | ⟨j2, hlt, hc2⟩
    · exact Or.inl h
    · exact Or.inr ⟨j2, by omega, hc2⟩

theorem failed_ticks (k : Consts) (settings : Settings) (ops : Ops) (resume : Task → Task)
    (r : Task) (hp : r.Phase = InitialBackupFailed) (herr : r.Owner.Status.Errors ≠ [])
    (hres : Resumes resume)
    (hops : settings.Migration.FailureRollback = false ∨ ops.rollbackSucceeds) (n : Nat) :
    ((resume (Task.ticks k settings ops resume r n)).Run k settings ops).2 = none ∧
    (Task.ticks k settings ops resume r (n + 1)).Itinerary = FailedItinerary ∧
    (Task.ticks k settings ops resume r (n + 1)).Owner.Status.Errors ≠ [] ∧
    ((Task.ticks k settings ops resume r (n + 1)).Phase = Completed ∨
      ∃ j, n + 1 ≤ j ∧ Task.currentIndex FailedItinerary.Steps
        (Task.ticks k settings ops resume r (n + 1)).Phase = some j) ∧
    (settings.Migration.FailureRollback = false →
      (Task.ticks k settings ops resume r (n + 1)).Phase = Completed) := by
  induction n with
  | zero =>
    obtain ⟨e1, e2, e3⟩ := hres r
    have hstep := first_failed_tick k settings ops (resume r) (by rw [e3]; exact herr)
      (e1.trans hp)
    obtain ⟨h1, h2, h3, h4, h5⟩ := hstep
    exact ⟨h1, h2, by
      show ((resume r).Run k settings ops).1.Owner.Status.Errors ≠ []
      rw [h3, e3]; exact herr, h4, h5⟩
  | succ n ih =>
    obtain ⟨-, i2, i3, i4, i5⟩ := ih
    obtain ⟨e1, e2, e3⟩ := hres (Task.ticks k settings ops resume r (n + 1))
    have hops2 : ops.rollbackSucceeds ∨
        (resume (Task.ticks k settings ops resume r (n + 1))).Phase = Completed := by
      rcases hops with h | h
      · exact Or.inr (e1.trans (i5 h))
      · exact Or.inl h
    have hstep := later_failed_tick k settings ops
      (resume (Task.ticks k settings ops resume r (n + 1))) (n + 1)
      (by rw [e3]; exact i3) (by rw [e2, i2]; rfl) (by rw [e1]; exact i4) hops2
    obtain ⟨h1, h2, h3, h4, h5⟩ := hstep
    refine ⟨h1, h2, ?_, h4, fun hoff => h5 (e1.trans (i5 hoff))⟩
    show ((resume (Task.ticks k settings ops resume r (n + 1))).Run k settings ops).1.Owner.Status.Errors
      ≠ []
    rw [h3, e3]
    exact i3

theorem failed_index_completed (p : String) (j : Nat) (hj : 6 ≤ j)
    (h : Task.currentIndex FailedItinerary.Steps p = some j) : p = Completed := by
  have hlt := currentIndex_lt_length _ _ _ h
  obtain ⟨s, hs, rfl⟩ := currentIndex_some_spec _ _ _ h
  have hlen : FailedItinerary.Steps.length = 7 := rfl
  rw [hlen] at hlt
  have : j = 6 := by omega
  subst this
  simp [FailedItinerary] at hs
  subst hs
  rfl

/-- C20 as stated fails: on the tick at `InitialBackupCreated` with the initial
backup `velero/migration-x7k2p` reported `Failed`, the migration gets exactly
one `Failed` condition; its reason is `InitialBackupCreated`, but its message
is the fixed text `FailedMessage` and does not contain
`Backup: velero/migration-x7k2p failed.`, which goes to the error list. -/
theorem backup_failure_message_counterexample :
    (sampleBackupWaitTask.init sampleConsts).Phase = InitialBackupCreated ∧
    failedBackupOps.getInitialBackup (sampleBackupWaitTask.init sampleConsts)
      = ((sampleBackupWaitTask.init sampleConsts).Owner, .ok (some sampleFailedBackup)) ∧
    sampleFailedBackup.Status.Phase = BackupPhaseFailed ∧
    ((sampleBackupWaitTask.Run sampleConsts {} failedBackupOps).1.Owner.Status.Conditions.map
        (fun c => (c.Type_, c.Reason, c.Message))
      = [(Failed, InitialBackupCreated, sampleConsts.FailedMessage)]) ∧
    (∀ c ∈ (sampleBackupWaitTask.Run sampleConsts {} failedBackupOps).1.Owner.Status.Conditions,
      c.Type_ = Failed →
        ¬ ("Backup: velero/migration-x7k2p failed.".data <:+: c.Message.data)) ∧
    "Backup: velero/migration-x7k2p failed."
      ∈ (sampleBackupWaitTask.Run sampleConsts {} failedBackupOps).1.Owner.Status.Errors :=
  ⟨by decide, rfl, by decide, by decide, by decide, by decide⟩

/-- C20, amended: when the phase dispatched is `InitialBackupCreated` and the
BR engine reports the initial backup in phase `Failed`, the tick returns no
error and ends in phase `InitialBackupFailed`; the text
`Backup: <ns>/<name> failed.` is appended to the task's errors and is among
the migration's errors; the migration holds a `Failed` condition, and every
`Failed` condition it holds has status `True`, reason `InitialBackupCreated`
and the fixed message `FailedMessage`; on a following tick, the migration
keeping these errors, `init` selects the Failed itinerary (and resets the
phase to `MigrationFailed` when the recorded itinerary is another one).  And
the ticks of `Run` that follow, each on the task resumed from the one before
(phase, recorded itinerary name and errors taken over), return no error, stay
in the Failed itinerary and reach `Completed`: from the first of them on when
failure rollback is off, whatever the helpers do, and within six ticks when
the helpers that the handlers of the Failed itinerary call succeed. -/
theorem backup_failure_tick (k : Consts) (settings : Settings) (ops : Ops) (t : Task)
    (o : MigMigration) (backup : Backup)
    (hp : (t.init k).Phase = InitialBackupCreated)
    (hget : ops.getInitialBackup (t.init k) = (o, .ok (some backup)))
    (hfail : backup.Status.Phase = BackupPhaseFailed) :
    (t.Run k settings ops).2 = none ∧
    (t.Run k settings ops).1.Phase = InitialBackupFailed ∧
    (t.Run k settings ops).1.Errors
      = t.Errors ++ ["Backup: " ++ backup.Namespace ++ "/" ++ backup.Name ++ " failed."] ∧
    ("Backup: " ++ backup.Namespace ++ "/" ++ backup.Name ++ " failed.")
      ∈ (t.Run k settings ops).1.Owner.Status.Errors ∧
    (∃ c ∈ (t.Run k settings ops).1.Owner.Status.Conditions, c.Type_ = Failed) ∧
    (∀ c ∈ (t.Run k settings ops).1.Owner.Status.Conditions, c.Type_ = Failed →
      c.Status = True_ ∧ c.Reason = InitialBackupCreated ∧ c.Message = k.FailedMessage ∧
      c.Durable = true) ∧
    (∀ t2 : Task, t2.Owner.Status.Errors = (t.Run k settings ops).1.Owner.Status.Errors →
      (t2.init k).Itinerary = FailedItinerary ∧
      (t2.Owner.Status.Itenerary ≠ "Failed" → (t2.init k).Phase = MigrationFailed)) ∧
    (∀ (later : Ops) (resume : Task → Task), Resumes resume →
      (settings.Migration.FailureRollback = false ∨ later.rollbackSucceeds) →
      (∀ n : Nat,
        ((resume (Task.ticks k settings later resume (t.Run k settings ops).1 n)).Run
          k settings later).2 = none) ∧
      (∀ n : Nat, 1 ≤ n →
        (Task.ticks k settings later resume (t.Run k settings ops).1 n).Itinerary
          = FailedItinerary) ∧
      (settings.Migration.FailureRollback = false → ∀ n : Nat, 1 ≤ n →
        (Task.ticks k settings later resume (t.Run k settings ops).1 n).Phase = Completed) ∧
      (∀ n : Nat, 6 ≤ n →
        (Task.ticks k settings later resume (t.Run k settings ops).1 n).Phase = Completed)) := by
  have hrun : t.Run k settings ops =
      (match Task.dispatch k settings ops (t.init k) with
        | (t', some err) => (t', some err)
        | (t', none) =>
          if t'.Phase == Completed then ({ t' with Requeue := NoReQ }, none) else (t', none)) :=
    rfl
  obtain ⟨u, hu, hstep⟩ := stepBackupCreated_failed k ops (t.init k) ops.getInitialBackup
    InitialBackupFailed o backup hget hfail
  have hres : t.Run k settings ops =
      (u.fail k InitialBackupFailed
        ["Backup: " ++ backup.Namespace ++ "/" ++ backup.Name ++ " failed."], none) := by
    rw [hrun, dispatch_initialBackupCreated k settings ops _ hp, hstep]
    simp only [fail_phase]
    rw [if_neg (by decide)]
  obtain ⟨hph, -, her, -⟩ :=
    hasBackupCompleted_frame ops ({ t.init k with Owner := o } : Task) backup _ hu
  simp only at hph her
  have hcond := fail_conditions k u
    InitialBackupFailed ["Backup: " ++ backup.Namespace ++ "/" ++ backup.Name ++ " failed."]
  have hphase0 : u.Phase = InitialBackupCreated := hph.trans hp
  refine ⟨by simp only [hres], by simp only [hres]; exact fail_phase _ _ _ _, ?_, ?_, ?_, ?_, ?_, ?_⟩
  · rw [hres]
    show (Task.fail k _ _ _).Errors = _
    rw [fail_errors, her]
    show (t.init k).Errors ++ _ = _
    rw [init_errors]
  · rw [hres]
    simp only [fail_owner_errors]
    simp
  · rw [hres]
    simp only [hcond]
    exact ⟨_, setCondition_mem _ _, rfl⟩
  · intro c hc hty
    rw [hres] at hc
    simp only [hcond] at hc
    have := setCondition_unique _ _ c hc hty
    rw [this, hphase0]
    exact ⟨rfl, rfl, rfl, rfl⟩
  · intro t2 herrs
    have hne : t2.Owner.Status.Errors ≠ [] := by
      rw [herrs, hres, fail_owner_errors]
      simp
    have hfailed : t2.failed = true := failed_of_errors t2 hne
    refine ⟨init_failed_itinerary k t2 hfailed, ?_⟩
    intro hrec
    rw [init_phase_eq, init_failed_itinerary k t2 hfailed]
    simp only [FailedItinerary, bne_iff_ne, ne_eq, hrec, not_false_eq_true, if_true]
    rfl
  · intro later resume hresume hops
    have hp1 : (t.Run k settings ops).1.Phase = InitialBackupFailed := by
      rw [hres]; exact fail_phase _ _ _ _
    have herr1 : (t.Run k settings ops).1.Owner.Status.Errors ≠ [] := by
      rw [hres, fail_owner_errors]
      simp
    have hall := failed_ticks k settings later resume _ hp1 herr1 hresume hops
    refine ⟨fun n => (hall n).1, ?_, ?_, ?_⟩
    · intro n hn
      obtain ⟨m, rfl⟩ : ∃ m, n = m + 1 := ⟨n - 1, by omega⟩
      exact (hall m).2.1
    · intro hoff n hn
      obtain ⟨m, rfl⟩ : ∃ m, n = m + 1 := ⟨n - 1, by omega⟩
      exact (hall m).2.2.2.2 hoff
    · intro n hn
      obtain ⟨m, rfl⟩ : ∃ m, n = m + 1 := ⟨n - 1, by omega⟩
      rcases (hall m).2.2.2.1 with h | ⟨j, hj, hc⟩
      · exact h
      · exact failed_index_completed _ j (by omega) hc

theorem sample_failure_ticks :
    (List.range 5).map (fun n =>
        (Task.ticks sampleConsts rollbackSettings quietOps Task.resume
          (sampleBackupWaitTask.Run sampleConsts rollbackSettings failedBackupOps).1 n).Phase)
      = [InitialBackupFailed, DeleteMigrated, EnsureMigratedDeleted, Completed, Completed] := by
  decide

/-- Instance of C20 (amended): the tick on the final migration whose initial
backup `velero/migration-x7k2p` failed ends in `InitialBackupFailed`; with
failure rollback on and helpers that succeed, the following ticks pass
`DeleteMigrated` and `EnsureMigratedDeleted` and reach `Completed`. -/
theorem backup_failure_tick_witness :
    (sampleBackupWaitTask.init sampleConsts).Phase = InitialBackupCreated ∧
    sampleFailedBackup.Status.Phase = BackupPhaseFailed ∧
    (sampleBackupWaitTask.Run sampleConsts rollbackSettings failedBackupOps).1.Phase
      = InitialBackupFailed ∧
    Resumes Task.resume ∧
    quietOps.rollbackSucceeds ∧
    (List.range 5).map (fun n =>
        (Task.ticks sampleConsts rollbackSettings quietOps Task.resume
          (sampleBackupWaitTask.Run sampleConsts rollbackSettings failedBackupOps).1 n).Phase)
      = [InitialBackupFailed, DeleteMigrated, EnsureMigratedDeleted, Completed, Completed] ∧
    (Task.ticks sampleConsts rollbackSettings quietOps Task.resume
      (sampleBackupWaitTask.Run sampleConsts rollbackSettings failedBackupOps).1 6).Phase
      = Completed :=
  have h := backup_failure_tick sampleConsts rollbackSettings failedBackupOps
    sampleBackupWaitTask (sampleBackupWaitTask.init sampleConsts).Owner sampleFailedBackup
    (by decide) rfl (by decide)
  ⟨by decide, by decide, h.2.1, fun _ => ⟨rfl, rfl, rfl⟩,
    fun _ => ⟨⟨rfl, rfl⟩, ⟨rfl, rfl⟩, ⟨rfl, rfl⟩, ⟨rfl, rfl⟩, ⟨rfl, rfl⟩⟩,
    sample_failure_ticks,
    (h.2.2.2.2.2.2.2 quietOps Task.resume (fun _ => ⟨rfl, rfl, rfl⟩)
      (Or.inr (fun _ => ⟨⟨rfl, rfl⟩, ⟨rfl, rfl⟩, ⟨rfl, rfl⟩, ⟨rfl, rfl⟩, ⟨rfl, rfl⟩⟩))).2.2.2
      6 (le_refl 6)⟩

end Mig
